import Mathlib

/-!
# Verification of `pod/annotations.go` (titus-kube-common)

A shallow embedding of the annotation parser of the `pod` package and theorems
about it.

Conventions of the embedding:

* a Go `string` is a list of characters (`Str`);
* a Go `map[string]T` that is only read by `range` is the list of its
  entries in the order in which the `range` loop visits them (`List (Str × T)`);
  a well-formed Go map has pairwise distinct keys, which theorems that need it
  assume as `keysDistinct`;
* a Go map that is written is an association list (`mapLookup`, `mapStore`);
  the order in which its values are finally emitted is one particular
  iteration order, and theorems only state facts that do not depend on it;
* a `*multierror.Error` is the list of its entries, `[]` standing for `nil`;
  an `error` is its message;
* the functions of the Go standard library that the parser calls
  (`strings.HasPrefix`, `strings.TrimPrefix`, `strings.Split`,
  `strconv.ParseBool`, `strconv.Atoi`) are written out;
* the external function `reference.Parse` is a parameter `parse` of the
  functions that call it, so that the general theorems hold for every parser;
  `referenceParse` is a model of its grammar, used for the concrete inputs;
* `parseAnnotations` takes the annotation map of the pod and the name of its
  user container in place of the pod; the functions of other libraries that it
  calls (`resource.ParseQuantity`, `time.ParseDuration`, `regexp.Compile`,
  `reference.Parse`) are the fields of its parameter `lib`, so that the
  general theorems hold for every library, and `durationParse`,
  `quantityParse` and `regexpCompile` are models of a part of their grammars,
  used for the concrete inputs; `strconv.ParseInt`, `strconv.ParseUint` and
  `strings.TrimSpace` are written out;
* in `parseAnnotations` the variable `err` is an `Option`, `none` being the nil
  pointer, and the returned `error` is `none` for nil and `some` of the
  entries otherwise;
* the fields of `Config` that the four tables of `parseAnnotations` point to
  are functions of the field name, one per type of field.
-/

namespace Pod

/-! ## Go strings and the `strings` / `strconv` helpers used by the parser -/

/-- A Go string. -/
abbrev Str := List Char

/-- An `error`, represented by its message. -/
abbrev Err := Str

/-- `strings.HasPrefix s pre`. -/
def HasPrefix : Str → Str → Bool
  | _, [] => true
  | [], _ :: _ => false
  | c :: s, p :: ps => decide (c = p) && HasPrefix s ps

/-- `strings.TrimPrefix s pre`: `s` without the leading `pre`, or `s` itself. -/
def TrimPrefix (s pre : Str) : Str :=
  if HasPrefix s pre then s.drop pre.length else s

/-- `strings.Split s sep` for a one-character separator: the pieces of `s`
between the occurrences of `sep`; always at least one piece. -/
def Split : Str → Char → List Str
  | [], _ => [[]]
  | c :: cs, sep =>
    if c = sep then [] :: Split cs sep
    else
      match Split cs sep with
      | [] => [[c]]
      | piece :: pieces => (c :: piece) :: pieces

/-- `strconv.ParseBool`: the twelve accepted spellings, anything else fails. -/
def ParseBool (s : Str) : Option Bool :=
  if s = "1".toList ∨ s = "t".toList ∨ s = "T".toList ∨ s = "TRUE".toList
      ∨ s = "true".toList ∨ s = "True".toList then some true
  else if s = "0".toList ∨ s = "f".toList ∨ s = "F".toList ∨ s = "FALSE".toList
      ∨ s = "false".toList ∨ s = "False".toList then some false
  else none

/-- Value of a run of decimal digits on top of the accumulator `acc`;
`none` when a character is not a digit. -/
def parseDigits : Str → Nat → Option Nat
  | [], acc => some acc
  | c :: cs, acc =>
    if c.isDigit then parseDigits cs (acc * 10 + (c.toNat - 48)) else none

/-- `strconv.Atoi` on a 64-bit platform: an optional sign, then at least one
decimal digit; fails on any other text and when the value does not fit `int`. -/
def Atoi (s : Str) : Option Int :=
  match s with
  | [] => none
  | c :: rest =>
    if c = '-' then
      if rest = [] then none
      else
        match parseDigits rest 0 with
        | none => none
        | some n => if n ≤ 2 ^ 63 then some (-(n : Int)) else none
    else if c = '+' then
      if rest = [] then none
      else
        match parseDigits rest 0 with
        | none => none
        | some n => if n < 2 ^ 63 then some (n : Int) else none
    else
      match parseDigits s 0 with
      | none => none
      | some n => if n < 2 ^ 63 then some (n : Int) else none

/-! ## Go maps that are written: association lists -/

/-- `m[k]` with the comma-ok form. -/
def mapLookup {β : Type} : List (Str × β) → Str → Option β
  | [], _ => none
  | (k', b) :: m, k => if k' = k then some b else mapLookup m k

/-- `m[k] = b`. -/
def mapStore {β : Type} : List (Str × β) → Str → β → List (Str × β)
  | [], k, b => [(k, b)]
  | (k', b') :: m, k, b =>
    if k' = k then (k, b) :: m else (k', b') :: mapStore m k b

/-- The keys of a well-formed Go map are pairwise distinct. -/
def keysDistinct {β : Type} (m : List (Str × β)) : Prop :=
  (m.map Prod.fst).Nodup

instance {β : Type} (m : List (Str × β)) : Decidable (keysDistinct m) := by
  unfold keysDistinct; infer_instance

/-! ## Data model -/

/-- `AnnotationKeyServicePrefix`. -/
def AnnotationKeyServicePrefix : Str := "service.netflix.com".toList

/-- Text of the failure for a key that does not have three segments. -/
def msgServiceParams : Err :=
  "annotation has an incorrect number of service configuration parameters: ".toList

/-- Text of the failure for a version segment that is not a number. -/
def msgServiceVersion : Err :=
  "annotation has an incorrect service version number: ".toList

/-- Text of the failure for an `enabled` value that is not a boolean. -/
def msgServiceEnabled : Err :=
  "annotation has an incorrect service enabled boolean value: ".toList

/-- Text of the failure for an `image` value that does not validate. -/
def msgServiceImage : Err :=
  "error parsing service image annotation: ".toList

/-- Text of the error of `validateImage` for a bare name. -/
def msgNoDigestOrTag : Err :=
  "image does not have a digest or tag".toList

/-- The `Sidecar` record. -/
structure Sidecar where
  Name : Str
  Version : Int
  Enabled : Bool
  Image : Str
deriving DecidableEq

/-- The `*bool` fields of `Config` that `boolAnnotations` points to. -/
inductive BoolField where
  | LogKeepLocalFile
  | AssignIPv6Address
  | NetworkBurstingEnabled
  | JumboFramesEnabled
  | CPUBurstingEnabled
  | FuseEnabled
  | KvmEnabled
  | SeccompAgentNetEnabled
  | SeccompAgentPerfEnabled
deriving DecidableEq

/-- The `*time.Duration` fields of `Config` that `durationAnnotations` points to. -/
inductive DurationField where
  | LogStdioCheckInterval
  | LogUploadCheckInterval
  | LogUploadThresholdTime
deriving DecidableEq

/-- The `*resource.Quantity` fields of `Config` that `resourceAnnotations` points to. -/
inductive ResourceField where
  | EgressBandwidth
  | IngressBandwidth
deriving DecidableEq

/-- The `*string` fields of `Config` that `stringAnnotations` points to. -/
inductive StringField where
  | AppArmorProfile
  | AppDetail
  | AppName
  | AppOwnerEmail
  | AppSequence
  | AppStack
  | IAMRole
  | JobDescriptor
  | JobID
  | JobType
  | LogS3BucketName
  | LogS3PathPrefix
  | LogS3WriterIAMRole
  | AccountID
  | ElasticIPPool
  | ElasticIPs
  | IMDSRequireToken
  | StaticIPAllocationUUID
  | SubnetIDs
  | ContainerInfo
  | HostnameStyle
  | SchedPolicy
  | AppMetadata
  | AppMetadataSig
deriving DecidableEq

/-- A `time.Duration`: a number of nanoseconds. -/
abbrev Duration := Int

/-- A `resource.Quantity`, by the number it denotes. -/
structure Quantity where
  value : ℚ
deriving DecidableEq

/-- A compiled `*regexp.Regexp`, by the source text that `String()` returns. -/
structure Regexp where
  expr : Str
deriving DecidableEq

/-- The part of the `Config` record that `parseAnnotations` writes. A pointer
field is an `Option`, `none` being nil. The fields that the four tables of
`parseAnnotations` point to are grouped by type and indexed by the field name,
so that `&pConf.KvmEnabled` is the index `BoolField.KvmEnabled`. -/
structure Config where
  Sidecars : List Sidecar := []
  bools : BoolField → Option Bool := fun _ => none
  durations : DurationField → Option Duration := fun _ => none
  resources : ResourceField → Option Quantity := fun _ => none
  strings : StringField → Option Str := fun _ => none
  PodSchemaVersion : Option Nat := none
  JobAcceptedTimestampMs : Option Nat := none
  OomScoreAdj : Option Int := none
  LogUploadRegExp : Option Regexp := none
  SecurityGroupIDs : Option (List Str) := none

/-! ## Image references -/

/-- What `validateImage` asks of the value returned by `reference.Parse`:
whether it implements `reference.Digested` and `reference.Tagged`. -/
structure Reference where
  digested : Bool
  tagged : Bool
deriving DecidableEq

/-- `validateImage`: `none` is the `nil` error. -/
def validateImage (parse : Str → Except Err Reference) (image : Str) : Option Err :=
  match parse image with
  | .error err => some err
  | .ok ref =>
    if !ref.digested && !ref.tagged then
      some msgNoDigestOrTag
    else none

/-! ## A model of the grammar of `reference.Parse` -/

/-- The character class `[a-z0-9]`. -/
def isLowerAlnum (c : Char) : Bool := c.isLower || c.isDigit

/-- The character class `\w`, that is `[0-9A-Za-z_]`. -/
def isWordChar (c : Char) : Bool := c.isAlphanum || decide (c = '_')

/-- The character class `[0-9a-f]`. -/
def isLowerHex (c : Char) : Bool := c.isDigit || (decide (97 ≤ c.toNat) && decide (c.toNat ≤ 102))

/-- The character class `[[:xdigit:]]`. -/
def isHexDigit (c : Char) : Bool := isLowerHex c || (decide (65 ≤ c.toNat) && decide (c.toNat ≤ 70))

/-- States of the recogniser of a path component,
`[a-z0-9]+(?:(?:[._]|__|[-]*)[a-z0-9]+)*`. -/
inductive CompState where
  | start | alnum | dot | under1 | under2 | dash
deriving DecidableEq

/-- One character of a path component. -/
def compStep : CompState → Char → Option CompState
  | .alnum, c =>
    if isLowerAlnum c then some .alnum
    else if c = '.' then some .dot
    else if c = '_' then some .under1
    else if c = '-' then some .dash
    else none
  | .under1, c =>
    if isLowerAlnum c then some .alnum else if c = '_' then some .under2 else none
  | .dash, c =>
    if isLowerAlnum c then some .alnum else if c = '-' then some .dash else none
  | _, c => if isLowerAlnum c then some .alnum else none

/-- Runs the path-component recogniser; accepts in state `alnum`. -/
def compRun : CompState → Str → Bool
  | st, [] => decide (st = .alnum)
  | st, c :: cs =>
    match compStep st c with
    | none => false
    | some st1 => compRun st1 cs

/-- A path component of a repository name. -/
def nameComponentOk (s : Str) : Bool := compRun .start s

/-- A domain component, `[a-zA-Z0-9]|[a-zA-Z0-9][a-zA-Z0-9-]*[a-zA-Z0-9]`. -/
def domainComponentOk (s : Str) : Bool :=
  s.head?.any Char.isAlphanum && s.getLast?.any Char.isAlphanum
    && s.all fun c => c.isAlphanum || decide (c = '-')

/-- A domain: dot-separated domain components and an optional `:port`. -/
def domainOk (s : Str) : Bool :=
  match Split s ':' with
  | [host] => (Split host '.').all domainComponentOk
  | [host, port] =>
    (Split host '.').all domainComponentOk && !port.isEmpty && port.all Char.isDigit
  | _ => false

/-- A repository name: an optional domain and `/`, then path components
separated by `/`. -/
def nameOk (s : Str) : Bool :=
  match Split s '/' with
  | [] => false
  | [comp] => nameComponentOk comp
  | first :: rest => (domainOk first || nameComponentOk first) && rest.all nameComponentOk

/-- A tag, `[\w][\w.-]{0,127}`. -/
def tagOk (s : Str) : Bool :=
  s.head?.any isWordChar && decide (s.length ≤ 128)
    && s.all fun c => isWordChar c || decide (c = '.') || decide (c = '-')

/-- One component of a digest algorithm, `[A-Za-z][A-Za-z0-9]*`. -/
def algorithmComponentOk (s : Str) : Bool :=
  s.head?.any Char.isAlpha && s.all Char.isAlphanum

/-- Splits a digest algorithm at its separators `[-_+.]`. -/
def splitAlgorithm : Str → List Str
  | [] => [[]]
  | c :: cs =>
    if c = '-' ∨ c = '_' ∨ c = '+' ∨ c = '.' then [] :: splitAlgorithm cs
    else
      match splitAlgorithm cs with
      | [] => [[c]]
      | piece :: pieces => (c :: piece) :: pieces

/-- A digest as the reference grammar sees it: an algorithm, `:`, and at least
32 hexadecimal digits. -/
def digestOk (s : Str) : Bool :=
  match Split s ':' with
  | [alg, hex] =>
    (splitAlgorithm alg).all algorithmComponentOk && decide (32 ≤ hex.length)
      && hex.all isHexDigit
  | _ => false

/-- Cuts `s` at the first occurrence of `c`. -/
def cutFirst : Str → Char → Str × Option Str
  | [], _ => ([], none)
  | d :: ds, c =>
    if d = c then ([], some ds)
    else ((cutFirst ds c).1.cons d, (cutFirst ds c).2)

/-- Cuts `s` at the last occurrence of `c`. -/
def cutLast (s : Str) (c : Char) : Str × Option Str :=
  match cutFirst s.reverse c with
  | (_, none) => (s, none)
  | (after, some before) => (before.reverse, some after.reverse)

/-- The three capture groups of the anchored reference grammar
`name [":" tag] ["@" digest]` on `s`: name, tag and digest, an absent group
being empty; `none` when `s` does not match. -/
def referenceMatch (s : Str) : Option (Str × Str × Str) :=
  let byAt := cutFirst s '@'
  let byColon := cutLast byAt.1 ':'
  let nameTag : Str × Option Str :=
    match byColon.2 with
    | none => (byAt.1, none)
    | some after => if after.contains '/' then (byAt.1, none) else (byColon.1, some after)
  if nameOk nameTag.1 && nameTag.2.all tagOk && byAt.2.all digestOk then
    some (nameTag.1, nameTag.2.getD [], byAt.2.getD [])
  else none

/-- The check `digest.Parse` makes on a digest that the grammar accepted:
the algorithm is one of sha256, sha384, sha512 and is followed by that many
lower-case hexadecimal digits. `none` is success. -/
def digestValidate (s : Str) : Option Err :=
  match Split s ':' with
  | [alg, hex] =>
    let size : Option Nat :=
      if alg = "sha256".toList then some 64
      else if alg = "sha384".toList then some 96
      else if alg = "sha512".toList then some 128
      else none
    match size with
    | none =>
      if alg.all fun c => isLowerAlnum c || decide (c = '-') || decide (c = '_')
          || decide (c = '+') || decide (c = '.') then
        some "unsupported digest algorithm".toList
      else some "invalid checksum digest format".toList
    | some n =>
      if hex.length ≠ n then some "invalid checksum digest length".toList
      else if hex.all isLowerHex then none
      else some "invalid checksum digest format".toList
  | _ => some "invalid checksum digest format".toList

/-- Modelled from the spec: `reference.Parse` of the image-reference library,
which is not part of the sources of this repository, reduced to what
`validateImage` looks at: the error, or which of `Digested` and `Tagged` the
returned reference implements. A bare name has neither, `name:tag` has a tag,
`name@digest` has a digest. -/
def referenceParse (s : Str) : Except Err Reference :=
  match referenceMatch s with
  | none =>
    if s = [] then .error "repository name must have at least one component".toList
    else if (referenceMatch (s.map Char.toLower)).isSome then
      .error "repository name must be lowercase".toList
    else .error "invalid reference format".toList
  | some (name, tag, digest) =>
    if name.length > 255 then
      .error "repository name must not be more than 255 characters".toList
    else if digest ≠ [] then
      match digestValidate digest with
      | some err => .error err
      | none => .ok { digested := true, tagged := decide (tag ≠ []) }
    else .ok { digested := false, tagged := decide (tag ≠ []) }

/-! ## The composite parser -/

/-- Body of the `for k, v := range annotations` loop of
`parseServiceAnnotations`, run on the current `sidecars` map. `.error e` is
`err = multierror.Append(err, e); continue` (the map is left as it is);
`.ok m` is the map after the iteration. -/
def serviceEntry (parse : Str → Except Err Reference)
    (sidecars : List (Str × Sidecar)) (k v : Str) : Except Err (List (Str × Sidecar)) :=
  if !HasPrefix k AnnotationKeyServicePrefix then .ok sidecars
  else
    match Split (TrimPrefix k (AnnotationKeyServicePrefix ++ ['/'])) '.' with
    | [name, version, param] =>
      let created : Except Err Sidecar :=
        match mapLookup sidecars (name ++ '.' :: version) with
        | some sc => .ok sc
        | none =>
          match Atoi (TrimPrefix version ['v']) with
          | none =>
            .error (msgServiceVersion ++ k)
          | some vInt => .ok { Name := name, Version := vInt, Enabled := false, Image := [] }
      match created with
      | .error e => .error e
      | .ok sc =>
        let afterEnabled : Except Err Sidecar :=
          if param = "enabled".toList then
            match ParseBool v with
            | none => .error (msgServiceEnabled ++ k)
            | some boolVal => .ok { sc with Enabled := boolVal }
          else .ok sc
        match afterEnabled with
        | .error e => .error e
        | .ok sc1 =>
          let afterImage : Except Err Sidecar :=
            if param = "image".toList then
              match validateImage parse v with
              | some iErr => .error (msgServiceImage ++ k ++ [':', ' '] ++ iErr)
              | none => .ok { sc1 with Image := v }
            else .ok sc1
          match afterImage with
          | .error e => .error e
          | .ok sc2 => .ok (mapStore sidecars (name ++ '.' :: version) sc2)
    | _ => .error (msgServiceParams ++ k)

/-- The `range annotations` loop: the entries are visited in list order,
threading the accumulated failures and the `sidecars` map. -/
def serviceLoop (parse : Str → Except Err Reference) :
    List (Str × Str) → List Err × List (Str × Sidecar) → List Err × List (Str × Sidecar)
  | [], st => st
  | (k, v) :: rest, (err, sidecars) =>
    match serviceEntry parse sidecars k v with
    | .error e => serviceLoop parse rest (err ++ [e], sidecars)
    | .ok sidecars1 => serviceLoop parse rest (err, sidecars1)

/-- `parseServiceAnnotations`: the updated `Config` and the returned
`*multierror.Error`. -/
def parseServiceAnnotations (parse : Str → Except Err Reference)
    (annotations : List (Str × Str)) (pConf : Config) : Config × List Err :=
  let st := serviceLoop parse annotations ([], [])
  ({ pConf with Sidecars := pConf.Sidecars ++ st.2.map Prod.snd }, st.1)

/-! ## The annotation keys of the scalar parser -/

/-- `AnnotationKeyLogKeepLocalFile`. -/
def AnnotationKeyLogKeepLocalFile : Str := "log.netflix.com/keep-local-file-after-upload".toList

/-- `AnnotationKeyNetworkAssignIPv6Address`. -/
def AnnotationKeyNetworkAssignIPv6Address : Str := "network.netflix.com/assign-ipv6-address".toList

/-- `AnnotationKeyNetworkBurstingEnabled`. -/
def AnnotationKeyNetworkBurstingEnabled : Str := "network.netflix.com/network-bursting-enabled".toList

/-- `AnnotationKeyNetworkJumboFramesEnabled`. -/
def AnnotationKeyNetworkJumboFramesEnabled : Str := "network.netflix.com/jumbo-frames-enabled".toList

/-- `AnnotationKeyPodCPUBurstingEnabled`. -/
def AnnotationKeyPodCPUBurstingEnabled : Str := "pod.netflix.com/cpu-bursting-enabled".toList

/-- `AnnotationKeyPodFuseEnabled`. -/
def AnnotationKeyPodFuseEnabled : Str := "pod.netflix.com/fuse-enabled".toList

/-- `AnnotationKeyPodKvmEnabled`. -/
def AnnotationKeyPodKvmEnabled : Str := "pod.netflix.com/kvm-enabled".toList

/-- `AnnotationKeyPodSeccompAgentNetEnabled`. -/
def AnnotationKeyPodSeccompAgentNetEnabled : Str := "pod.netflix.com/seccomp-agent-net-enabled".toList

/-- `AnnotationKeyPodSeccompAgentPerfEnabled`. -/
def AnnotationKeyPodSeccompAgentPerfEnabled : Str := "pod.netflix.com/seccomp-agent-perf-enabled".toList

/-- `AnnotationKeyLogStdioCheckInterval`. -/
def AnnotationKeyLogStdioCheckInterval : Str := "log.netflix.com/stdio-check-interval".toList

/-- `AnnotationKeyLogUploadCheckInterval`. -/
def AnnotationKeyLogUploadCheckInterval : Str := "log.netflix.com/upload-check-interval".toList

/-- `AnnotationKeyLogUploadThresholdTime`. -/
def AnnotationKeyLogUploadThresholdTime : Str := "log.netflix.com/upload-threshold-time".toList

/-- `AnnotationKeyEgressBandwidth`. -/
def AnnotationKeyEgressBandwidth : Str := "kubernetes.io/egress-bandwidth".toList

/-- `AnnotationKeyIngressBandwidth`. -/
def AnnotationKeyIngressBandwidth : Str := "kubernetes.io/ingress-bandwidth".toList

/-- `AnnotationKeyAppDetail`. -/
def AnnotationKeyAppDetail : Str := "app.netflix.com/detail".toList

/-- `AnnotationKeyAppName`. -/
def AnnotationKeyAppName : Str := "app.netflix.com/name".toList

/-- `AnnotationKeyAppOwnerEmail`. -/
def AnnotationKeyAppOwnerEmail : Str := "app.netflix.com/owner-email".toList

/-- `AnnotationKeyAppSequence`. -/
def AnnotationKeyAppSequence : Str := "app.netflix.com/sequence".toList

/-- `AnnotationKeyAppStack`. -/
def AnnotationKeyAppStack : Str := "app.netflix.com/stack".toList

/-- `AnnotationKeyIAMRole`. -/
def AnnotationKeyIAMRole : Str := "iam.amazonaws.com/role".toList

/-- `AnnotationKeyJobDescriptor`. -/
def AnnotationKeyJobDescriptor : Str := "v3.job.titus.netflix.com/descriptor".toList

/-- `AnnotationKeyJobID`. -/
def AnnotationKeyJobID : Str := "v3.job.titus.netflix.com/id".toList

/-- `AnnotationKeyJobType`. -/
def AnnotationKeyJobType : Str := "v3.job.titus.netflix.com/type".toList

/-- `AnnotationKeyLogS3BucketName`. -/
def AnnotationKeyLogS3BucketName : Str := "log.netflix.com/s3-bucket-name".toList

/-- `AnnotationKeyLogS3PathPrefix`. -/
def AnnotationKeyLogS3PathPrefix : Str := "log.netflix.com/s3-path-prefix".toList

/-- `AnnotationKeyLogS3WriterIAMRole`. -/
def AnnotationKeyLogS3WriterIAMRole : Str := "log.netflix.com/s3-writer-iam-role".toList

/-- `AnnotationKeyNetworkAccountID`. -/
def AnnotationKeyNetworkAccountID : Str := "network.netflix.com/account-id".toList

/-- `AnnotationKeyNetworkElasticIPPool`. -/
def AnnotationKeyNetworkElasticIPPool : Str := "network.netflix.com/elastic-ip-pool".toList

/-- `AnnotationKeyNetworkElasticIPs`. -/
def AnnotationKeyNetworkElasticIPs : Str := "network.netflix.com/elastic-ips".toList

/-- `AnnotationKeyNetworkIMDSRequireToken`. -/
def AnnotationKeyNetworkIMDSRequireToken : Str := "network.netflix.com/imds-require-token".toList

/-- `AnnotationKeyNetworkStaticIPAllocationUUID`. -/
def AnnotationKeyNetworkStaticIPAllocationUUID : Str := "network.netflix.com/static-ip-allocation-uuid".toList

/-- `AnnotationKeyNetworkSubnetIDs`. -/
def AnnotationKeyNetworkSubnetIDs : Str := "network.netflix.com/subnet-ids".toList

/-- `AnnotationKeyPodTitusContainerInfo`. -/
def AnnotationKeyPodTitusContainerInfo : Str := "pod.titus.netflix.com/container-info".toList

/-- `AnnotationKeyPodHostnameStyle`. -/
def AnnotationKeyPodHostnameStyle : Str := "pod.netflix.com/hostname-style".toList

/-- `AnnotationKeyPodSchedPolicy`. -/
def AnnotationKeyPodSchedPolicy : Str := "pod.netflix.com/sched-policy".toList

/-- `AnnotationKeySecurityAppMetadata`. -/
def AnnotationKeySecurityAppMetadata : Str := "security.netflix.com/app-metadata".toList

/-- `AnnotationKeySecurityAppMetadataSig`. -/
def AnnotationKeySecurityAppMetadataSig : Str := "security.netflix.com/app-metadata-sig".toList

/-- `AnnotationKeyPodSchemaVersion`. -/
def AnnotationKeyPodSchemaVersion : Str := "pod.netflix.com/pod-schema-version".toList

/-- `AnnotationKeyJobAcceptedTimestampMs`. -/
def AnnotationKeyJobAcceptedTimestampMs : Str := "v3.job.titus.netflix.com/accepted-timestamp-ms".toList

/-- `AnnotationKeyPodOomScoreAdj`. -/
def AnnotationKeyPodOomScoreAdj : Str := "pod.netflix.com/oom-score-adj".toList

/-- `AnnotationKeyLogUploadRegexp`. -/
def AnnotationKeyLogUploadRegexp : Str := "log.netflix.com/upload-regexp".toList

/-- `AnnotationKeyNetworkSecurityGroups`. -/
def AnnotationKeyNetworkSecurityGroups : Str := "network.netflix.com/security-groups".toList

/-- `AnnotationKeyPrefixAppArmor`. -/
def AnnotationKeyPrefixAppArmor : Str := "container.apparmor.security.beta.kubernetes.io".toList

/-! ## The scalar parser: helpers of the Go standard library -/

/-- `strconv.ParseUint(s, 10, bitSize)`: a non-empty run of decimal digits, no
sign, whose number is below `2 ^ bitSize`; `none` is any error. -/
def ParseUint (s : Str) (bitSize : Nat) : Option Nat :=
  if s = [] then none
  else
    match parseDigits s 0 with
    | none => none
    | some n => if n < 2 ^ bitSize then some n else none

/-- `strconv.ParseInt(s, 10, bitSize)`: an optional sign, then a non-empty run
of decimal digits, the number lying in the signed range of `bitSize` bits;
`none` is any error. -/
def ParseInt (s : Str) (bitSize : Nat) : Option Int :=
  match s with
  | [] => none
  | c :: rest =>
    let neg : Bool := decide (c = '-')
    let body : Str := if c = '+' ∨ c = '-' then rest else s
    if body = [] then none
    else
      match parseDigits body 0 with
      | none => none
      | some un =>
        if !neg && decide (2 ^ (bitSize - 1) ≤ un) then none
        else if neg && decide (2 ^ (bitSize - 1) < un) then none
        else some (if neg then -(un : Int) else (un : Int))

/-- The conversion `uint32(x)` of a `uint64`. -/
def toUint32 (x : Nat) : Nat := x % 2 ^ 32

/-- The conversion `uint64(x)` of a `uint64`. -/
def toUint64 (x : Nat) : Nat := x % 2 ^ 64

/-- The conversion `int32(x)` of an `int64`: the low 32 bits, read as signed. -/
def toInt32 (x : Int) : Int := (x + 2 ^ 31) % 2 ^ 32 - 2 ^ 31

/-- `unicode.IsSpace`. -/
def isSpace (c : Char) : Bool :=
  let n := c.toNat
  decide ((9 ≤ n ∧ n ≤ 13) ∨ n = 32 ∨ n = 0x85 ∨ n = 0xA0 ∨ n = 0x1680
    ∨ (0x2000 ≤ n ∧ n ≤ 0x200A) ∨ n = 0x2028 ∨ n = 0x2029 ∨ n = 0x202F ∨ n = 0x205F
    ∨ n = 0x3000)

/-- `strings.TrimSpace`: `s` without its leading and trailing white space. -/
def TrimSpace (s : Str) : Str :=
  ((s.dropWhile isSpace).reverse.dropWhile isSpace).reverse

/-! ## The scalar parser: errors -/

/-- A `*multierror.Error`: `none` is the nil pointer, `some errs` an `Error`
with the entries `errs`. -/
abbrev MultiError := Option (List Err)

/-- `multierror.Append(err, e)` for a plain error `e`. -/
def multierrorAppend (err : MultiError) (e : Err) : MultiError :=
  some (err.getD [] ++ [e])

/-- `multierror.Append(err, sErr)` for an `sErr` that holds a
`*multierror.Error` with the entries `errs` (none when the pointer is nil): the
entries are added one by one, and `err` is allocated when it was nil. -/
def multierrorFlatten (err : MultiError) (errs : List Err) : MultiError :=
  some (err.getD [] ++ errs)

/-- `err.ErrorOrNil()`: the returned `error`, `none` being nil. -/
def ErrorOrNil (err : MultiError) : Option (List Err) :=
  match err with
  | none => none
  | some errs => if errs = [] then none else some errs

/-- Text of the failure of the hostname-style check. -/
def msgHostnameStyle : Err := "annotation is not a valid hostname style: ".toList

/-- Text of the failure of a boolean annotation. -/
def msgBool : Err := "annotation is not a valid boolean value: ".toList

/-- Text of the failure of the `uint32` annotation. -/
def msgUint32 : Err := "annotation is not a valid uint32 value: ".toList

/-- Text of the failure of the `uint64` annotation. -/
def msgUint64 : Err := "annotation is not a valid uint64 value: ".toList

/-- Text of the failure of the `int32` annotation. -/
def msgInt32 : Err := "annotation is not a valid int32 value: ".toList

/-- Text of the failure of a resource annotation. -/
def msgResource : Err := "annotation is not a valid resource value: ".toList

/-- Text of the failure of a duration annotation. -/
def msgDuration : Err := "annotation is not a valid duration value: ".toList

/-- Text of the failure of the regexp annotation. -/
def msgRegexp : Err := "annotation is not a valid regexp value: ".toList

/-- Text of the failure of the scheduler-policy check. -/
def msgSchedPolicy : Err := "annotation is not a valid scheduler policy: ".toList

/-! ## The scalar parser -/

/-- The functions of other libraries that `parseAnnotations` calls:
`reference.Parse` (through `validateImage`), `resource.ParseQuantity`,
`time.ParseDuration` and `regexp.Compile`; `compileRegexp` gives the text of
the error, `none` when the pattern compiles. -/
structure Lib where
  parseReference : Str → Except Err Reference
  parseQuantity : Str → Option Quantity
  parseDuration : Str → Option Duration
  compileRegexp : Str → Option Err

/-- The table `boolAnnotations`: key and field, in the order of the source. -/
def boolAnnotations : List (Str × BoolField) :=
  [ (AnnotationKeyLogKeepLocalFile, .LogKeepLocalFile),
    (AnnotationKeyNetworkAssignIPv6Address, .AssignIPv6Address),
    (AnnotationKeyNetworkBurstingEnabled, .NetworkBurstingEnabled),
    (AnnotationKeyNetworkJumboFramesEnabled, .JumboFramesEnabled),
    (AnnotationKeyPodCPUBurstingEnabled, .CPUBurstingEnabled),
    (AnnotationKeyPodFuseEnabled, .FuseEnabled),
    (AnnotationKeyPodKvmEnabled, .KvmEnabled),
    (AnnotationKeyPodSeccompAgentNetEnabled, .SeccompAgentNetEnabled),
    (AnnotationKeyPodSeccompAgentPerfEnabled, .SeccompAgentPerfEnabled) ]

/-- The table `durationAnnotations`: key and field, in the order of the source. -/
def durationAnnotations : List (Str × DurationField) :=
  [ (AnnotationKeyLogStdioCheckInterval, .LogStdioCheckInterval),
    (AnnotationKeyLogUploadCheckInterval, .LogUploadCheckInterval),
    (AnnotationKeyLogUploadThresholdTime, .LogUploadThresholdTime) ]

/-- The table `resourceAnnotations`: key and field, in the order of the source. -/
def resourceAnnotations : List (Str × ResourceField) :=
  [ (AnnotationKeyEgressBandwidth, .EgressBandwidth),
    (AnnotationKeyIngressBandwidth, .IngressBandwidth) ]

/-- The table `stringAnnotations`: key and field, in the order of the source. -/
def stringAnnotations (userCtrName : Str) : List (Str × StringField) :=
  [ (AnnotationKeyPrefixAppArmor ++ ['/'] ++ userCtrName, .AppArmorProfile),
    (AnnotationKeyAppDetail, .AppDetail),
    (AnnotationKeyAppName, .AppName),
    (AnnotationKeyAppOwnerEmail, .AppOwnerEmail),
    (AnnotationKeyAppSequence, .AppSequence),
    (AnnotationKeyAppStack, .AppStack),
    (AnnotationKeyIAMRole, .IAMRole),
    (AnnotationKeyJobDescriptor, .JobDescriptor),
    (AnnotationKeyJobID, .JobID),
    (AnnotationKeyJobType, .JobType),
    (AnnotationKeyLogS3BucketName, .LogS3BucketName),
    (AnnotationKeyLogS3PathPrefix, .LogS3PathPrefix),
    (AnnotationKeyLogS3WriterIAMRole, .LogS3WriterIAMRole),
    (AnnotationKeyNetworkAccountID, .AccountID),
    (AnnotationKeyNetworkElasticIPPool, .ElasticIPPool),
    (AnnotationKeyNetworkElasticIPs, .ElasticIPs),
    (AnnotationKeyNetworkIMDSRequireToken, .IMDSRequireToken),
    (AnnotationKeyNetworkStaticIPAllocationUUID, .StaticIPAllocationUUID),
    (AnnotationKeyNetworkSubnetIDs, .SubnetIDs),
    (AnnotationKeyPodTitusContainerInfo, .ContainerInfo),
    (AnnotationKeyPodHostnameStyle, .HostnameStyle),
    (AnnotationKeyPodSchedPolicy, .SchedPolicy),
    (AnnotationKeySecurityAppMetadata, .AppMetadata),
    (AnnotationKeySecurityAppMetadataSig, .AppMetadataSig) ]

/-- `*an.field = v` for a field of `boolAnnotations`. -/
def Config.setBool (c : Config) (f : BoolField) (v : Option Bool) : Config :=
  { c with bools := fun g => if g = f then v else c.bools g }

/-- `*an.field = v` for a field of `durationAnnotations`. -/
def Config.setDuration (c : Config) (f : DurationField) (v : Option Duration) : Config :=
  { c with durations := fun g => if g = f then v else c.durations g }

/-- `*an.field = v` for a field of `resourceAnnotations`. -/
def Config.setResource (c : Config) (f : ResourceField) (v : Option Quantity) : Config :=
  { c with resources := fun g => if g = f then v else c.resources g }

/-- `*an.field = v` for a field of `stringAnnotations`. -/
def Config.setString (c : Config) (f : StringField) (v : Option Str) : Config :=
  { c with strings := fun g => if g = f then v else c.strings g }

/-- Body of `for _, an := range stringAnnotations`. -/
def stringStep (annotations : List (Str × Str)) (pConf : Config) (an : Str × StringField) :
    Config :=
  match mapLookup annotations an.1 with
  | some val => pConf.setString an.2 (some val)
  | none => pConf

/-- The hostname-style check. -/
def hostnameStyleCheck (annotations : List (Str × Str)) (err : MultiError) : MultiError :=
  match mapLookup annotations AnnotationKeyPodHostnameStyle with
  | some hostnameStyle =>
    if hostnameStyle ≠ "ec2".toList ∧ hostnameStyle ≠ [] then
      multierrorAppend err (msgHostnameStyle ++ AnnotationKeyPodHostnameStyle)
    else err
  | none => err

/-- Body of `for _, an := range boolAnnotations`. -/
def boolStep (annotations : List (Str × Str)) (st : Config × MultiError)
    (an : Str × BoolField) : Config × MultiError :=
  match mapLookup annotations an.1 with
  | some val =>
    match ParseBool val with
    | some boolVal => (st.1.setBool an.2 (some boolVal), st.2)
    | none => (st.1, multierrorAppend st.2 (msgBool ++ an.1))
  | none => st

/-- The block that parses `AnnotationKeyPodSchemaVersion`. -/
def parsePodSchemaVersion (annotations : List (Str × Str)) (st : Config × MultiError) :
    Config × MultiError :=
  match mapLookup annotations AnnotationKeyPodSchemaVersion with
  | some val =>
    match ParseUint val 32 with
    | some parsedVal => ({ st.1 with PodSchemaVersion := some (toUint32 parsedVal) }, st.2)
    | none => (st.1, multierrorAppend st.2 (msgUint32 ++ AnnotationKeyPodSchemaVersion))
  | none => st

/-- The block that parses `AnnotationKeyJobAcceptedTimestampMs`. -/
def parseJobAcceptedTimestampMs (annotations : List (Str × Str))
    (st : Config × MultiError) : Config × MultiError :=
  match mapLookup annotations AnnotationKeyJobAcceptedTimestampMs with
  | some val =>
    match ParseUint val 64 with
    | some parsedVal =>
      ({ st.1 with JobAcceptedTimestampMs := some (toUint64 parsedVal) }, st.2)
    | none => (st.1, multierrorAppend st.2 (msgUint64 ++ AnnotationKeyJobAcceptedTimestampMs))
  | none => st

/-- The block that parses `AnnotationKeyPodOomScoreAdj`. -/
def parseOomScoreAdj (annotations : List (Str × Str)) (st : Config × MultiError) :
    Config × MultiError :=
  match mapLookup annotations AnnotationKeyPodOomScoreAdj with
  | some val =>
    match ParseInt val 32 with
    | some parsedVal => ({ st.1 with OomScoreAdj := some (toInt32 parsedVal) }, st.2)
    | none => (st.1, multierrorAppend st.2 (msgInt32 ++ AnnotationKeyPodOomScoreAdj))
  | none => st

/-- Body of `for _, an := range resourceAnnotations`. -/
def resourceStep (lib : Lib) (annotations : List (Str × Str)) (st : Config × MultiError)
    (an : Str × ResourceField) : Config × MultiError :=
  match mapLookup annotations an.1 with
  | some val =>
    match lib.parseQuantity val with
    | some resVal => (st.1.setResource an.2 (some resVal), st.2)
    | none => (st.1, multierrorAppend st.2 (msgResource ++ an.1))
  | none => st

/-- Body of `for _, an := range durationAnnotations`. -/
def durationStep (lib : Lib) (annotations : List (Str × Str)) (st : Config × MultiError)
    (an : Str × DurationField) : Config × MultiError :=
  match mapLookup annotations an.1 with
  | some val =>
    match lib.parseDuration val with
    | some durVal => (st.1.setDuration an.2 (some durVal), st.2)
    | none => (st.1, multierrorAppend st.2 (msgDuration ++ an.1))
  | none => st

/-- The block that compiles `AnnotationKeyLogUploadRegexp`. -/
def parseLogUploadRegexp (lib : Lib) (annotations : List (Str × Str))
    (st : Config × MultiError) : Config × MultiError :=
  match mapLookup annotations AnnotationKeyLogUploadRegexp with
  | some uploadRegexpVal =>
    match lib.compileRegexp uploadRegexpVal with
    | none => ({ st.1 with LogUploadRegExp := some { expr := uploadRegexpVal } }, st.2)
    | some pErr =>
      (st.1, multierrorAppend st.2
        (msgRegexp ++ AnnotationKeyLogUploadRegexp ++ [':', ' '] ++ pErr))
  | none => st

/-- The block that splits `AnnotationKeyNetworkSecurityGroups`. -/
def parseSecurityGroups (annotations : List (Str × Str)) (st : Config × MultiError) :
    Config × MultiError :=
  match mapLookup annotations AnnotationKeyNetworkSecurityGroups with
  | some sgVal =>
    let sgsSplit := Split (TrimSpace sgVal) ','
    let sgIDs := sgsSplit.foldl (fun ids sg => ids ++ [TrimSpace sg]) []
    ({ st.1 with SecurityGroupIDs := some sgIDs }, st.2)
  | none => st

/-- The scheduler-policy check, on the `SchedPolicy` field. -/
def schedPolicyCheck (st : Config × MultiError) : Config × MultiError :=
  match st.1.strings StringField.SchedPolicy with
  | some schedPolicy =>
    if schedPolicy ≠ "batch".toList ∧ schedPolicy ≠ "idle".toList then
      (st.1, multierrorAppend st.2 (msgSchedPolicy ++ AnnotationKeyPodSchedPolicy))
    else st
  | none => st

/-- `parseAnnotations`, for the annotations of the pod and the name of its
user container: the updated `Config` and the returned `error`. The `error`
that `parseServiceAnnotations` returns always holds a `*multierror.Error`,
nil or not, so it is never equal to nil and is always appended. -/
def parseAnnotations (lib : Lib) (userCtrName : Str) (annotations : List (Str × Str))
    (pConf : Config) : Config × Option (List Err) :=
  let pConf := (stringAnnotations userCtrName).foldl (stringStep annotations) pConf
  let err : MultiError := hostnameStyleCheck annotations none
  let st := boolAnnotations.foldl (boolStep annotations) (pConf, err)
  let st := parsePodSchemaVersion annotations st
  let st := parseJobAcceptedTimestampMs annotations st
  let st := parseOomScoreAdj annotations st
  let st := resourceAnnotations.foldl (resourceStep lib annotations) st
  let st := durationAnnotations.foldl (durationStep lib annotations) st
  let st := parseLogUploadRegexp lib annotations st
  let st := parseSecurityGroups annotations st
  let st := schedPolicyCheck st
  let sv := parseServiceAnnotations lib.parseReference annotations st.1
  (sv.1, ErrorOrNil (multierrorFlatten st.2 sv.2))

/-! ## The accessor `PodSchemaVersion` -/

/-- `PodSchemaVersion`, for the annotations of the pod: the returned `uint32`
and the returned `error`, `none` being nil. -/
def PodSchemaVersion (annotations : List (Str × Str)) : Nat × Option Err :=
  match mapLookup annotations AnnotationKeyPodSchemaVersion with
  | none => (0, none)
  | some val =>
    match ParseUint val 32 with
    | none => (0, some (msgUint32 ++ AnnotationKeyPodSchemaVersion))
    | some parsedVal => (toUint32 parsedVal, none)
/-! ## Specification-level view of the composite parser

What one entry does, read off the key and the value alone. These definitions
are not part of the program; `serviceLoop_eq` relates them to it. -/

/-- The field a successful entry writes. -/
inductive Upd where
  | enabled (b : Bool)
  | image (v : Str)
  | other
deriving DecidableEq

/-- Applies the field write to a record. -/
def Upd.apply : Upd → Sidecar → Sidecar
  | .enabled b, sc => { sc with Enabled := b }
  | .image v, sc => { sc with Image := v }
  | .other, sc => sc

/-- What one entry amounts to: it is skipped, it records one failure, or it
stores the record of group `g` (created as `fresh` when absent) after the
write `u`. -/
inductive Action where
  | skip
  | fail (e : Err)
  | update (g : Str) (fresh : Sidecar) (u : Upd)
deriving DecidableEq

/-- The action of the entry `(k, v)`. -/
def classify (parse : Str → Except Err Reference) (k v : Str) : Action :=
  if !HasPrefix k AnnotationKeyServicePrefix then .skip
  else
    match Split (TrimPrefix k (AnnotationKeyServicePrefix ++ ['/'])) '.' with
    | [name, version, param] =>
      match Atoi (TrimPrefix version ['v']) with
      | none => .fail (msgServiceVersion ++ k)
      | some vInt =>
        let g := name ++ '.' :: version
        let fresh : Sidecar := { Name := name, Version := vInt, Enabled := false, Image := [] }
        if param = "enabled".toList then
          match ParseBool v with
          | none => .fail (msgServiceEnabled ++ k)
          | some boolVal => .update g fresh (.enabled boolVal)
        else if param = "image".toList then
          match validateImage parse v with
          | some iErr => .fail (msgServiceImage ++ k ++ [':', ' '] ++ iErr)
          | none => .update g fresh (.image v)
        else .update g fresh .other
    | _ => .fail (msgServiceParams ++ k)

/-- The failure an entry records, if any. -/
def failureOf (parse : Str → Except Err Reference) (kv : Str × Str) : Option Err :=
  match classify parse kv.1 kv.2 with
  | .fail e => some e
  | _ => none

/-- The failures of all entries, in visiting order. -/
def failures (parse : Str → Except Err Reference) (m : List (Str × Str)) : List Err :=
  m.filterMap (failureOf parse)

/-- The effect of one entry on the `sidecars` map. -/
def specStep (parse : Str → Except Err Reference) (s : List (Str × Sidecar))
    (kv : Str × Str) : List (Str × Sidecar) :=
  match classify parse kv.1 kv.2 with
  | .update g fresh u => mapStore s g (u.apply ((mapLookup s g).getD fresh))
  | _ => s

/-- The effect of one entry on the record of the group `g`. -/
def groupStep (parse : Str → Except Err Reference) (g : Str) (o : Option Sidecar)
    (kv : Str × Str) : Option Sidecar :=
  match classify parse kv.1 kv.2 with
  | .update g1 fresh u => if g1 = g then some (u.apply (o.getD fresh)) else o
  | _ => o

/-- A map entry is well formed: its key is `name.version` with a valid
version segment, and the record carries that name and version number. -/
def RecOK (g : Str) (sc : Sidecar) : Prop :=
  ∃ name version, g = name ++ '.' :: version ∧ '.' ∉ name ∧ '.' ∉ version
    ∧ Atoi (TrimPrefix version ['v']) = some sc.Version ∧ sc.Name = name

/-- Invariant of the `sidecars` map during the loop. -/
def Inv (s : List (Str × Sidecar)) : Prop :=
  ∀ p ∈ s, RecOK p.1 p.2

/-- The annotation key `service.netflix.com/<name>.<version>.<param>`. -/
def serviceKey (name version param : Str) : Str :=
  AnnotationKeyServicePrefix ++ ['/'] ++ (name ++ '.' :: (version ++ '.' :: param))

/-- The number a run of decimal digits denotes. -/
def decimalValue (ds : Str) : Nat :=
  ds.foldl (fun acc c => acc * 10 + (c.toNat - 48)) 0

/-- The annotations of `TestServiceAnnotations`, in the order of the test. -/
def testServiceAnnotations : List (Str × Str) :=
  [ ("service.netflix.com/svc.v2.enabled".toList, "false".toList),
    ("service.netflix.com/svc.v2.image".toList, "titusops/svc:latest".toList),
    ("service.netflix.com/svc.v3.enabled".toList, "true".toList),
    ("service.netflix.com/svc.v3.image".toList,
      "titusops/svc@sha256:5abd793cc69018e747cb8d4bc288f1df7b20747f91ec26da88f0fa4ba2ec46a1".toList) ]

/-- The two records `TestServiceAnnotations` expects. -/
def testServiceSidecars : List Sidecar :=
  [ { Name := "svc".toList, Version := 2, Enabled := false,
      Image := "titusops/svc:latest".toList },
    { Name := "svc".toList, Version := 3, Enabled := true,
      Image :=
        "titusops/svc@sha256:5abd793cc69018e747cb8d4bc288f1df7b20747f91ec26da88f0fa4ba2ec46a1".toList } ]

/-- The annotation map without the key `k`. -/
def withoutKey (m : List (Str × Str)) (k : Str) : List (Str × Str) :=
  m.filter (fun kv => decide (kv.1 ≠ k))


/-- The Sidecars that `parseServiceAnnotations` appends to an empty `Config`,
and the failures it returns. -/
def serviceResult (parse : Str → Except Err Reference) (m : List (Str × Str)) :
    List Sidecar × List Err :=
  ((parseServiceAnnotations parse m {}).1.Sidecars, (parseServiceAnnotations parse m {}).2)

/-! ## Specification-level view of the scalar parser

What `parseAnnotations` computes, written as functions of the annotation map.
These definitions are not part of the program; `parseAnnotations_config` and
`parseAnnotations_entries` relate them to it. -/

/-- The entries of a returned `error`: none for nil. -/
def errorEntries (e : Option (List Err)) : List Err := e.getD []

/-- The entries of a `*multierror.Error`: none for the nil pointer. -/
def MultiError.entries (err : MultiError) : List Err := err.getD []

/-- The fields of one group after the loop over the table `t`: the field of
an entry whose key is present and whose value parses holds the parsed value,
every other field is as in `h`. -/
def fieldsAfter {F V : Type} [DecidableEq F] (parse : Str → Option V)
    (annotations : List (Str × Str)) : List (Str × F) → (F → Option V) → F → Option V
  | [], h => h
  | an :: t, h =>
    fieldsAfter parse annotations t
      (match (mapLookup annotations an.1).bind parse with
       | some x => fun g => if g = an.2 then some x else h g
       | none => h)

/-- The failures of the loop over the table `t`: one for each entry whose key
is present with a value that does not parse. -/
def tableFailures {F V : Type} (parse : Str → Option V) (msg : Err)
    (annotations : List (Str × Str)) (t : List (Str × F)) : List Err :=
  t.filterMap fun an =>
    match mapLookup annotations an.1 with
    | some val => if (parse val).isNone then some (msg ++ an.1) else none
    | none => none

/-- The failure of a block that parses one key. -/
def keyFailure {V : Type} (parse : Str → Option V) (msg : Err)
    (annotations : List (Str × Str)) (key : Str) : List Err :=
  match mapLookup annotations key with
  | some val => if (parse val).isNone then [msg ++ key] else []
  | none => []

/-- The failure of the hostname-style check. -/
def hostnameStyleFailure (annotations : List (Str × Str)) : List Err :=
  match mapLookup annotations AnnotationKeyPodHostnameStyle with
  | some v =>
    if v ≠ "ec2".toList ∧ v ≠ [] then [msgHostnameStyle ++ AnnotationKeyPodHostnameStyle]
    else []
  | none => []

/-- The failure of the regexp block. -/
def regexpFailure (lib : Lib) (annotations : List (Str × Str)) : List Err :=
  match mapLookup annotations AnnotationKeyLogUploadRegexp with
  | some v =>
    match lib.compileRegexp v with
    | some pErr => [msgRegexp ++ AnnotationKeyLogUploadRegexp ++ [':', ' '] ++ pErr]
    | none => []
  | none => []

/-- The failure of the scheduler-policy check on a `SchedPolicy` field. -/
def schedPolicyFailure (schedPolicy : Option Str) : List Err :=
  match schedPolicy with
  | some v =>
    if v ≠ "batch".toList ∧ v ≠ "idle".toList then
      [msgSchedPolicy ++ AnnotationKeyPodSchedPolicy]
    else []
  | none => []

/-- The `SchedPolicy` field after the loop over `stringAnnotations`. -/
def schedPolicyAfter (userCtrName : Str) (annotations : List (Str × Str)) (pConf : Config) :
    Option Str :=
  fieldsAfter some annotations (stringAnnotations userCtrName) pConf.strings
    StringField.SchedPolicy

/-- The failures of the scalar blocks that read the annotation map, in the
order of the source. -/
def scalarFailures (lib : Lib) (annotations : List (Str × Str)) : List Err :=
  hostnameStyleFailure annotations
    ++ tableFailures ParseBool msgBool annotations boolAnnotations
    ++ keyFailure (fun v => ParseUint v 32) msgUint32 annotations AnnotationKeyPodSchemaVersion
    ++ keyFailure (fun v => ParseUint v 64) msgUint64 annotations
        AnnotationKeyJobAcceptedTimestampMs
    ++ keyFailure (fun v => ParseInt v 32) msgInt32 annotations AnnotationKeyPodOomScoreAdj
    ++ tableFailures lib.parseQuantity msgResource annotations resourceAnnotations
    ++ tableFailures lib.parseDuration msgDuration annotations durationAnnotations
    ++ regexpFailure lib annotations

/-- The `Config` after the scalar blocks. -/
def scalarConfig (lib : Lib) (userCtrName : Str) (annotations : List (Str × Str))
    (pConf : Config) : Config :=
  { pConf with
    strings := fieldsAfter some annotations (stringAnnotations userCtrName) pConf.strings
    bools := fieldsAfter ParseBool annotations boolAnnotations pConf.bools
    resources := fieldsAfter lib.parseQuantity annotations resourceAnnotations pConf.resources
    durations := fieldsAfter lib.parseDuration annotations durationAnnotations pConf.durations
    PodSchemaVersion :=
      match (mapLookup annotations AnnotationKeyPodSchemaVersion).bind
          (fun v => ParseUint v 32) with
      | some n => some (toUint32 n)
      | none => pConf.PodSchemaVersion
    JobAcceptedTimestampMs :=
      match (mapLookup annotations AnnotationKeyJobAcceptedTimestampMs).bind
          (fun v => ParseUint v 64) with
      | some n => some (toUint64 n)
      | none => pConf.JobAcceptedTimestampMs
    OomScoreAdj :=
      match (mapLookup annotations AnnotationKeyPodOomScoreAdj).bind
          (fun v => ParseInt v 32) with
      | some n => some (toInt32 n)
      | none => pConf.OomScoreAdj
    LogUploadRegExp :=
      match mapLookup annotations AnnotationKeyLogUploadRegexp with
      | some v => if lib.compileRegexp v = none then some { expr := v }
                  else pConf.LogUploadRegExp
      | none => pConf.LogUploadRegExp
    SecurityGroupIDs :=
      match mapLookup annotations AnnotationKeyNetworkSecurityGroups with
      | some sgVal => some ((Split (TrimSpace sgVal) ',').map TrimSpace)
      | none => pConf.SecurityGroupIDs }

/-! ## The texts of the failures -/

/-- Two texts that differ at a position both have: neither is the start of
an extension of the other. -/
def incompatible : Str → Str → Bool
  | a :: p, b :: q => decide (a ≠ b) || incompatible p q
  | _, _ => false

/-- The texts that start the failures of the scalar blocks. -/
def scalarTexts : List Err :=
  [msgHostnameStyle, msgBool, msgUint32, msgUint64, msgInt32, msgResource, msgDuration,
    msgRegexp, msgSchedPolicy]

/-- The texts that start the failures of `parseServiceAnnotations`. -/
def serviceTexts : List Err :=
  [msgServiceParams, msgServiceVersion, msgServiceEnabled, msgServiceImage]

/-- The failures of the scalar blocks and of the scheduler-policy check, each
group with the text its failures start with. -/
def failureGroups (lib : Lib) (userCtrName : Str) (annotations : List (Str × Str))
    (pConf : Config) : List (Err × List Err) :=
  [ (msgHostnameStyle, hostnameStyleFailure annotations),
    (msgBool, tableFailures ParseBool msgBool annotations boolAnnotations),
    (msgUint32, keyFailure (fun v => ParseUint v 32) msgUint32 annotations
      AnnotationKeyPodSchemaVersion),
    (msgUint64, keyFailure (fun v => ParseUint v 64) msgUint64 annotations
      AnnotationKeyJobAcceptedTimestampMs),
    (msgInt32, keyFailure (fun v => ParseInt v 32) msgInt32 annotations
      AnnotationKeyPodOomScoreAdj),
    (msgResource, tableFailures lib.parseQuantity msgResource annotations resourceAnnotations),
    (msgDuration, tableFailures lib.parseDuration msgDuration annotations durationAnnotations),
    (msgRegexp, regexpFailure lib annotations),
    (msgSchedPolicy, schedPolicyFailure (schedPolicyAfter userCtrName annotations pConf)) ]

/-! ## Number texts, in the words of the specification -/

/-- Specification wording: a non-empty string of decimal digits. -/
def isDecimal (ds : Str) : Bool := !ds.isEmpty && ds.all Char.isDigit

/-- Specification wording: `v` is a strict base-10 integer text denoting `n`,
that is an optional single sign followed by one or more decimal digits. -/
def denotesInt (v : Str) (n : Int) : Bool :=
  match v with
  | [] => false
  | c :: ds =>
    if c = '-' then isDecimal ds && decide (n = -(decimalValue ds : Int))
    else if c = '+' then isDecimal ds && decide (n = (decimalValue ds : Int))
    else isDecimal v && decide (n = (decimalValue v : Int))

/-! ## Keys and the failures that name them -/

/-- A failure names the key `key`: its text is one of the failure texts
followed by `key`. -/
def namesKey (e : Err) (key : Str) : Bool :=
  (scalarTexts ++ serviceTexts).any fun T => HasPrefix e (T ++ key)

/-- The keys whose value a scalar block checks. -/
def checkedKeys : List Str :=
  AnnotationKeyPodHostnameStyle :: boolAnnotations.map Prod.fst
    ++ [AnnotationKeyPodSchemaVersion, AnnotationKeyJobAcceptedTimestampMs,
        AnnotationKeyPodOomScoreAdj]
    ++ resourceAnnotations.map Prod.fst ++ durationAnnotations.map Prod.fst
    ++ [AnnotationKeyLogUploadRegexp]

/-- The keys that `parseAnnotations` reads outside `parseServiceAnnotations`. -/
def recognizedKeys (userCtrName : Str) : List Str :=
  (stringAnnotations userCtrName).map Prod.fst ++ boolAnnotations.map Prod.fst
    ++ [AnnotationKeyPodSchemaVersion, AnnotationKeyJobAcceptedTimestampMs,
        AnnotationKeyPodOomScoreAdj]
    ++ resourceAnnotations.map Prod.fst ++ durationAnnotations.map Prod.fst
    ++ [AnnotationKeyLogUploadRegexp, AnnotationKeyNetworkSecurityGroups]

/-! ## Models of the libraries, for the examples -/

/-- Modelled from the spec: the units of the chained `<number><unit>`
duration grammar of `time.ParseDuration`, in nanoseconds. -/
def durationUnit (u : Str) : Option Nat :=
  if u = "ns".toList then some 1
  else if u = "us".toList ∨ u = "µs".toList ∨ u = "μs".toList then some 1000
  else if u = "ms".toList then some 1000000
  else if u = "s".toList then some 1000000000
  else if u = "m".toList then some 60000000000
  else if u = "h".toList then some 3600000000000
  else none

/-- The state of the reader of a chained duration: the nanoseconds of the
groups read, the number of the group being read, whether it has a digit, and
the letters of its unit read so far. -/
structure DurationState where
  total : Nat := 0
  number : Nat := 0
  hasDigit : Bool := false
  unit : Str := []

/-- One character of a chained duration: a digit extends the number or, after
a unit, closes the group and starts the next one; any other character but `.`
extends the unit, which needs a number before it. -/
def durationReadStep (st : DurationState) (c : Char) : Option DurationState :=
  if c.isDigit then
    if st.unit = [] then
      some { st with number := st.number * 10 + (c.toNat - 48), hasDigit := true }
    else
      match durationUnit st.unit with
      | some u =>
        some { total := st.total + st.number * u, number := c.toNat - 48,
               hasDigit := true, unit := [] }
      | none => none
  else if c = '.' then none
  else if st.hasDigit then some { st with unit := st.unit ++ [c] }
  else none

/-- The nanoseconds of a chained duration without sign. -/
def durationMagnitude (s : Str) : Option Nat :=
  match s.foldl (fun st c => st.bind fun x => durationReadStep x c) (some {}) with
  | some st =>
    match durationUnit st.unit with
    | some u => some (st.total + st.number * u)
    | none => none
  | none => none

/-- Modelled from the spec: `time.ParseDuration`, which is not part of the
sources of this repository, on the chained `<number><unit>` durations with
whole numbers: an optional sign, then `0` or one or more groups of decimal
digits followed by one of the units `ns`, `us`, `ms`, `s`, `m`, `h`; the sum,
in nanoseconds, has to be below `2 ^ 63`. A text with a fraction is not
modelled and is rejected. -/
def durationParse (s : Str) : Option Duration :=
  let neg : Bool := s.head? = some '-'
  let body : Str := if s.head? = some '-' ∨ s.head? = some '+' then s.tail else s
  if body = "0".toList then some 0
  else
    match durationMagnitude body with
    | some d => if d < 2 ^ 63 then some (if neg then -(d : Int) else (d : Int)) else none
    | none => none

/-- Modelled from the spec: the suffixes of the resource-quantity grammar for
decimal and binary magnitude, with the factor each denotes. -/
def quantitySuffix (suffix : Str) : Option Nat :=
  if suffix = [] then some 1
  else if suffix = "k".toList then some (10 ^ 3)
  else if suffix = "M".toList then some (10 ^ 6)
  else if suffix = "G".toList then some (10 ^ 9)
  else if suffix = "T".toList then some (10 ^ 12)
  else if suffix = "P".toList then some (10 ^ 15)
  else if suffix = "E".toList then some (10 ^ 18)
  else if suffix = "Ki".toList then some (2 ^ 10)
  else if suffix = "Mi".toList then some (2 ^ 20)
  else if suffix = "Gi".toList then some (2 ^ 30)
  else if suffix = "Ti".toList then some (2 ^ 40)
  else if suffix = "Pi".toList then some (2 ^ 50)
  else if suffix = "Ei".toList then some (2 ^ 60)
  else none

/-- Modelled from the spec: `resource.ParseQuantity`, which is not part of
the sources of this repository, on the quantities written as a whole number
followed by a suffix for decimal or binary magnitude; the number it denotes
has to be below `2 ^ 63`. A text with a sign, a fraction, an exponent or one of
the suffixes `n`, `u`, `m` is not modelled and is rejected. -/
def quantityParse (s : Str) : Option Quantity :=
  let digits := s.takeWhile Char.isDigit
  let suffix := s.dropWhile Char.isDigit
  if digits = [] then none
  else
    match quantitySuffix suffix with
    | some factor =>
      if decimalValue digits * factor < 2 ^ 63 then
        some { value := ((decimalValue digits * factor : Nat) : ℚ) }
      else none
    | none => none

/-- The diagnostic of `regexpCompile` for the patterns it reads, if any: a
`*` needs something to repeat, and a repetition cannot be repeated. -/
def regexpDiagnostic : Str → Bool → Bool → Option Err
  | [], _, _ => none
  | c :: cs, first, afterStar =>
    if c = '*' then
      if first then
        some "error parsing regexp: missing argument to repetition operator: `*`".toList
      else if afterStar then
        some "error parsing regexp: invalid nested repetition operator: `**`".toList
      else regexpDiagnostic cs false true
    else regexpDiagnostic cs false false

/-- Modelled from the spec: `regexp.Compile`, which is not part of the
sources of this repository, on the patterns made of letters, digits, `.` and
`*`: the diagnostic, `none` when the pattern compiles. A pattern with another
character is not modelled and is rejected. -/
def regexpCompile (v : Str) : Option Err :=
  if v.all (fun c => c.isAlphanum || c = '.' || c = '*') then regexpDiagnostic v true false
  else some "pattern outside the modelled syntax".toList

/-- Library functions for the examples: `referenceParse` for images,
`quantityParse`, `durationParse` and `regexpCompile`. They accept fewer texts
than the libraries and agree with them on the texts they accept. -/
def testLib : Lib where
  parseReference := referenceParse
  parseQuantity := quantityParse
  parseDuration := durationParse
  compileRegexp := regexpCompile

/-! ## Counting the failures -/

/-- The key is present with a value that does not parse. -/
def keyFails {V : Type} (parse : Str → Option V) (annotations : List (Str × Str))
    (key : Str) : Bool :=
  match mapLookup annotations key with
  | some v => (parse v).isNone
  | none => false

/-- The hostname style is present and is neither `ec2` nor empty. -/
def hostnameStyleFails (annotations : List (Str × Str)) : Bool :=
  match mapLookup annotations AnnotationKeyPodHostnameStyle with
  | some v => decide (v ≠ "ec2".toList ∧ v ≠ [])
  | none => false

/-- The upload regexp is present and does not compile. -/
def regexpFails (lib : Lib) (annotations : List (Str × Str)) : Bool :=
  match mapLookup annotations AnnotationKeyLogUploadRegexp with
  | some v => (lib.compileRegexp v).isSome
  | none => false

/-- The `SchedPolicy` field is set and is neither `batch` nor `idle`. -/
def schedPolicyFails (schedPolicy : Option Str) : Bool :=
  match schedPolicy with
  | some v => decide (v ≠ "batch".toList ∧ v ≠ "idle".toList)
  | none => false

/-- The number of individual failures of a run, one for each check that
fails: the hostname style, each boolean key, the three number keys, each
resource key, each duration key, the regexp, the scheduler policy (on the
`SchedPolicy` field) and each entry of the map that `parseServiceAnnotations`
rejects. -/
def failureCount (lib : Lib) (annotations : List (Str × Str)) (schedPolicy : Option Str) :
    Nat :=
  (hostnameStyleFails annotations).toNat
    + boolAnnotations.countP (fun an => keyFails ParseBool annotations an.1)
    + (keyFails (fun v => ParseUint v 32) annotations AnnotationKeyPodSchemaVersion).toNat
    + (keyFails (fun v => ParseUint v 64) annotations
        AnnotationKeyJobAcceptedTimestampMs).toNat
    + (keyFails (fun v => ParseInt v 32) annotations AnnotationKeyPodOomScoreAdj).toNat
    + resourceAnnotations.countP (fun an => keyFails lib.parseQuantity annotations an.1)
    + durationAnnotations.countP (fun an => keyFails lib.parseDuration annotations an.1)
    + (regexpFails lib annotations).toNat
    + (schedPolicyFails schedPolicy).toNat
    + annotations.countP (fun kv => (failureOf lib.parseReference kv).isSome)

/-! ## Parse failures -/

/-- The texts that start the failures of a scalar value that does not parse;
the texts of the two checks of an enumerated value are not among them. -/
def parseTexts : List Err :=
  [msgBool, msgUint32, msgUint64, msgInt32, msgResource, msgDuration, msgRegexp]

/-- A parse failure names the key `key`: the text of `e` is the text of a
failure of a scalar value that does not parse, or of a failure of
`parseServiceAnnotations`, followed by `key`. -/
def parseFailureNames (e : Err) (key : Str) : Bool :=
  (parseTexts ++ serviceTexts).any fun T => HasPrefix e (T ++ key)

/-! ## The failures for a service key -/

/-- The failure `e` is one that `parseServiceAnnotations` records for the key
`k`: one of its texts followed by `k`, the text for an image being followed by
`k`, a colon, a blank and the reason. -/
def serviceFailureFor (e : Err) (k : Str) : Bool :=
  decide (e = msgServiceParams ++ k) || decide (e = msgServiceVersion ++ k)
    || decide (e = msgServiceEnabled ++ k)
    || HasPrefix e (msgServiceImage ++ k ++ [':', ' '])
/-! ## Lemmas on the string helpers -/

theorem HasPrefix_iff (s pre : Str) : HasPrefix s pre = true ↔ ∃ r, s = pre ++ r := by
  induction pre generalizing s with
  | nil => simp [HasPrefix]
  | cons p ps ih =>
    cases s with
    | nil => simp [HasPrefix]
    | cons c s =>
      simp only [HasPrefix, Bool.and_eq_true, decide_eq_true_eq, ih, List.cons_append,
        List.cons.injEq]
      constructor
      · rintro ⟨rfl, r, rfl⟩; exact ⟨r, rfl, rfl⟩
      · rintro ⟨r, rfl, rfl⟩; exact ⟨rfl, r, rfl⟩

theorem HasPrefix_append (pre r : Str) : HasPrefix (pre ++ r) pre = true :=
  (HasPrefix_iff _ _).2 ⟨r, rfl⟩

theorem TrimPrefix_append (pre r : Str) : TrimPrefix (pre ++ r) pre = r := by
  simp [TrimPrefix, HasPrefix_append]

theorem TrimPrefix_of_not (s pre : Str) (h : HasPrefix s pre = false) :
    TrimPrefix s pre = s := by
  simp [TrimPrefix, h]

theorem Split_ne_nil (s : Str) (sep : Char) : Split s sep ≠ [] := by
  cases s with
  | nil => simp [Split]
  | cons c cs =>
    simp only [Split]
    split
    · simp
    · split <;> simp

theorem Split_of_not_mem (s : Str) (sep : Char) (h : sep ∉ s) : Split s sep = [s] := by
  induction s with
  | nil => rfl
  | cons c cs ih =>
    simp only [List.mem_cons, not_or] at h
    have hc : c ≠ sep := fun e => h.1 e.symm
    simp [Split, hc, ih h.2]

theorem Split_append_sep (a b : Str) (sep : Char) (h : sep ∉ a) :
    Split (a ++ sep :: b) sep = a :: Split b sep := by
  induction a with
  | nil => simp [Split]
  | cons c cs ih =>
    simp only [List.mem_cons, not_or] at h
    have hc : c ≠ sep := fun e => h.1 e.symm
    simp [Split, hc, ih h.2]

/-- `Split` cuts exactly at the separators: joining the pieces with the
separator gives the string back, and no piece contains the separator. -/
theorem Split_spec (s : Str) (sep : Char) :
    [sep].intercalate (Split s sep) = s ∧ ∀ p ∈ Split s sep, sep ∉ p := by
  induction s with
  | nil => simp [Split, List.intercalate]
  | cons c cs ih =>
    simp only [Split]
    split
    · next h =>
      subst h
      obtain ⟨h1, h2⟩ := ih
      refine ⟨?_, ?_⟩
      · have hne := Split_ne_nil cs c
        cases hs : Split cs c with
        | nil => exact absurd hs hne
        | cons q qs =>
          rw [hs] at h1
          simp [List.intercalate, List.intersperse] at h1 ⊢
          exact h1
      · intro p hp
        simp only [List.mem_cons] at hp
        rcases hp with rfl | hp
        · simp
        · exact h2 p hp
    · next h =>
      obtain ⟨h1, h2⟩ := ih
      cases hs : Split cs sep with
      | nil => exact absurd hs (Split_ne_nil cs sep)
      | cons q qs =>
        rw [hs] at h1 h2
        refine ⟨?_, ?_⟩
        · cases qs with
          | nil => simpa [List.intercalate, List.intersperse] using h1
          | cons q2 qs2 => simpa [List.intercalate, List.intersperse] using h1
        · intro p hp
          simp only [List.mem_cons] at hp
          rcases hp with rfl | hp
          · have := h2 q (by simp)
            simp only [List.mem_cons, not_or]
            exact ⟨fun e => h e.symm, this⟩
          · exact h2 p (by simp [hp])

theorem Split_three (s a b c : Str) (sep : Char) (h : Split s sep = [a, b, c]) :
    s = a ++ sep :: (b ++ sep :: c) ∧ sep ∉ a ∧ sep ∉ b ∧ sep ∉ c := by
  obtain ⟨h1, h2⟩ := Split_spec s sep
  rw [h] at h1 h2
  refine ⟨?_, h2 a (by simp), h2 b (by simp), h2 c (by simp)⟩
  rw [← h1]
  simp [List.intercalate, List.intersperse]

theorem Split_three_of (a b c : Str) (sep : Char) (ha : sep ∉ a) (hb : sep ∉ b)
    (hc : sep ∉ c) : Split (a ++ sep :: (b ++ sep :: c)) sep = [a, b, c] := by
  rw [Split_append_sep a _ sep ha, Split_append_sep b _ sep hb, Split_of_not_mem c sep hc]

/-! ## Lemmas on `Atoi` and on the shape of service keys -/

theorem append_sep_inj (a a' b b' : Str) (sep : Char) (ha : sep ∉ a) (ha' : sep ∉ a')
    (h : a ++ sep :: b = a' ++ sep :: b') : a = a' ∧ b = b' := by
  have h1 := Split_append_sep a b sep ha
  have h2 := Split_append_sep a' b' sep ha'
  rw [h, h2] at h1
  have e : a' = a := (List.cons.inj h1).1
  subst e
  exact ⟨rfl, by simpa using h⟩

/-- A key that passes the prefix filter, splits into three segments and has a
valid version segment starts with the prefix followed by `/`. -/
theorem key_shape (k name version param : Str) (n : Int)
    (hp : HasPrefix k AnnotationKeyServicePrefix = true)
    (hs : Split (TrimPrefix k (AnnotationKeyServicePrefix ++ ['/'])) '.'
      = [name, version, param])
    (hv : Atoi (TrimPrefix version ['v']) = some n) :
    k = AnnotationKeyServicePrefix ++ ['/']
      ++ (name ++ '.' :: (version ++ '.' :: param)) := by
  cases hq : HasPrefix k (AnnotationKeyServicePrefix ++ ['/']) with
  | true =>
    obtain ⟨r, rfl⟩ := (HasPrefix_iff _ _).1 hq
    rw [TrimPrefix_append] at hs
    rw [(Split_three _ _ _ _ _ hs).1]
  | false =>
    exfalso
    rw [TrimPrefix_of_not _ _ hq] at hs
    obtain ⟨r, rfl⟩ := (HasPrefix_iff _ _).1 hp
    have e : AnnotationKeyServicePrefix ++ r
        = "service".toList ++ '.' :: ("netflix".toList ++ '.' :: ("com".toList ++ r)) := by
      simp [AnnotationKeyServicePrefix]
    rw [e, Split_append_sep _ _ _ (by decide), Split_append_sep _ _ _ (by decide)] at hs
    have hver : version = "netflix".toList := by
      have := (List.cons.inj (List.cons.inj hs).2).1
      exact this.symm
    subst hver
    have hnone : Atoi (TrimPrefix "netflix".toList ['v']) = none := by decide
    rw [hnone] at hv
    exact Option.noConfusion hv


/-! ## Lemmas on association lists -/

theorem mapLookup_mem {β : Type} (m : List (Str × β)) (k : Str) (b : β)
    (h : mapLookup m k = some b) : (k, b) ∈ m := by
  induction m with
  | nil => simp [mapLookup] at h
  | cons p m ih =>
    obtain ⟨k', b'⟩ := p
    simp only [mapLookup] at h
    split at h
    · next e => subst e; simp at h; subst h; simp
    · exact List.mem_cons_of_mem _ (ih h)

theorem mapLookup_mapStore {β : Type} (m : List (Str × β)) (k k' : Str) (b : β) :
    mapLookup (mapStore m k b) k' = if k = k' then some b else mapLookup m k' := by
  induction m with
  | nil => simp [mapStore, mapLookup]
  | cons p m ih =>
    obtain ⟨k0, b0⟩ := p
    by_cases e : k0 = k
    · by_cases e2 : k = k'
      · simp [mapStore, mapLookup, e, e2]
      · simp [mapStore, mapLookup, e, e2]
    · by_cases e2 : k = k'
      · subst e2
        simp [mapStore, mapLookup, e, ih]
      · simp [mapStore, mapLookup, e, e2, ih]

theorem mem_mapStore {β : Type} (m : List (Str × β)) (k : Str) (b : β) (p : Str × β)
    (h : p ∈ mapStore m k b) : p = (k, b) ∨ p ∈ m := by
  induction m with
  | nil => simpa [mapStore] using h
  | cons q m ih =>
    obtain ⟨k0, b0⟩ := q
    simp only [mapStore] at h
    split at h
    · simp only [List.mem_cons] at h ⊢
      rcases h with h | h
      · exact Or.inl h
      · exact Or.inr (Or.inr h)
    · simp only [List.mem_cons] at h ⊢
      rcases h with h | h
      · exact Or.inr (Or.inl h)
      · rcases ih h with h | h
        · exact Or.inl h
        · exact Or.inr (Or.inr h)

theorem map_fst_mapStore {β : Type} (m : List (Str × β)) (k : Str) (b : β) :
    (mapStore m k b).map Prod.fst
      = if k ∈ m.map Prod.fst then m.map Prod.fst else m.map Prod.fst ++ [k] := by
  induction m with
  | nil => simp [mapStore]
  | cons q m ih =>
    obtain ⟨k0, b0⟩ := q
    by_cases e : k0 = k
    · simp only [mapStore, e, if_true, List.map_cons, List.mem_cons, true_or]
    · have e' : ¬ k = k0 := fun h => e h.symm
      simp only [mapStore, e, if_false, List.map_cons, ih, List.mem_cons, e', false_or]
      split
      · rfl
      · rfl

theorem keysDistinct_mapStore {β : Type} (m : List (Str × β)) (k : Str) (b : β)
    (h : keysDistinct m) : keysDistinct (mapStore m k b) := by
  unfold keysDistinct at *
  rw [map_fst_mapStore]
  split
  · exact h
  · next hk =>
    rw [List.nodup_append]
    refine ⟨h, by simp, ?_⟩
    intro a ha hb
    simp only [List.mem_singleton] at hb
    subst hb
    exact hk ha

theorem mapLookup_eq_some_iff {β : Type} (m : List (Str × β)) (h : keysDistinct m)
    (k : Str) (b : β) : mapLookup m k = some b ↔ (k, b) ∈ m := by
  refine ⟨mapLookup_mem m k b, ?_⟩
  induction m with
  | nil => simp
  | cons q m ih =>
    obtain ⟨k0, b0⟩ := q
    intro hm
    have hd : k0 ∉ m.map Prod.fst ∧ keysDistinct m := by
      unfold keysDistinct at h ⊢
      rw [List.map_cons, List.nodup_cons] at h
      exact h
    simp only [List.mem_cons, Prod.mk.injEq] at hm
    simp only [mapLookup]
    rcases hm with ⟨rfl, rfl⟩ | hm
    · simp
    · have hne : k0 ≠ k := by
        rintro rfl
        exact hd.1 (List.mem_map_of_mem Prod.fst hm)
      simp [hne, ih hd.2 hm]

/-- Two well-formed maps with the same lookups hold the same entries. -/
theorem perm_of_mapLookup_eq {β : Type} (m1 m2 : List (Str × β)) (h1 : keysDistinct m1)
    (h2 : keysDistinct m2) (h : ∀ k, mapLookup m1 k = mapLookup m2 k) : m1.Perm m2 := by
  have n1 : m1.Nodup := List.Nodup.of_map _ h1
  have n2 : m2.Nodup := List.Nodup.of_map _ h2
  refine (List.perm_ext_iff_of_nodup n1 n2).2 ?_
  rintro ⟨k, b⟩
  rw [← mapLookup_eq_some_iff m1 h1, ← mapLookup_eq_some_iff m2 h2, h]

/-! ## The program against its specification-level view -/

theorem serviceEntry_eq (parse : Str → Except Err Reference) (s : List (Str × Sidecar))
    (k v : Str) (hinv : Inv s) :
    serviceEntry parse s k v =
      match classify parse k v with
      | .skip => .ok s
      | .fail e => .error e
      | .update g fresh u => .ok (mapStore s g (u.apply ((mapLookup s g).getD fresh))) := by
  cases hp : HasPrefix k AnnotationKeyServicePrefix with
  | false => simp [serviceEntry, classify, hp]
  | true =>
    rcases hs : Split (TrimPrefix k (AnnotationKeyServicePrefix ++ ['/'])) '.' with
      _ | ⟨name, _ | ⟨version, _ | ⟨param, _ | ⟨x, l⟩⟩⟩⟩
    · simp [serviceEntry, classify, hp, hs]
    · simp [serviceEntry, classify, hp, hs]
    · simp [serviceEntry, classify, hp, hs]
    · obtain ⟨-, hn, hv, -⟩ := Split_three _ _ _ _ _ hs
      cases hl : mapLookup s (name ++ '.' :: version) with
      | none =>
        cases ha : Atoi (TrimPrefix version ['v']) with
        | none => simp [serviceEntry, classify, hp, hs, hl, ha]
        | some n =>
          by_cases he : param = ['e', 'n', 'a', 'b', 'l', 'e', 'd']
          · cases hb : ParseBool v <;>
              simp [serviceEntry, classify, hp, hs, hl, ha, he, hb, Upd.apply]
          · by_cases hi : param = ['i', 'm', 'a', 'g', 'e']
            · cases hb : validateImage parse v <;>
                simp [serviceEntry, classify, hp, hs, hl, ha, hi, hb, Upd.apply]
            · simp [serviceEntry, classify, hp, hs, hl, ha, he, hi, Upd.apply]
      | some sc =>
        obtain ⟨name', version', hg, hn', -, hat, hname⟩ :=
          hinv _ (mapLookup_mem _ _ _ hl)
        obtain ⟨rfl, rfl⟩ := append_sep_inj _ _ _ _ _ hn hn' hg
        by_cases he : param = ['e', 'n', 'a', 'b', 'l', 'e', 'd']
        · cases hb : ParseBool v <;>
            simp [serviceEntry, classify, hp, hs, hl, hat, he, hb, Upd.apply]
        · by_cases hi : param = ['i', 'm', 'a', 'g', 'e']
          · cases hb : validateImage parse v <;>
              simp [serviceEntry, classify, hp, hs, hl, hat, hi, hb, Upd.apply]
          · simp [serviceEntry, classify, hp, hs, hl, hat, he, hi, Upd.apply]
    · simp [serviceEntry, classify, hp, hs]


/-- What it means for an entry to be classified as an update. -/
theorem classify_update (parse : Str → Except Err Reference) (k v g : Str)
    (fresh : Sidecar) (u : Upd) (h : classify parse k v = .update g fresh u) :
    ∃ name version param n,
      k = AnnotationKeyServicePrefix ++ ['/'] ++ (name ++ '.' :: (version ++ '.' :: param))
      ∧ '.' ∉ name ∧ '.' ∉ version ∧ '.' ∉ param
      ∧ Atoi (TrimPrefix version ['v']) = some n
      ∧ g = name ++ '.' :: version
      ∧ fresh = { Name := name, Version := n, Enabled := false, Image := [] }
      ∧ ((∃ b, u = .enabled b ∧ param = "enabled".toList ∧ ParseBool v = some b)
        ∨ (u = .image v ∧ param = "image".toList ∧ validateImage parse v = none)
        ∨ (u = .other ∧ param ≠ "enabled".toList ∧ param ≠ "image".toList)) := by
  cases hp : HasPrefix k AnnotationKeyServicePrefix with
  | false => simp [classify, hp] at h
  | true =>
    rcases hs : Split (TrimPrefix k (AnnotationKeyServicePrefix ++ ['/'])) '.' with
      _ | ⟨name, _ | ⟨version, _ | ⟨param, _ | ⟨x, l⟩⟩⟩⟩
    · simp [classify, hp, hs] at h
    · simp [classify, hp, hs] at h
    · simp [classify, hp, hs] at h
    · obtain ⟨-, hn, hv, hpa⟩ := Split_three _ _ _ _ _ hs
      cases ha : Atoi (TrimPrefix version ['v']) with
      | none => simp [classify, hp, hs, ha] at h
      | some n =>
        have hk := key_shape k name version param n hp hs ha
        refine ⟨name, version, param, n, hk, hn, hv, hpa, ha, ?_⟩
        by_cases he : param = ['e', 'n', 'a', 'b', 'l', 'e', 'd']
        · cases hb : ParseBool v with
          | none => simp [classify, hp, hs, ha, he, hb] at h
          | some b =>
            simp [classify, hp, hs, ha, he, hb] at h
            obtain ⟨rfl, rfl, rfl⟩ := h
            simp [he]
        · by_cases hi : param = ['i', 'm', 'a', 'g', 'e']
          · cases hb : validateImage parse v with
            | some e => simp [classify, hp, hs, ha, hi, hb] at h
            | none =>
              simp [classify, hp, hs, ha, hi, hb] at h
              obtain ⟨rfl, rfl, rfl⟩ := h
              simp [hi]
          · simp [classify, hp, hs, ha, he, hi] at h
            obtain ⟨rfl, rfl, rfl⟩ := h
            simp [he, hi]
    · simp [classify, hp, hs] at h

/-- The converse of `classify_update`: a well-formed key with a valid version
and an acceptable value is an update. -/
theorem classify_of_shape (parse : Str → Except Err Reference) (name version param v : Str)
    (n : Int) (hn : '.' ∉ name) (hv : '.' ∉ version) (hpa : '.' ∉ param)
    (ha : Atoi (TrimPrefix version ['v']) = some n) :
    classify parse
        (AnnotationKeyServicePrefix ++ ['/'] ++ (name ++ '.' :: (version ++ '.' :: param))) v
      = if param = "enabled".toList then
          match ParseBool v with
          | none => .fail (msgServiceEnabled ++ (AnnotationKeyServicePrefix ++ ['/']
              ++ (name ++ '.' :: (version ++ '.' :: param))))
          | some b => .update (name ++ '.' :: version)
              { Name := name, Version := n, Enabled := false, Image := [] } (.enabled b)
        else if param = "image".toList then
          match validateImage parse v with
          | some iErr => .fail (msgServiceImage ++ (AnnotationKeyServicePrefix ++ ['/']
              ++ (name ++ '.' :: (version ++ '.' :: param))) ++ [':', ' '] ++ iErr)
          | none => .update (name ++ '.' :: version)
              { Name := name, Version := n, Enabled := false, Image := [] } (.image v)
        else .update (name ++ '.' :: version)
              { Name := name, Version := n, Enabled := false, Image := [] } .other := by
  have hp : HasPrefix (AnnotationKeyServicePrefix ++ ['/']
      ++ (name ++ '.' :: (version ++ '.' :: param))) AnnotationKeyServicePrefix = true := by
    rw [List.append_assoc]; exact HasPrefix_append _ _
  have hs : Split (TrimPrefix (AnnotationKeyServicePrefix ++ ['/']
      ++ (name ++ '.' :: (version ++ '.' :: param))) (AnnotationKeyServicePrefix ++ ['/'])) '.'
      = [name, version, param] := by
    rw [TrimPrefix_append, Split_three_of _ _ _ _ hn hv hpa]
  unfold classify
  simp only [hp, hs, ha]
  rfl

theorem Inv_specStep (parse : Str → Except Err Reference) (s : List (Str × Sidecar))
    (kv : Str × Str) (hinv : Inv s) : Inv (specStep parse s kv) := by
  unfold specStep
  cases hc : classify parse kv.1 kv.2 with
  | skip => exact hinv
  | fail e => exact hinv
  | update g fresh u =>
    obtain ⟨name, version, param, n, -, hn, hv, -, ha, rfl, rfl, -⟩ :=
      classify_update parse _ _ _ _ _ hc
    intro p hp
    rcases mem_mapStore _ _ _ _ hp with rfl | hp
    · cases hl : mapLookup s (name ++ '.' :: version) with
      | none =>
        refine ⟨name, version, rfl, hn, hv, ?_, ?_⟩ <;> cases u <;> simp [Upd.apply, ha]
      | some sc =>
        obtain ⟨name', version', hg, hn', hv', hat, hname⟩ :=
          hinv _ (mapLookup_mem _ _ _ hl)
        obtain ⟨rfl, rfl⟩ := append_sep_inj _ _ _ _ _ hn hn' hg
        simp only at hat hname
        refine ⟨name, version, rfl, hn, hv, ?_, ?_⟩ <;> cases u <;>
          simp [Upd.apply, hat, hname]
    · exact hinv p hp

theorem keysDistinct_specStep (parse : Str → Except Err Reference)
    (s : List (Str × Sidecar)) (kv : Str × Str) (h : keysDistinct s) :
    keysDistinct (specStep parse s kv) := by
  unfold specStep
  split
  · exact keysDistinct_mapStore _ _ _ h
  · exact h

theorem Inv_foldl (parse : Str → Except Err Reference) (m : List (Str × Str))
    (s : List (Str × Sidecar)) (hinv : Inv s) : Inv (m.foldl (specStep parse) s) := by
  induction m generalizing s with
  | nil => exact hinv
  | cons kv m ih => exact ih _ (Inv_specStep parse s kv hinv)

theorem keysDistinct_foldl (parse : Str → Except Err Reference) (m : List (Str × Str))
    (s : List (Str × Sidecar)) (h : keysDistinct s) :
    keysDistinct (m.foldl (specStep parse) s) := by
  induction m generalizing s with
  | nil => exact h
  | cons kv m ih => exact ih _ (keysDistinct_specStep parse s kv h)

/-- The loop of the program computes the failures of the entries and the fold
of their updates. -/
theorem serviceLoop_eq (parse : Str → Except Err Reference) (m : List (Str × Str))
    (err : List Err) (s : List (Str × Sidecar)) (hinv : Inv s) :
    serviceLoop parse m (err, s) = (err ++ failures parse m, m.foldl (specStep parse) s) := by
  induction m generalizing err s with
  | nil => simp [serviceLoop, failures]
  | cons kv m ih =>
    obtain ⟨k, v⟩ := kv
    have hstep := Inv_specStep parse s (k, v) hinv
    simp only [serviceLoop, serviceEntry_eq parse s k v hinv, List.foldl_cons]
    cases hc : classify parse k v with
    | skip =>
      have e1 : specStep parse s (k, v) = s := by simp [specStep, hc]
      rw [e1]
      simp only []
      rw [ih _ _ hinv]
      simp [failures, failureOf, hc]
    | fail e =>
      have e1 : specStep parse s (k, v) = s := by simp [specStep, hc]
      rw [e1]
      simp only []
      rw [ih _ _ hinv]
      simp [failures, failureOf, hc]
    | update g fresh u =>
      have e1 : specStep parse s (k, v)
          = mapStore s g (u.apply ((mapLookup s g).getD fresh)) := by simp [specStep, hc]
      rw [e1] at hstep ⊢
      simp only []
      rw [ih _ _ hstep]
      simp [failures, failureOf, hc]

theorem Inv_nil : Inv [] := by
  intro p hp
  cases hp

theorem keysDistinct_nil : keysDistinct ([] : List (Str × Sidecar)) := by
  simp [keysDistinct]

/-- The result of `parseServiceAnnotations` in terms of the specification-level
view. -/
theorem parseServiceAnnotations_eq (parse : Str → Except Err Reference)
    (m : List (Str × Str)) (pConf : Config) :
    parseServiceAnnotations parse m pConf
      = ({ pConf with
            Sidecars := pConf.Sidecars ++ (m.foldl (specStep parse) []).map Prod.snd },
          failures parse m) := by
  simp [parseServiceAnnotations, serviceLoop_eq parse m [] [] Inv_nil]

/-! ## Order independence -/

theorem mapLookup_specStep (parse : Str → Except Err Reference) (s : List (Str × Sidecar))
    (kv : Str × Str) (g : Str) :
    mapLookup (specStep parse s kv) g = groupStep parse g (mapLookup s g) kv := by
  unfold specStep groupStep
  cases hc : classify parse kv.1 kv.2 with
  | skip => rfl
  | fail e => rfl
  | update g1 fresh u =>
    simp only [mapLookup_mapStore]
    split
    · next e => subst e; rfl
    · rfl

theorem mapLookup_foldl (parse : Str → Except Err Reference) (m : List (Str × Str))
    (s : List (Str × Sidecar)) (g : Str) :
    mapLookup (m.foldl (specStep parse) s) g
      = m.foldl (groupStep parse g) (mapLookup s g) := by
  induction m generalizing s with
  | nil => rfl
  | cons kv m ih => simp only [List.foldl_cons, ih, mapLookup_specStep]

/-- Two entries with different keys can be processed in either order. -/
theorem groupStep_comm (parse : Str → Except Err Reference) (g : Str) (o : Option Sidecar)
    (kv1 kv2 : Str × Str) (hne : kv1.1 ≠ kv2.1) :
    groupStep parse g (groupStep parse g o kv1) kv2
      = groupStep parse g (groupStep parse g o kv2) kv1 := by
  unfold groupStep
  cases h1 : classify parse kv1.1 kv1.2 with
  | skip => rfl
  | fail e => rfl
  | update g1 fresh1 u1 =>
    cases h2 : classify parse kv2.1 kv2.2 with
    | skip => rfl
    | fail e => rfl
    | update g2 fresh2 u2 =>
      by_cases e1 : g1 = g
      · by_cases e2 : g2 = g
        · subst e1
          subst e2
          obtain ⟨name1, version1, param1, n1, hk1, hn1, -, -, ha1, hg1, rfl, hu1⟩ :=
            classify_update parse _ _ _ _ _ h1
          obtain ⟨name2, version2, param2, n2, hk2, hn2, -, -, ha2, hg2, rfl, hu2⟩ :=
            classify_update parse _ _ _ _ _ h2
          obtain ⟨rfl, rfl⟩ := append_sep_inj _ _ _ _ _ hn1 hn2 (hg1.symm.trans hg2)
          have hn : n1 = n2 := Option.some.inj (ha1.symm.trans ha2)
          subst hn
          have hpar : param1 ≠ param2 := by
            rintro rfl
            exact hne (hk1.trans hk2.symm)
          simp only [if_true, Option.getD_some]
          rcases hu1 with ⟨b1, rfl, hp1, -⟩ | ⟨rfl, hp1, -⟩ | ⟨rfl, hp1, hp1'⟩ <;>
            rcases hu2 with ⟨b2, rfl, hp2, -⟩ | ⟨rfl, hp2, -⟩ | ⟨rfl, hp2, hp2'⟩ <;>
            first
              | exact absurd (hp1.trans hp2.symm) hpar
              | (cases o <;> rfl)
        · simp [e1, e2]
      · by_cases e2 : g2 = g
        · simp [e1, e2]
        · simp [e1, e2]

theorem groupFold_perm (parse : Str → Except Err Reference) (g : Str) (o : Option Sidecar)
    (m1 m2 : List (Str × Str)) (hd : keysDistinct m1) (hp : m1.Perm m2) :
    m1.foldl (groupStep parse g) o = m2.foldl (groupStep parse g) o := by
  refine hp.foldl_eq' ?_ o
  intro x hx y hy z
  by_cases hxy : x.1 = y.1
  · have : x = y := by
      have hinj := List.inj_on_of_nodup_map hd
      exact hinj hx hy hxy
    subst this
    rfl
  · exact groupStep_comm parse g z x y hxy

theorem failures_perm (parse : Str → Except Err Reference) (m1 m2 : List (Str × Str))
    (hp : m1.Perm m2) : (failures parse m1).Perm (failures parse m2) :=
  hp.filterMap _

/-- The final `sidecars` map does not depend on the visiting order, as a set
of entries. -/
theorem sidecars_perm (parse : Str → Except Err Reference) (m1 m2 : List (Str × Str))
    (hd : keysDistinct m1) (hp : m1.Perm m2) :
    (m1.foldl (specStep parse) []).Perm (m2.foldl (specStep parse) []) := by
  refine perm_of_mapLookup_eq _ _ (keysDistinct_foldl parse m1 [] keysDistinct_nil)
    (keysDistinct_foldl parse m2 [] keysDistinct_nil) ?_
  intro g
  rw [mapLookup_foldl, mapLookup_foldl]
  exact groupFold_perm parse g _ m1 m2 hd hp

/-! ## Removing one entry from the annotation map -/

/-- Removing a key that the map does not have changes nothing. -/
theorem without_of_not_mem (m : List (Str × Str)) (k : Str)
    (h : k ∉ m.map Prod.fst) : m.filter (fun kv => decide (kv.1 ≠ k)) = m := by
  rw [List.filter_eq_self]
  intro kv hkv
  have : kv.1 ≠ k := by
    rintro rfl
    exact h (List.mem_map_of_mem Prod.fst hkv)
  simpa using this

/-- In a well-formed map, an entry can be taken out and visited last. -/
theorem perm_without_append (m : List (Str × Str)) (k v : Str) (hd : keysDistinct m)
    (hmem : (k, v) ∈ m) :
    m.Perm (m.filter (fun kv => decide (kv.1 ≠ k)) ++ [(k, v)]) := by
  induction m with
  | nil => cases hmem
  | cons p m ih =>
    have hd' : p.1 ∉ m.map Prod.fst ∧ keysDistinct m := by
      unfold keysDistinct at hd ⊢
      rw [List.map_cons, List.nodup_cons] at hd
      exact hd
    rcases List.mem_cons.1 hmem with h | h
    · subst h
      have e : (fun kv : Str × Str => decide (kv.1 ≠ k)) (k, v) = false := by simp
      rw [List.filter_cons_of_neg (by simp), without_of_not_mem m k hd'.1]
      exact List.perm_append_singleton _ _ |>.symm
    · have hne : p.1 ≠ k := by
        rintro rfl
        exact hd'.1 (List.mem_map.2 ⟨_, h, rfl⟩)
      rw [List.filter_cons_of_pos (by simpa using hne)]
      exact (ih hd'.2 h).cons p

theorem keysDistinct_filter (m : List (Str × Str)) (p : Str × Str → Bool)
    (hd : keysDistinct m) : keysDistinct (m.filter p) := by
  unfold keysDistinct at *
  exact hd.sublist ((List.filter_sublist m).map Prod.fst)

theorem not_mem_without (m : List (Str × Str)) (k : Str) :
    k ∉ (m.filter (fun kv => decide (kv.1 ≠ k))).map Prod.fst := by
  intro h
  obtain ⟨kv, hkv, rfl⟩ := List.mem_map.1 h
  have := (List.mem_filter.1 hkv).2
  simp at this

theorem mem_without (m : List (Str × Str)) (k : Str) (kv : Str × Str) :
    kv ∈ m.filter (fun kv => decide (kv.1 ≠ k)) ↔ kv ∈ m ∧ kv.1 ≠ k := by
  simp [List.mem_filter]

/-- An entry that records a failure leaves the `sidecars` map alone: the
final map is the one of the annotation map without it. -/
theorem foldl_without_of_fail (parse : Str → Except Err Reference) (m : List (Str × Str))
    (k v : Str) (s : List (Str × Sidecar))
    (hfail : ∀ fresh g u, classify parse k v ≠ .update g fresh u)
    (hd : keysDistinct m) (hmem : (k, v) ∈ m) :
    m.foldl (specStep parse) s
      = (m.filter (fun kv => decide (kv.1 ≠ k))).foldl (specStep parse) s := by
  have hperm := perm_without_append m k v hd hmem
  induction m generalizing s with
  | nil => rfl
  | cons p m ih =>
    have hd' : p.1 ∉ m.map Prod.fst ∧ keysDistinct m := by
      unfold keysDistinct at hd ⊢
      rw [List.map_cons, List.nodup_cons] at hd
      exact hd
    rcases List.mem_cons.1 hmem with h | h
    · subst h
      rw [List.filter_cons_of_neg (by simp), without_of_not_mem m k hd'.1, List.foldl_cons]
      have : specStep parse s (k, v) = s := by
        unfold specStep
        cases hc : classify parse k v with
        | skip => rfl
        | fail e => rfl
        | update g fresh u => exact absurd hc (hfail _ _ _)
      rw [this]
    · have hne : p.1 ≠ k := by
        rintro rfl
        exact hd'.1 (List.mem_map.2 ⟨_, h, rfl⟩)
      rw [List.filter_cons_of_pos (by simpa using hne), List.foldl_cons, List.foldl_cons]
      exact ih _ hd'.2 h (perm_without_append m k v hd'.2 h)

theorem failures_append (parse : Str → Except Err Reference) (m1 m2 : List (Str × Str)) :
    failures parse (m1 ++ m2) = failures parse m1 ++ failures parse m2 := by
  simp [failures, List.filterMap_append]

/-- The failures of a well-formed map are those of the map without the key
`k`, plus the failure of the entry of `k`. -/
theorem failures_without (parse : Str → Except Err Reference) (m : List (Str × Str))
    (k v : Str) (hd : keysDistinct m) (hmem : (k, v) ∈ m) :
    (failures parse m).Perm
      ((failureOf parse (k, v)).toList
        ++ failures parse (m.filter (fun kv => decide (kv.1 ≠ k)))) := by
  have hperm := failures_perm parse _ _ (perm_without_append m k v hd hmem)
  rw [failures_append] at hperm
  refine hperm.trans ?_
  have : failures parse [(k, v)] = (failureOf parse (k, v)).toList := by
    cases h : failureOf parse (k, v) <;> simp [failures, h]
  rw [this]
  exact List.perm_append_comm

/-- The final `sidecars` map of a well-formed annotation map, as a set of
entries, is the one obtained by visiting the entry of `k` last. -/
theorem sidecars_without (parse : Str → Except Err Reference) (m : List (Str × Str))
    (k v : Str) (hd : keysDistinct m) (hmem : (k, v) ∈ m) :
    (m.foldl (specStep parse) []).Perm
      (specStep parse ((m.filter (fun kv => decide (kv.1 ≠ k))).foldl (specStep parse) [])
        (k, v)) := by
  have h := sidecars_perm parse _ _ hd (perm_without_append m k v hd hmem)
  rwa [List.foldl_append] at h

theorem groupFold_without (parse : Str → Except Err Reference) (m : List (Str × Str))
    (k v g : Str) (o : Option Sidecar) (hd : keysDistinct m) (hmem : (k, v) ∈ m) :
    m.foldl (groupStep parse g) o
      = groupStep parse g
          ((m.filter (fun kv => decide (kv.1 ≠ k))).foldl (groupStep parse g) o) (k, v) := by
  rw [groupFold_perm parse g o _ _ hd (perm_without_append m k v hd hmem), List.foldl_append]
  rfl

/-! ## The record of one group -/

theorem mapStore_self {β : Type} (m : List (Str × β)) (k : Str) (b : β)
    (h : mapLookup m k = some b) : mapStore m k b = m := by
  induction m with
  | nil => simp [mapLookup] at h
  | cons p m ih =>
    obtain ⟨k0, b0⟩ := p
    by_cases e : k0 = k
    · subst e
      simp only [mapLookup, if_true, Option.some.injEq] at h
      subst h
      simp [mapStore]
    · simp only [mapLookup, e, if_false] at h
      simp [mapStore, e, ih h]

theorem mapStore_of_none {β : Type} (m : List (Str × β)) (k : Str) (b : β)
    (h : mapLookup m k = none) : mapStore m k b = m ++ [(k, b)] := by
  induction m with
  | nil => rfl
  | cons p m ih =>
    obtain ⟨k0, b0⟩ := p
    by_cases e : k0 = k
    · simp [mapLookup, e] at h
    · simp only [mapLookup, e, if_false] at h
      simp [mapStore, e, ih h]

theorem Upd.apply_Name (u : Upd) (sc : Sidecar) : (u.apply sc).Name = sc.Name := by
  cases u <;> rfl

theorem Upd.apply_Version (u : Upd) (sc : Sidecar) : (u.apply sc).Version = sc.Version := by
  cases u <;> rfl

/-- A property of the fresh record that every write of the group `g` keeps
holds of the record of `g` at the end. -/
theorem groupFold_invariant (parse : Str → Except Err Reference) (g : Str)
    (P : Sidecar → Prop) (m : List (Str × Str)) (o : Option Sidecar)
    (hstep : ∀ kv ∈ m, ∀ fresh u, classify parse kv.1 kv.2 = .update g fresh u →
      P fresh ∧ ∀ sc, P sc → P (u.apply sc))
    (ho : ∀ sc, o = some sc → P sc) :
    ∀ sc, m.foldl (groupStep parse g) o = some sc → P sc := by
  induction m generalizing o with
  | nil => exact ho
  | cons kv m ih =>
    rw [List.foldl_cons]
    refine ih _ (fun kv' h => hstep kv' (List.mem_cons_of_mem _ h)) ?_
    intro sc hsc
    unfold groupStep at hsc
    cases hc : classify parse kv.1 kv.2 with
    | skip => rw [hc] at hsc; exact ho sc hsc
    | fail e => rw [hc] at hsc; exact ho sc hsc
    | update g1 fresh u =>
      rw [hc] at hsc
      simp only at hsc
      by_cases e : g1 = g
      · subst e
        rw [if_pos rfl] at hsc
        obtain ⟨hf, hu⟩ := hstep kv (List.mem_cons_self _ _) fresh u hc
        have hsc' := Option.some.inj hsc
        subst hsc'
        cases o with
        | none => exact hu _ hf
        | some s0 => exact hu _ (ho s0 rfl)
      · rw [if_neg e] at hsc
        exact ho sc hsc

/-- The group `g` has a record at the end exactly when it had one at the start
or some entry is an update of `g`. -/
theorem groupFold_isSome (parse : Str → Except Err Reference) (g : Str)
    (m : List (Str × Str)) (o : Option Sidecar) :
    (m.foldl (groupStep parse g) o).isSome = true ↔
      o.isSome = true ∨ ∃ kv ∈ m, ∃ fresh u, classify parse kv.1 kv.2 = .update g fresh u := by
  induction m generalizing o with
  | nil => simp
  | cons kv m ih =>
    rw [List.foldl_cons, ih]
    unfold groupStep
    cases hc : classify parse kv.1 kv.2 with
    | skip =>
      simp only [List.mem_cons, exists_eq_or_imp, hc]
      simp
    | fail e =>
      simp only [List.mem_cons, exists_eq_or_imp, hc]
      simp
    | update g1 fresh u =>
      by_cases e : g1 = g
      · subst e
        simp only [if_true, Option.isSome_some, true_or, true_iff]
        exact Or.inr ⟨kv, List.mem_cons_self _ _, fresh, u, hc⟩
      · simp only [if_neg e, List.mem_cons, exists_eq_or_imp, hc]
        simp [e]

/-- No entry updates the group `g`: the record of `g` stays as it is. -/
theorem groupFold_unchanged (parse : Str → Except Err Reference) (g : Str)
    (m : List (Str × Str)) (o : Option Sidecar)
    (h : ∀ kv ∈ m, ∀ fresh u, classify parse kv.1 kv.2 ≠ .update g fresh u) :
    m.foldl (groupStep parse g) o = o := by
  induction m generalizing o with
  | nil => rfl
  | cons kv m ih =>
    rw [List.foldl_cons]
    have : groupStep parse g o kv = o := by
      unfold groupStep
      cases hc : classify parse kv.1 kv.2 with
      | skip => rfl
      | fail e => rfl
      | update g1 fresh u =>
        by_cases e : g1 = g
        · subst e
          exact absurd hc (h kv (List.mem_cons_self _ _) _ _)
        · simp [e]
    rw [this]
    exact ih o (fun kv' hkv' => h kv' (List.mem_cons_of_mem _ hkv'))

/-! ## Decimal numbers -/

theorem parseDigits_digits (ds : Str) (acc : Nat) (h : ∀ c ∈ ds, c.isDigit = true) :
    ∃ n, parseDigits ds acc = some n := by
  induction ds generalizing acc with
  | nil => exact ⟨acc, rfl⟩
  | cons c cs ih =>
    have hc : c.isDigit = true := h c (List.mem_cons_self _ _)
    simp only [parseDigits, hc, if_true]
    exact ih _ (fun c' hc' => h c' (List.mem_cons_of_mem _ hc'))

theorem Atoi_digits (ds : Str) (n : Nat) (hne : ds ≠ [])
    (hd : ∀ c ∈ ds, c.isDigit = true) (hv : parseDigits ds 0 = some n) (hn : n < 2 ^ 63) :
    Atoi ds = some (n : Int) := by
  cases ds with
  | nil => exact absurd rfl hne
  | cons c cs =>
    have hc : c.isDigit = true := hd c (List.mem_cons_self _ _)
    have h1 : c ≠ '-' := by
      rintro rfl
      exact absurd hc (by decide)
    have h2 : c ≠ '+' := by
      rintro rfl
      exact absurd hc (by decide)
    simp only [Atoi, h1, h2, if_false, hv, hn, if_true]

theorem not_mem_of_digits (ds : Str) (hd : ∀ c ∈ ds, c.isDigit = true) : '.' ∉ ds := by
  intro h
  exact absurd (hd _ h) (by decide)

/-! ## Further lemmas for the claims -/

theorem classify_skip (parse : Str → Except Err Reference) (k v : Str)
    (h : HasPrefix k AnnotationKeyServicePrefix = false) : classify parse k v = .skip := by
  simp [classify, h]

theorem value_unique (m : List (Str × Str)) (k v v' : Str) (hd : keysDistinct m)
    (h : (k, v) ∈ m) (h' : (k, v') ∈ m) : v = v' := by
  have hinj := List.inj_on_of_nodup_map hd
  have := hinj h h' rfl
  exact (Prod.mk.inj this).2

theorem parseDigits_eq (ds : Str) (acc : Nat) (h : ∀ c ∈ ds, c.isDigit = true) :
    parseDigits ds acc = some (ds.foldl (fun acc c => acc * 10 + (c.toNat - 48)) acc) := by
  induction ds generalizing acc with
  | nil => rfl
  | cons c cs ih =>
    have hc : c.isDigit = true := h c (List.mem_cons_self _ _)
    simp only [parseDigits, hc, if_true, List.foldl_cons]
    exact ih _ (fun c' hc' => h c' (List.mem_cons_of_mem _ hc'))

/-- The version segment `v<digits>` of a number that fits `int` is valid. -/
theorem Atoi_version (ds : Str) (hne : ds ≠ []) (hd : ∀ c ∈ ds, c.isDigit = true)
    (hn : decimalValue ds < 2 ^ 63) :
    Atoi (TrimPrefix ('v' :: ds) ['v']) = some (decimalValue ds : Int) := by
  have : TrimPrefix ('v' :: ds) ['v'] = ds := TrimPrefix_append ['v'] ds
  rw [this]
  exact Atoi_digits ds _ hne hd (parseDigits_eq ds 0 hd) hn

theorem serviceKey_classify (parse : Str → Except Err Reference) (name version param v : Str)
    (n : Int) (hn : '.' ∉ name) (hv : '.' ∉ version) (hpa : '.' ∉ param)
    (ha : Atoi (TrimPrefix version ['v']) = some n) :
    classify parse (serviceKey name version param) v
      = if param = "enabled".toList then
          match ParseBool v with
          | none => .fail (msgServiceEnabled ++ serviceKey name version param)
          | some b => .update (name ++ '.' :: version)
              { Name := name, Version := n, Enabled := false, Image := [] } (.enabled b)
        else if param = "image".toList then
          match validateImage parse v with
          | some iErr => .fail (msgServiceImage ++ serviceKey name version param
              ++ [':', ' '] ++ iErr)
          | none => .update (name ++ '.' :: version)
              { Name := name, Version := n, Enabled := false, Image := [] } (.image v)
        else .update (name ++ '.' :: version)
              { Name := name, Version := n, Enabled := false, Image := [] } .other :=
  classify_of_shape parse name version param v n hn hv hpa ha

theorem serviceKey_inj (name version param name' version' param' : Str)
    (hn : '.' ∉ name) (hv : '.' ∉ version) (hn' : '.' ∉ name') (hv' : '.' ∉ version')
    (h : serviceKey name version param = serviceKey name' version' param') :
    name = name' ∧ version = version' ∧ param = param' := by
  unfold serviceKey at h
  have h1 := List.append_cancel_left h
  obtain ⟨rfl, h2⟩ := append_sep_inj _ _ _ _ _ hn hn' h1
  obtain ⟨rfl, rfl⟩ := append_sep_inj _ _ _ _ _ hv hv' h2
  exact ⟨rfl, rfl, rfl⟩

theorem failures_eq_nil (parse : Str → Except Err Reference) (m : List (Str × Str))
    (h : ∀ kv ∈ m, ∀ e, classify parse kv.1 kv.2 ≠ .fail e) : failures parse m = [] := by
  unfold failures
  rw [List.filterMap_eq_nil_iff]
  intro kv hkv
  unfold failureOf
  cases hc : classify parse kv.1 kv.2 with
  | skip => rfl
  | fail e => exact absurd hc (h kv hkv e)
  | update g f u => rfl

/-- The record of a group with a valid `enabled` and a valid `image` entry
and no other service key. -/
theorem pair_lookup (parse : Str → Except Err Reference) (name version b i : Str)
    (n : Int) (bv : Bool) (m : List (Str × Str))
    (hn : '.' ∉ name) (hv : '.' ∉ version)
    (ha : Atoi (TrimPrefix version ['v']) = some n)
    (hb : ParseBool b = some bv) (hi : validateImage parse i = none)
    (hd : keysDistinct m)
    (hE : (serviceKey name version "enabled".toList, b) ∈ m)
    (hI : (serviceKey name version "image".toList, i) ∈ m)
    (hothers : ∀ kv ∈ m, HasPrefix kv.1 AnnotationKeyServicePrefix = true →
      kv.1 = serviceKey name version "enabled".toList
        ∨ kv.1 = serviceKey name version "image".toList)
    (g : Str) :
    m.foldl (groupStep parse g) none
      = if name ++ '.' :: version = g then
          some { Name := name, Version := n, Enabled := bv, Image := i }
        else none := by
  have hcE := serviceKey_classify parse name version "enabled".toList b n hn hv (by decide) ha
  have hcI := serviceKey_classify parse name version "image".toList i n hn hv (by decide) ha
  rw [if_pos rfl, hb] at hcE
  rw [if_neg (by decide), if_pos rfl, hi] at hcI
  simp only at hcE hcI
  have hneK : serviceKey name version "image".toList
      ≠ serviceKey name version "enabled".toList := by
    intro h
    have := (serviceKey_inj _ _ _ _ _ _ hn hv hn hv h).2.2
    exact absurd this (by decide)
  rw [groupFold_without parse m _ b g none hd hE]
  have hd1 := keysDistinct_filter m
    (fun kv => decide (kv.1 ≠ serviceKey name version "enabled".toList)) hd
  have hI1 : (serviceKey name version "image".toList, i)
      ∈ m.filter (fun kv => decide (kv.1 ≠ serviceKey name version "enabled".toList)) :=
    (mem_without m _ _).2 ⟨hI, hneK⟩
  rw [groupFold_without parse _ _ i g none hd1 hI1]
  rw [groupFold_unchanged]
  · unfold groupStep
    simp only [hcE, hcI]
    by_cases e : name ++ '.' :: version = g
    · simp [e, Upd.apply]
    · simp [e]
  · intro kv hkv fresh u
    obtain ⟨hkv1, hne2⟩ := (mem_without _ _ _).1 hkv
    obtain ⟨hkv0, hne1⟩ := (mem_without _ _ _).1 hkv1
    have hnp : HasPrefix kv.1 AnnotationKeyServicePrefix = false := by
      cases hp : HasPrefix kv.1 AnnotationKeyServicePrefix with
      | false => rfl
      | true =>
        rcases hothers kv hkv0 hp with h | h
        · exact absurd h hne1
        · exact absurd h hne2
    rw [classify_skip parse _ _ hnp]
    exact Action.noConfusion

/-! ## Where the records of the final map come from -/

theorem mapLookup_isSome_of_mem {β : Type} (m : List (Str × β)) (k : Str) (b : β)
    (h : (k, b) ∈ m) : (mapLookup m k).isSome = true := by
  induction m with
  | nil => cases h
  | cons p m ih =>
    obtain ⟨k0, b0⟩ := p
    by_cases e : k0 = k
    · simp [mapLookup, e]
    · rcases List.mem_cons.1 h with h | h
      · exact absurd (Prod.mk.inj h).1.symm e
      · simp [mapLookup, e, ih h]

/-- Every entry of the final `sidecars` map is stored under `name.version` for
a service key `<name>.<version>.<param>` of the annotation map whose version
segment is valid, and carries that name and the number of that segment. -/
theorem final_entry_origin (parse : Str → Except Err Reference) (m : List (Str × Str))
    (g : Str) (sc : Sidecar) (h : (g, sc) ∈ m.foldl (specStep parse) []) :
    ∃ version param v, (serviceKey sc.Name version param, v) ∈ m
      ∧ g = sc.Name ++ '.' :: version ∧ '.' ∉ sc.Name ∧ '.' ∉ version ∧ '.' ∉ param
      ∧ Atoi (TrimPrefix version ['v']) = some sc.Version
      ∧ (param = "enabled".toList → ParseBool v ≠ none)
      ∧ (param = "image".toList → validateImage parse v = none) := by
  have hsome := mapLookup_isSome_of_mem _ _ _ h
  rw [mapLookup_foldl, groupFold_isSome] at hsome
  rcases hsome with hsome | ⟨kv, hkv, fresh, u, hc⟩
  · simp [mapLookup] at hsome
  · obtain ⟨name, version, param, n, hk, hn, hv, hpa, ha, hg, -, hu⟩ :=
      classify_update parse _ _ _ _ _ hc
    obtain ⟨name', version', hg', hn', -, ha', hname'⟩ :=
      Inv_foldl parse m [] Inv_nil _ h
    simp only at hg' ha' hname'
    obtain ⟨rfl, rfl⟩ := append_sep_inj _ _ _ _ _ hn hn' (hg.symm.trans hg')
    have hver : n = sc.Version := Option.some.inj (ha.symm.trans ha')
    subst hver
    subst hname'
    refine ⟨version, param, kv.2, ?_, hg, hn, hv, hpa, ha, ?_, ?_⟩
    · have : kv = (serviceKey sc.Name version param, kv.2) := by
        rw [serviceKey, ← hk]
      rw [← this]
      exact hkv
    · intro hp
      rcases hu with ⟨b, -, -, hb⟩ | ⟨-, hp', -⟩ | ⟨-, hp', -⟩
      · rw [hb]; exact Option.noConfusion
      · rw [hp] at hp'; exact absurd hp' (by decide)
      · exact absurd hp hp'
    · intro hp
      rcases hu with ⟨b, -, hp', -⟩ | ⟨-, -, hi⟩ | ⟨-, -, hp'⟩
      · rw [hp] at hp'; exact absurd hp' (by decide)
      · exact hi
      · exact absurd hp hp'

/-- An accepted entry of the annotation map gives its group a record in the
final `sidecars` map. -/
theorem final_entry_of_update (parse : Str → Except Err Reference) (m : List (Str × Str))
    (name version param v : Str) (n : Int)
    (hmem : (serviceKey name version param, v) ∈ m)
    (hn : '.' ∉ name) (hv : '.' ∉ version) (hpa : '.' ∉ param)
    (ha : Atoi (TrimPrefix version ['v']) = some n)
    (hE : param = "enabled".toList → ParseBool v ≠ none)
    (hI : param = "image".toList → validateImage parse v = none) :
    ∃ sc, (name ++ '.' :: version, sc) ∈ m.foldl (specStep parse) []
      ∧ sc.Name = name ∧ sc.Version = n := by
  have hc := serviceKey_classify parse name version param v n hn hv hpa ha
  have hupd : ∃ fresh u, classify parse (serviceKey name version param) v
      = .update (name ++ '.' :: version) fresh u := by
    by_cases he : param = "enabled".toList
    · rw [if_pos he] at hc
      cases hb : ParseBool v with
      | none => exact absurd hb (hE he)
      | some b => rw [hb] at hc; exact ⟨_, _, hc⟩
    · rw [if_neg he] at hc
      by_cases hi : param = "image".toList
      · rw [if_pos hi, hI hi] at hc
        exact ⟨_, _, hc⟩
      · rw [if_neg hi] at hc
        exact ⟨_, _, hc⟩
  obtain ⟨fresh, u, hcu⟩ := hupd
  have hsome : (mapLookup (m.foldl (specStep parse) []) (name ++ '.' :: version)).isSome
      = true := by
    rw [mapLookup_foldl, groupFold_isSome]
    exact Or.inr ⟨_, hmem, fresh, u, hcu⟩
  obtain ⟨sc, hsc⟩ := Option.isSome_iff_exists.1 hsome
  have hin := mapLookup_mem _ _ _ hsc
  obtain ⟨name', version', hg', hn', -, ha', hname'⟩ := Inv_foldl parse m [] Inv_nil _ hin
  simp only at hg' ha' hname'
  obtain ⟨rfl, rfl⟩ := append_sep_inj _ _ _ _ _ hn hn' hg'
  exact ⟨sc, hin, hname', Option.some.inj (ha'.symm.trans ha)⟩

/-! ## Entries that record a failure -/

/-- An entry that records the failure `e` adds `e` to the failures of the
other entries and leaves the Sidecars as they are without it. -/
theorem fail_entry (parse : Str → Except Err Reference) (m : List (Str × Str))
    (k v : Str) (e : Err) (pConf : Config) (hc : classify parse k v = .fail e)
    (hd : keysDistinct m) (hmem : (k, v) ∈ m) :
    (parseServiceAnnotations parse m pConf).2.Perm
        (e :: (parseServiceAnnotations parse (withoutKey m k) pConf).2)
      ∧ (parseServiceAnnotations parse m pConf).1.Sidecars.Perm
          (parseServiceAnnotations parse (withoutKey m k) pConf).1.Sidecars := by
  rw [parseServiceAnnotations_eq, parseServiceAnnotations_eq]
  unfold withoutKey
  constructor
  · have h := failures_without parse m k v hd hmem
    have hf : failureOf parse (k, v) = some e := by simp [failureOf, hc]
    rw [hf] at h
    exact h
  · have hfail : ∀ fresh g u, classify parse k v ≠ .update g fresh u := by
      intro fresh g u h
      rw [hc] at h
      exact Action.noConfusion h
    simp only
    rw [foldl_without_of_fail parse m k v [] hfail hd hmem]

theorem classify_bad_count (parse : Str → Except Err Reference) (k v : Str)
    (hp : HasPrefix k AnnotationKeyServicePrefix = true)
    (hs : (Split (TrimPrefix k (AnnotationKeyServicePrefix ++ ['/'])) '.').length ≠ 3) :
    classify parse k v = .fail (msgServiceParams ++ k) := by
  rcases hsp : Split (TrimPrefix k (AnnotationKeyServicePrefix ++ ['/'])) '.' with
    _ | ⟨name, _ | ⟨version, _ | ⟨param, _ | ⟨x, l⟩⟩⟩⟩
  · simp [classify, hp, hsp]
  · simp [classify, hp, hsp]
  · simp [classify, hp, hsp]
  · rw [hsp] at hs
    exact absurd rfl hs
  · simp [classify, hp, hsp]

theorem classify_bad_version (parse : Str → Except Err Reference)
    (k v name version param : Str)
    (hp : HasPrefix k AnnotationKeyServicePrefix = true)
    (hs : Split (TrimPrefix k (AnnotationKeyServicePrefix ++ ['/'])) '.'
      = [name, version, param])
    (hbad : Atoi (TrimPrefix version ['v']) = none) :
    classify parse k v = .fail (msgServiceVersion ++ k) := by
  simp [classify, hp, hs, hbad]

/-! ## The record of a group with a valid version segment -/

/-- A property that holds of the fresh record of the group `name.version` and
is kept by the writes of its accepted `enabled` and `image` entries holds of
the record of the group after any part of the map has been visited. -/
theorem group_props (parse : Str → Except Err Reference) (m : List (Str × Str))
    (name version : Str) (n : Int) (P : Sidecar → Prop)
    (hn : '.' ∉ name)
    (ha : Atoi (TrimPrefix version ['v']) = some n)
    (hfresh : P { Name := name, Version := n, Enabled := false, Image := [] })
    (hEn : ∀ b bv, (serviceKey name version "enabled".toList, b) ∈ m →
      ParseBool b = some bv → ∀ sc, P sc → P { sc with Enabled := bv })
    (hIm : ∀ i, (serviceKey name version "image".toList, i) ∈ m →
      validateImage parse i = none → ∀ sc, P sc → P { sc with Image := i })
    (m' : List (Str × Str)) (hsub : ∀ kv ∈ m', kv ∈ m) (o : Option Sidecar)
    (ho : ∀ sc, o = some sc → P sc) :
    ∀ sc, m'.foldl (groupStep parse (name ++ '.' :: version)) o = some sc → P sc := by
  refine groupFold_invariant parse _ P m' o ?_ ho
  intro kv hkv fresh u hc
  obtain ⟨name', version', param, n', hk, hn', hv', -, ha', hg, rfl, hu⟩ :=
    classify_update parse _ _ _ _ _ hc
  obtain ⟨rfl, rfl⟩ := append_sep_inj _ _ _ _ _ hn hn' hg
  have hnn : n' = n := Option.some.inj (ha'.symm.trans ha)
  subst hnn
  refine ⟨hfresh, ?_⟩
  have hkv' : (serviceKey name version param, kv.2) ∈ m := by
    have : kv = (serviceKey name version param, kv.2) := by
      rw [serviceKey, ← hk]
    rw [← this]
    exact hsub kv hkv
  rcases hu with ⟨b, rfl, rfl, hb⟩ | ⟨rfl, rfl, hi⟩ | ⟨rfl, -, -⟩
  · exact hEn _ _ hkv' hb
  · exact hIm _ hkv' hi
  · exact fun sc h => h

/-- The record of a group after an accepted entry of it has been visited last. -/
theorem group_after_entry (parse : Str → Except Err Reference) (m : List (Str × Str))
    (k v g : Str) (fresh : Sidecar) (u : Upd) (hd : keysDistinct m) (hmem : (k, v) ∈ m)
    (hc : classify parse k v = .update g fresh u) :
    mapLookup (m.foldl (specStep parse) []) g
      = some (u.apply (((withoutKey m k).foldl (groupStep parse g) none).getD fresh)) := by
  rw [mapLookup_foldl]
  simp only [mapLookup]
  rw [groupFold_without parse m k v g none hd hmem]
  unfold groupStep withoutKey
  simp [hc]

theorem mem_sidecars_of_lookup (parse : Str → Except Err Reference) (m : List (Str × Str))
    (g : Str) (sc : Sidecar) (h : mapLookup (m.foldl (specStep parse) []) g = some sc) :
    sc ∈ (parseServiceAnnotations parse m {}).1.Sidecars := by
  rw [parseServiceAnnotations_eq]
  simp only [List.nil_append, List.mem_map]
  exact ⟨(g, sc), mapLookup_mem _ _ _ h, rfl⟩

theorem mem_withoutKey (m : List (Str × Str)) (k : Str) (kv : Str × Str)
    (h : kv ∈ withoutKey m k) : kv ∈ m :=
  ((mem_without m k kv).1 h).1

/-! ## The scalar parser against its specification-level view -/

theorem entries_multierrorAppend (err : MultiError) (e : Err) :
    (multierrorAppend err e).entries = err.entries ++ [e] := rfl

theorem stringLoop_eq (annotations : List (Str × Str)) (t : List (Str × StringField))
    (c : Config) :
    t.foldl (stringStep annotations) c
      = { c with strings := fieldsAfter some annotations t c.strings } := by
  induction t generalizing c with
  | nil => rfl
  | cons an t ih =>
    rw [List.foldl_cons, ih]
    unfold stringStep
    cases h : mapLookup annotations an.1 with
    | none => simp [fieldsAfter, h]
    | some val => simp [fieldsAfter, h, Config.setString]

theorem boolLoop_eq (annotations : List (Str × Str)) (t : List (Str × BoolField))
    (st : Config × MultiError) :
    (t.foldl (boolStep annotations) st).1
        = { st.1 with bools := fieldsAfter ParseBool annotations t st.1.bools }
      ∧ (t.foldl (boolStep annotations) st).2.entries
        = st.2.entries ++ tableFailures ParseBool msgBool annotations t := by
  induction t generalizing st with
  | nil => simp [tableFailures, fieldsAfter]
  | cons an t ih =>
    rw [List.foldl_cons]
    obtain ⟨h1, h2⟩ := ih (boolStep annotations st an)
    rw [h1, h2]
    unfold boolStep
    cases h : mapLookup annotations an.1 with
    | none => simp [fieldsAfter, tableFailures, h]
    | some val =>
      cases hp : ParseBool val with
      | none => simp [fieldsAfter, tableFailures, h, hp, entries_multierrorAppend]
      | some b => simp [fieldsAfter, tableFailures, h, hp, Config.setBool]

theorem resourceLoop_eq (lib : Lib) (annotations : List (Str × Str))
    (t : List (Str × ResourceField)) (st : Config × MultiError) :
    (t.foldl (resourceStep lib annotations) st).1
        = { st.1 with
            resources := fieldsAfter lib.parseQuantity annotations t st.1.resources }
      ∧ (t.foldl (resourceStep lib annotations) st).2.entries
        = st.2.entries ++ tableFailures lib.parseQuantity msgResource annotations t := by
  induction t generalizing st with
  | nil => simp [tableFailures, fieldsAfter]
  | cons an t ih =>
    rw [List.foldl_cons]
    obtain ⟨h1, h2⟩ := ih (resourceStep lib annotations st an)
    rw [h1, h2]
    unfold resourceStep
    cases h : mapLookup annotations an.1 with
    | none => simp [fieldsAfter, tableFailures, h]
    | some val =>
      cases hp : lib.parseQuantity val with
      | none => simp [fieldsAfter, tableFailures, h, hp, entries_multierrorAppend]
      | some b => simp [fieldsAfter, tableFailures, h, hp, Config.setResource]

theorem durationLoop_eq (lib : Lib) (annotations : List (Str × Str))
    (t : List (Str × DurationField)) (st : Config × MultiError) :
    (t.foldl (durationStep lib annotations) st).1
        = { st.1 with
            durations := fieldsAfter lib.parseDuration annotations t st.1.durations }
      ∧ (t.foldl (durationStep lib annotations) st).2.entries
        = st.2.entries ++ tableFailures lib.parseDuration msgDuration annotations t := by
  induction t generalizing st with
  | nil => simp [tableFailures, fieldsAfter]
  | cons an t ih =>
    rw [List.foldl_cons]
    obtain ⟨h1, h2⟩ := ih (durationStep lib annotations st an)
    rw [h1, h2]
    unfold durationStep
    cases h : mapLookup annotations an.1 with
    | none => simp [fieldsAfter, tableFailures, h]
    | some val =>
      cases hp : lib.parseDuration val with
      | none => simp [fieldsAfter, tableFailures, h, hp, entries_multierrorAppend]
      | some b => simp [fieldsAfter, tableFailures, h, hp, Config.setDuration]

theorem hostnameStyleCheck_entries (annotations : List (Str × Str)) (err : MultiError) :
    (hostnameStyleCheck annotations err).entries
      = err.entries ++ hostnameStyleFailure annotations := by
  unfold hostnameStyleCheck hostnameStyleFailure
  cases h : mapLookup annotations AnnotationKeyPodHostnameStyle with
  | none => simp
  | some v =>
    by_cases hv : v ≠ "ec2".toList ∧ v ≠ []
    · simp only []
      rw [if_pos hv, if_pos hv, entries_multierrorAppend]
    · simp only []
      rw [if_neg hv, if_neg hv, List.append_nil]

theorem parsePodSchemaVersion_eq (annotations : List (Str × Str)) (st : Config × MultiError) :
    (parsePodSchemaVersion annotations st).1
        = { st.1 with
            PodSchemaVersion :=
              match (mapLookup annotations AnnotationKeyPodSchemaVersion).bind
                  (fun v => ParseUint v 32) with
              | some n => some (toUint32 n)
              | none => st.1.PodSchemaVersion }
      ∧ (parsePodSchemaVersion annotations st).2.entries
        = st.2.entries ++ keyFailure (fun v => ParseUint v 32) msgUint32 annotations
            AnnotationKeyPodSchemaVersion := by
  unfold parsePodSchemaVersion keyFailure
  cases h : mapLookup annotations AnnotationKeyPodSchemaVersion with
  | none => simp
  | some v =>
    cases hp : ParseUint v 32 with
    | none => simp [hp, entries_multierrorAppend]
    | some n => simp [hp]

theorem parseJobAcceptedTimestampMs_eq (annotations : List (Str × Str))
    (st : Config × MultiError) :
    (parseJobAcceptedTimestampMs annotations st).1
        = { st.1 with
            JobAcceptedTimestampMs :=
              match (mapLookup annotations AnnotationKeyJobAcceptedTimestampMs).bind
                  (fun v => ParseUint v 64) with
              | some n => some (toUint64 n)
              | none => st.1.JobAcceptedTimestampMs }
      ∧ (parseJobAcceptedTimestampMs annotations st).2.entries
        = st.2.entries ++ keyFailure (fun v => ParseUint v 64) msgUint64 annotations
            AnnotationKeyJobAcceptedTimestampMs := by
  unfold parseJobAcceptedTimestampMs keyFailure
  cases h : mapLookup annotations AnnotationKeyJobAcceptedTimestampMs with
  | none => simp
  | some v =>
    cases hp : ParseUint v 64 with
    | none => simp [hp, entries_multierrorAppend]
    | some n => simp [hp]

theorem parseOomScoreAdj_eq (annotations : List (Str × Str)) (st : Config × MultiError) :
    (parseOomScoreAdj annotations st).1
        = { st.1 with
            OomScoreAdj :=
              match (mapLookup annotations AnnotationKeyPodOomScoreAdj).bind
                  (fun v => ParseInt v 32) with
              | some n => some (toInt32 n)
              | none => st.1.OomScoreAdj }
      ∧ (parseOomScoreAdj annotations st).2.entries
        = st.2.entries ++ keyFailure (fun v => ParseInt v 32) msgInt32 annotations
            AnnotationKeyPodOomScoreAdj := by
  unfold parseOomScoreAdj keyFailure
  cases h : mapLookup annotations AnnotationKeyPodOomScoreAdj with
  | none => simp
  | some v =>
    cases hp : ParseInt v 32 with
    | none => simp [hp, entries_multierrorAppend]
    | some n => simp [hp]

theorem parseLogUploadRegexp_eq (lib : Lib) (annotations : List (Str × Str))
    (st : Config × MultiError) :
    (parseLogUploadRegexp lib annotations st).1
        = { st.1 with
            LogUploadRegExp :=
              match mapLookup annotations AnnotationKeyLogUploadRegexp with
              | some v => if lib.compileRegexp v = none then some { expr := v }
                          else st.1.LogUploadRegExp
              | none => st.1.LogUploadRegExp }
      ∧ (parseLogUploadRegexp lib annotations st).2.entries
        = st.2.entries ++ regexpFailure lib annotations := by
  unfold parseLogUploadRegexp regexpFailure
  cases h : mapLookup annotations AnnotationKeyLogUploadRegexp with
  | none => simp
  | some v =>
    cases hp : lib.compileRegexp v with
    | none => simp [hp]
    | some e => simp [hp, entries_multierrorAppend]

theorem foldl_append_singleton_map {α β : Type} (f : α → β) (l : List α) (acc : List β) :
    l.foldl (fun ids x => ids ++ [f x]) acc = acc ++ l.map f := by
  induction l generalizing acc with
  | nil => simp
  | cons x l ih => simp [ih]

theorem parseSecurityGroups_eq (annotations : List (Str × Str)) (st : Config × MultiError) :
    (parseSecurityGroups annotations st).1
        = { st.1 with
            SecurityGroupIDs :=
              match mapLookup annotations AnnotationKeyNetworkSecurityGroups with
              | some sgVal => some ((Split (TrimSpace sgVal) ',').map TrimSpace)
              | none => st.1.SecurityGroupIDs }
      ∧ (parseSecurityGroups annotations st).2 = st.2 := by
  unfold parseSecurityGroups
  cases h : mapLookup annotations AnnotationKeyNetworkSecurityGroups with
  | none => simp
  | some v => simp [foldl_append_singleton_map]

theorem schedPolicyCheck_eq (st : Config × MultiError) :
    (schedPolicyCheck st).1 = st.1
      ∧ (schedPolicyCheck st).2.entries
        = st.2.entries ++ schedPolicyFailure (st.1.strings StringField.SchedPolicy) := by
  unfold schedPolicyCheck schedPolicyFailure
  cases h : st.1.strings StringField.SchedPolicy with
  | none => simp
  | some v =>
    by_cases hv : v ≠ "batch".toList ∧ v ≠ "idle".toList
    · simp only []
      rw [if_pos hv, if_pos hv, entries_multierrorAppend]
      exact ⟨rfl, rfl⟩
    · simp only []
      rw [if_neg hv, if_neg hv, List.append_nil]
      exact ⟨rfl, rfl⟩

theorem errorEntries_ErrorOrNil (err : MultiError) :
    errorEntries (ErrorOrNil err) = err.entries := by
  unfold errorEntries ErrorOrNil MultiError.entries
  cases err with
  | none => rfl
  | some errs =>
    by_cases h : errs = []
    · simp [h]
    · simp [h]

theorem ErrorOrNil_eq_none (err : MultiError) : ErrorOrNil err = none ↔ err.entries = [] := by
  unfold ErrorOrNil MultiError.entries
  cases err with
  | none => simp
  | some errs =>
    by_cases h : errs = []
    · simp [h]
    · simp [h]

theorem ErrorOrNil_eq_some (err : MultiError) (l : List Err) (h : ErrorOrNil err = some l) :
    l = err.entries ∧ l ≠ [] := by
  unfold ErrorOrNil MultiError.entries at *
  cases err with
  | none => simp at h
  | some errs =>
    by_cases he : errs = []
    · simp [he] at h
    · simp [he] at h
      subst h
      exact ⟨rfl, he⟩

theorem parseServiceAnnotations_snd (parse : Str → Except Err Reference)
    (m : List (Str × Str)) (c : Config) :
    (parseServiceAnnotations parse m c).2 = failures parse m := by
  rw [parseServiceAnnotations_eq]

/-- The `Config` that `parseAnnotations` returns. -/
theorem parseAnnotations_config (lib : Lib) (userCtrName : Str) (m : List (Str × Str))
    (c : Config) :
    (parseAnnotations lib userCtrName m c).1
      = { scalarConfig lib userCtrName m c with
          Sidecars := c.Sidecars ++ (m.foldl (specStep lib.parseReference) []).map Prod.snd } := by
  unfold parseAnnotations scalarConfig
  simp only [parseServiceAnnotations_eq, schedPolicyCheck_eq, parseSecurityGroups_eq,
    parseLogUploadRegexp_eq, (durationLoop_eq _ _ _ _).1, (resourceLoop_eq _ _ _ _).1,
    parseOomScoreAdj_eq, parseJobAcceptedTimestampMs_eq, parsePodSchemaVersion_eq,
    (boolLoop_eq _ _ _).1, stringLoop_eq]

/-- The entries of the `error` that `parseAnnotations` returns. -/
theorem parseAnnotations_entries (lib : Lib) (userCtrName : Str) (m : List (Str × Str))
    (c : Config) :
    errorEntries (parseAnnotations lib userCtrName m c).2
      = scalarFailures lib m ++ schedPolicyFailure (schedPolicyAfter userCtrName m c)
          ++ failures lib.parseReference m := by
  unfold parseAnnotations scalarFailures schedPolicyAfter
  simp only [errorEntries_ErrorOrNil, multierrorFlatten, MultiError.entries, Option.getD_some,
    parseServiceAnnotations_snd]
  have e : ∀ err : MultiError, err.getD [] = err.entries := fun _ => rfl
  simp only [e, (schedPolicyCheck_eq _).2, (schedPolicyCheck_eq _).1, parseSecurityGroups_eq,
    parseLogUploadRegexp_eq, (durationLoop_eq _ _ _ _).2, (durationLoop_eq _ _ _ _).1,
    (resourceLoop_eq _ _ _ _).2, (resourceLoop_eq _ _ _ _).1,
    parseOomScoreAdj_eq, parseJobAcceptedTimestampMs_eq, parsePodSchemaVersion_eq,
    (boolLoop_eq _ _ _).1, (boolLoop_eq _ _ _).2, stringLoop_eq, hostnameStyleCheck_entries]
  simp [MultiError.entries, List.append_assoc]


/-! ## Which failures the combined error holds -/

theorem incompatible_ne (p q : Str) (h : incompatible p q = true) (x y : Str) :
    p ++ x ≠ q ++ y := by
  induction p generalizing q with
  | nil => simp [incompatible] at h
  | cons a p ih =>
    cases q with
    | nil => simp [incompatible] at h
    | cons b q =>
      simp only [incompatible, Bool.or_eq_true, decide_eq_true_eq] at h
      intro he
      simp only [List.cons_append, List.cons.injEq] at he
      rcases h with h | h
      · exact h he.1
      · exact ih q h he.2

theorem texts_incompatible :
    ∀ a ∈ scalarTexts ++ serviceTexts, ∀ b ∈ scalarTexts ++ serviceTexts,
      a ≠ b → incompatible a b = true := by
  decide


theorem mem_tableFailures {F V : Type} (parse : Str → Option V) (msg : Err)
    (m : List (Str × Str)) (t : List (Str × F)) (e : Err) :
    e ∈ tableFailures parse msg m t
      ↔ ∃ an ∈ t, ∃ val, mapLookup m an.1 = some val ∧ parse val = none ∧ e = msg ++ an.1 := by
  unfold tableFailures
  rw [List.mem_filterMap]
  constructor
  · rintro ⟨an, han, h⟩
    refine ⟨an, han, ?_⟩
    cases hl : mapLookup m an.1 with
    | none => simp [hl] at h
    | some val =>
      cases hp : parse val with
      | none =>
        simp [hl, hp] at h
        exact ⟨val, rfl, hp, h.symm⟩
      | some x => simp [hl, hp] at h
  · rintro ⟨an, han, val, hl, hp, rfl⟩
    exact ⟨an, han, by simp [hl, hp]⟩

theorem mem_keyFailure {V : Type} (parse : Str → Option V) (msg : Err)
    (m : List (Str × Str)) (key : Str) (e : Err) :
    e ∈ keyFailure parse msg m key
      ↔ ∃ val, mapLookup m key = some val ∧ parse val = none ∧ e = msg ++ key := by
  unfold keyFailure
  cases hl : mapLookup m key with
  | none => simp
  | some val =>
    cases hp : parse val with
    | none => simp [hp]
    | some x => simp [hp]

theorem mem_hostnameStyleFailure (m : List (Str × Str)) (e : Err) :
    e ∈ hostnameStyleFailure m
      ↔ ∃ v, mapLookup m AnnotationKeyPodHostnameStyle = some v ∧ v ≠ "ec2".toList ∧ v ≠ []
          ∧ e = msgHostnameStyle ++ AnnotationKeyPodHostnameStyle := by
  unfold hostnameStyleFailure
  cases hl : mapLookup m AnnotationKeyPodHostnameStyle with
  | none => simp
  | some v =>
    by_cases hv : v ≠ "ec2".toList ∧ v ≠ []
    · simp only [if_pos hv, List.mem_singleton, Option.some.injEq, exists_eq_left']
      exact ⟨fun h => ⟨hv.1, hv.2, h⟩, fun h => h.2.2⟩
    · simp only [if_neg hv, List.not_mem_nil, Option.some.injEq, exists_eq_left', false_iff]
      rintro ⟨h1, h2, -⟩
      exact hv ⟨h1, h2⟩

theorem mem_regexpFailure (lib : Lib) (m : List (Str × Str)) (e : Err) :
    e ∈ regexpFailure lib m
      ↔ ∃ v pErr, mapLookup m AnnotationKeyLogUploadRegexp = some v
          ∧ lib.compileRegexp v = some pErr
          ∧ e = msgRegexp ++ AnnotationKeyLogUploadRegexp ++ [':', ' '] ++ pErr := by
  unfold regexpFailure
  cases hl : mapLookup m AnnotationKeyLogUploadRegexp with
  | none => simp
  | some v =>
    cases hp : lib.compileRegexp v with
    | none => simp [hp]
    | some pErr => simp [hp]

theorem mem_schedPolicyFailure (sp : Option Str) (e : Err) :
    e ∈ schedPolicyFailure sp
      ↔ ∃ v, sp = some v ∧ v ≠ "batch".toList ∧ v ≠ "idle".toList
          ∧ e = msgSchedPolicy ++ AnnotationKeyPodSchedPolicy := by
  unfold schedPolicyFailure
  cases sp with
  | none => simp
  | some v =>
    by_cases hv : v ≠ "batch".toList ∧ v ≠ "idle".toList
    · simp only [if_pos hv, List.mem_singleton, Option.some.injEq, exists_eq_left']
      exact ⟨fun h => ⟨hv.1, hv.2, h⟩, fun h => h.2.2⟩
    · simp only [if_neg hv, List.not_mem_nil, Option.some.injEq, exists_eq_left', false_iff]
      rintro ⟨h1, h2, -⟩
      exact hv ⟨h1, h2⟩

theorem mem_failures (parse : Str → Except Err Reference) (m : List (Str × Str)) (e : Err) :
    e ∈ failures parse m ↔ ∃ kv ∈ m, classify parse kv.1 kv.2 = .fail e := by
  unfold failures
  rw [List.mem_filterMap]
  constructor
  · rintro ⟨kv, hkv, h⟩
    refine ⟨kv, hkv, ?_⟩
    unfold failureOf at h
    cases hc : classify parse kv.1 kv.2 with
    | skip => simp [hc] at h
    | fail e' => simp [hc] at h; rw [h]
    | update g f u => simp [hc] at h
  · rintro ⟨kv, hkv, h⟩
    exact ⟨kv, hkv, by simp [failureOf, h]⟩

/-- A failure of `parseServiceAnnotations` starts with one of its four texts,
followed by the key it was recorded for; that key has the service prefix. -/
theorem classify_fail_shape (parse : Str → Except Err Reference) (k v : Str) (e : Err)
    (h : classify parse k v = .fail e) :
    HasPrefix k AnnotationKeyServicePrefix = true
      ∧ ∃ T ∈ serviceTexts, ∃ d, e = T ++ (k ++ d) := by
  unfold classify at h
  by_cases hp : HasPrefix k AnnotationKeyServicePrefix = true
  · refine ⟨hp, ?_⟩
    simp only [hp, Bool.not_true, Bool.false_eq_true, if_false] at h
    split at h
    · rename_i name version param _
      split at h
      · injection h with h
        exact ⟨msgServiceVersion, by simp [serviceTexts], [], by simp [← h]⟩
      · rename_i vInt _
        split at h
        · split at h
          · injection h with h
            exact ⟨msgServiceEnabled, by simp [serviceTexts], [], by simp [← h]⟩
          · cases h
        · split at h
          · split at h
            · rename_i iErr _
              injection h with h
              exact ⟨msgServiceImage, by simp [serviceTexts], [':', ' '] ++ iErr,
                by simp [← h]⟩
            · cases h
          · cases h
    · injection h with h
      exact ⟨msgServiceParams, by simp [serviceTexts], [], by simp [← h]⟩
  · simp only [Bool.not_eq_true] at hp
    simp [hp] at h

theorem group_prefix (lib : Lib) (u : Str) (m : List (Str × Str)) (c : Config) :
    ∀ g ∈ failureGroups lib u m c, ∀ e ∈ g.2, ∃ r, e = g.1 ++ r := by
  intro g hg e he
  simp only [failureGroups, List.mem_cons, List.mem_singleton, List.not_mem_nil, or_false] at hg
  rcases hg with rfl | rfl | rfl | rfl | rfl | rfl | rfl | rfl | rfl
  · obtain ⟨v, -, -, -, rfl⟩ := (mem_hostnameStyleFailure m e).1 he
    exact ⟨_, rfl⟩
  · obtain ⟨an, -, v, -, -, rfl⟩ := (mem_tableFailures _ _ m _ e).1 he
    exact ⟨_, rfl⟩
  · obtain ⟨v, -, -, rfl⟩ := (mem_keyFailure _ _ m _ e).1 he
    exact ⟨_, rfl⟩
  · obtain ⟨v, -, -, rfl⟩ := (mem_keyFailure _ _ m _ e).1 he
    exact ⟨_, rfl⟩
  · obtain ⟨v, -, -, rfl⟩ := (mem_keyFailure _ _ m _ e).1 he
    exact ⟨_, rfl⟩
  · obtain ⟨an, -, v, -, -, rfl⟩ := (mem_tableFailures _ _ m _ e).1 he
    exact ⟨_, rfl⟩
  · obtain ⟨an, -, v, -, -, rfl⟩ := (mem_tableFailures _ _ m _ e).1 he
    exact ⟨_, rfl⟩
  · obtain ⟨v, pErr, -, -, rfl⟩ := (mem_regexpFailure lib m e).1 he
    exact ⟨AnnotationKeyLogUploadRegexp ++ [':', ' '] ++ pErr, by simp⟩
  · obtain ⟨v, -, -, -, rfl⟩ := (mem_schedPolicyFailure _ e).1 he
    exact ⟨_, rfl⟩

theorem failureGroups_texts (lib : Lib) (u : Str) (m : List (Str × Str)) (c : Config) :
    (failureGroups lib u m c).map Prod.fst = scalarTexts := rfl

theorem entries_groups (lib : Lib) (u : Str) (m : List (Str × Str)) (c : Config) :
    errorEntries (parseAnnotations lib u m c).2
      = ((failureGroups lib u m c).map Prod.snd).flatten ++ failures lib.parseReference m := by
  rw [parseAnnotations_entries]
  simp [failureGroups, scalarFailures]

theorem texts_disjoint : ∀ T ∈ scalarTexts, T ∉ serviceTexts := by decide

theorem scalarTexts_nodup : scalarTexts.Nodup := by decide

/-- A message that starts with the text of a group is an entry of the combined
error exactly when it is a failure of that group. -/
theorem mem_entries_of_group (lib : Lib) (u : Str) (m : List (Str × Str)) (c : Config)
    (T : Err) (g : List Err) (r : Str) (hg : (T, g) ∈ failureGroups lib u m c) :
    T ++ r ∈ errorEntries (parseAnnotations lib u m c).2 ↔ T ++ r ∈ g := by
  have hT : T ∈ scalarTexts := by
    rw [← failureGroups_texts lib u m c]
    exact List.mem_map_of_mem Prod.fst hg
  rw [entries_groups, List.mem_append, List.mem_flatten]
  constructor
  · rintro (⟨l, hl, he⟩ | hs)
    · obtain ⟨⟨T', g'⟩, hg', rfl⟩ := List.mem_map.1 hl
      obtain ⟨r', hr'⟩ := group_prefix lib u m c _ hg' _ he
      have hT' : T' ∈ scalarTexts := by
        rw [← failureGroups_texts lib u m c]
        exact List.mem_map_of_mem Prod.fst hg'
      have hTT : T = T' := by
        by_contra hne
        exact incompatible_ne T T'
          (texts_incompatible T (List.mem_append_left _ hT) T' (List.mem_append_left _ hT') hne)
          r r' hr'
      subst hTT
      have hnd : ((failureGroups lib u m c).map Prod.fst).Nodup := by
        rw [failureGroups_texts]; exact scalarTexts_nodup
      have := List.inj_on_of_nodup_map hnd hg hg' rfl
      rw [(Prod.mk.inj this).2]
      exact he
    · obtain ⟨kv, -, hc⟩ := (mem_failures _ m _).1 hs
      obtain ⟨-, T', hT', d, hd⟩ := classify_fail_shape _ _ _ _ hc
      have hne : T ≠ T' := by
        rintro rfl
        exact texts_disjoint T hT hT'
      exact absurd hd (incompatible_ne T T'
        (texts_incompatible T (List.mem_append_left _ hT) T' (List.mem_append_right _ hT') hne)
        r _)
  · intro he
    exact Or.inl ⟨g, List.mem_map_of_mem Prod.snd hg, he⟩

/-! ## Fields of a table, numbers, white space -/

theorem fieldsAfter_of_not_mem {F V : Type} [DecidableEq F] (parse : Str → Option V)
    (m : List (Str × Str)) (t : List (Str × F)) (h : F → Option V) (f : F)
    (hf : f ∉ t.map Prod.snd) : fieldsAfter parse m t h f = h f := by
  induction t generalizing h with
  | nil => rfl
  | cons an t ih =>
    simp only [List.map_cons, List.mem_cons, not_or] at hf
    rw [fieldsAfter, ih _ hf.2]
    cases (mapLookup m an.1).bind parse with
    | none => rfl
    | some x => simp [hf.1]

theorem fieldsAfter_of_mem {F V : Type} [DecidableEq F] (parse : Str → Option V)
    (m : List (Str × Str)) (t : List (Str × F)) (h : F → Option V) (an : Str × F)
    (hnd : (t.map Prod.snd).Nodup) (han : an ∈ t) :
    fieldsAfter parse m t h an.2
      = match (mapLookup m an.1).bind parse with
        | some x => some x
        | none => h an.2 := by
  induction t generalizing h with
  | nil => cases han
  | cons a t ih =>
    simp only [List.map_cons, List.nodup_cons] at hnd
    rcases List.mem_cons.1 han with rfl | hin
    · rw [fieldsAfter, fieldsAfter_of_not_mem _ _ _ _ _ hnd.1]
      cases (mapLookup m an.1).bind parse with
      | none => rfl
      | some x => simp
    · have hne : an.2 ≠ a.2 := by
        intro he
        exact hnd.1 (he ▸ List.mem_map_of_mem Prod.snd hin)
      rw [fieldsAfter, ih _ hnd.2 hin]
      cases (mapLookup m an.1).bind parse with
      | some x => rfl
      | none =>
        cases (mapLookup m a.1).bind parse with
        | none => rfl
        | some y => simp [hne]

theorem fieldsAfter_set {F V : Type} [DecidableEq F] (parse : Str → Option V)
    (m : List (Str × Str)) (t : List (Str × F)) (h : F → Option V) (an : Str × F)
    (hnd : (t.map Prod.snd).Nodup) (han : an ∈ t) (v : Str) (x : V)
    (hl : mapLookup m an.1 = some v) (hp : parse v = some x) :
    fieldsAfter parse m t h an.2 = some x := by
  rw [fieldsAfter_of_mem parse m t h an hnd han, hl]
  simp [hp]

theorem fieldsAfter_bad {F V : Type} [DecidableEq F] (parse : Str → Option V)
    (m : List (Str × Str)) (t : List (Str × F)) (h : F → Option V) (an : Str × F)
    (hnd : (t.map Prod.snd).Nodup) (han : an ∈ t) (v : Str)
    (hl : mapLookup m an.1 = some v) (hp : parse v = none) :
    fieldsAfter parse m t h an.2 = h an.2 := by
  rw [fieldsAfter_of_mem parse m t h an hnd han, hl]
  simp [hp]

theorem fieldsAfter_absent {F V : Type} [DecidableEq F] (parse : Str → Option V)
    (m : List (Str × Str)) (t : List (Str × F)) (h : F → Option V) (an : Str × F)
    (hnd : (t.map Prod.snd).Nodup) (han : an ∈ t)
    (hl : mapLookup m an.1 = none) :
    fieldsAfter parse m t h an.2 = h an.2 := by
  rw [fieldsAfter_of_mem parse m t h an hnd han, hl]
  rfl

theorem boolFields_nodup : (boolAnnotations.map Prod.snd).Nodup := by decide
theorem durationFields_nodup : (durationAnnotations.map Prod.snd).Nodup := by decide
theorem resourceFields_nodup : (resourceAnnotations.map Prod.snd).Nodup := by decide
theorem stringFields_nodup (u : Str) : ((stringAnnotations u).map Prod.snd).Nodup := by
  have h : (stringAnnotations u).map Prod.snd = (stringAnnotations []).map Prod.snd := rfl
  rw [h]
  decide

theorem parseDigits_some (ds : Str) (acc n : Nat) (h : parseDigits ds acc = some n) :
    (∀ c ∈ ds, c.isDigit = true)
      ∧ n = ds.foldl (fun acc c => acc * 10 + (c.toNat - 48)) acc := by
  induction ds generalizing acc with
  | nil =>
    simp only [parseDigits, Option.some.injEq] at h
    exact ⟨by simp, h.symm⟩
  | cons c cs ih =>
    by_cases hc : c.isDigit = true
    · simp only [parseDigits, hc, if_true] at h
      obtain ⟨h1, h2⟩ := ih _ h
      refine ⟨?_, h2⟩
      intro c' hc'
      rcases List.mem_cons.1 hc' with rfl | hc'
      · exact hc
      · exact h1 c' hc'
    · simp [parseDigits, hc] at h

theorem isDecimal_iff (ds : Str) :
    isDecimal ds = true ↔ ds ≠ [] ∧ ∀ c ∈ ds, c.isDigit = true := by
  cases ds <;> simp [isDecimal]

theorem parseDigits_isDecimal (ds : Str) (hne : ds ≠ []) :
    (∃ n, parseDigits ds 0 = some n) ↔ isDecimal ds = true := by
  rw [isDecimal_iff]
  constructor
  · rintro ⟨n, h⟩
    exact ⟨hne, (parseDigits_some ds 0 n h).1⟩
  · rintro ⟨-, h⟩
    exact parseDigits_digits ds 0 h

/-- `ParseUint` accepts exactly the non-empty strings of decimal digits whose
number is below `2 ^ w`, and returns that number. -/
theorem ParseUint_eq_some (s : Str) (w n : Nat) :
    ParseUint s w = some n ↔ isDecimal s = true ∧ decimalValue s = n ∧ n < 2 ^ w := by
  unfold ParseUint
  by_cases hs : s = []
  · subst hs
    simp [isDecimal]
  · rw [if_neg hs]
    cases hp : parseDigits s 0 with
    | none =>
      constructor
      · intro h
        cases h
      rintro ⟨hd, -⟩
      obtain ⟨n', hn'⟩ := (parseDigits_isDecimal s hs).2 hd
      rw [hp] at hn'
      cases hn'
    | some k =>
      obtain ⟨h1, h2⟩ := parseDigits_some s 0 k hp
      have hd : isDecimal s = true := (isDecimal_iff s).2 ⟨hs, h1⟩
      have hk : decimalValue s = k := h2.symm
      simp only [hd, hk, true_and]
      by_cases hlt : k < 2 ^ w
      · simp only [if_pos hlt, Option.some.injEq]
        constructor
        · rintro rfl
          exact ⟨rfl, hlt⟩
        · rintro ⟨h, -⟩
          exact h
      · simp only [if_neg hlt]
        constructor
        · intro h
          cases h
        · rintro ⟨rfl, h⟩
          exact absurd h hlt

theorem ParseUint_eq_none (s : Str) (w : Nat) :
    ParseUint s w = none ↔ ¬ (isDecimal s = true ∧ decimalValue s < 2 ^ w) := by
  constructor
  · rintro h ⟨h1, h2⟩
    have := (ParseUint_eq_some s w (decimalValue s)).2 ⟨h1, rfl, h2⟩
    rw [h] at this
    cases this
  · intro h
    cases hp : ParseUint s w with
    | none => rfl
    | some n =>
      obtain ⟨h1, h2, h3⟩ := (ParseUint_eq_some s w n).1 hp
      exact absurd ⟨h1, h2 ▸ h3⟩ h


theorem digits_cases (body : Str) :
    (parseDigits body 0 = none ∧ isDecimal body = false)
      ∨ (parseDigits body 0 = some (decimalValue body)
          ∧ (body = [] ∨ isDecimal body = true)) := by
  by_cases hne : body = []
  · subst hne
    exact Or.inr ⟨rfl, Or.inl rfl⟩
  · cases hp : parseDigits body 0 with
    | none =>
      refine Or.inl ⟨rfl, ?_⟩
      cases hd : isDecimal body with
      | false => rfl
      | true =>
        obtain ⟨n, hn⟩ := (parseDigits_isDecimal body hne).2 hd
        rw [hp] at hn
        cases hn
    | some k =>
      obtain ⟨h1, h2⟩ := parseDigits_some body 0 k hp
      exact Or.inr ⟨by rw [h2]; rfl, Or.inr ((isDecimal_iff body).2 ⟨hne, h1⟩)⟩

theorem isDecimal_nil : isDecimal [] = false := rfl

/-- `ParseInt` accepts exactly the strict base-10 integer texts whose number
lies in the signed range of `w` bits, and returns that number. -/
theorem ParseInt_eq_some (s : Str) (w : Nat) (n : Int) :
    ParseInt s w = some n
      ↔ denotesInt s n = true ∧ -(2 ^ (w - 1) : Int) ≤ n ∧ n ≤ 2 ^ (w - 1) - 1 := by
  have hpos : (0 : Int) < 2 ^ (w - 1) := by positivity
  cases s with
  | nil => simp [ParseInt, denotesInt]
  | cons c rest =>
    by_cases hm : c = '-'
    · subst hm
      simp only [ParseInt, denotesInt, decide_True, true_or, or_true, if_true, Bool.not_true,
        Bool.false_and, Bool.true_and, Bool.false_eq_true, if_false, decide_eq_true_eq,
        Bool.and_eq_true]
      by_cases hne : rest = []
      · subst hne
        simp [isDecimal_nil]
      · rw [if_neg hne]
        rcases digits_cases rest with ⟨hp, hd⟩ | ⟨hp, hd⟩
        · simp [hp, hd]
        · have hd : isDecimal rest = true := hd.resolve_left hne
          simp only [hp, hd, true_and]
          by_cases hlt : 2 ^ (w - 1) < decimalValue rest
          · simp only [if_pos hlt]
            constructor
            · intro h; cases h
            · rintro ⟨rfl, h1, -⟩
              have : ((2 ^ (w - 1) : Nat) : Int) < (decimalValue rest : Int) := by
                exact_mod_cast hlt
              push_cast at this
              omega
          · simp only [if_neg hlt, Option.some.injEq]
            constructor
            · rintro rfl
              have : ((decimalValue rest : Nat) : Int) ≤ ((2 ^ (w - 1) : Nat) : Int) := by
                exact_mod_cast Nat.le_of_not_lt hlt
              push_cast at this
              refine ⟨rfl, by omega, by omega⟩
            · rintro ⟨rfl, -, -⟩
              rfl
    · by_cases hpl : c = '+'
      · subst hpl
        simp only [ParseInt, denotesInt, hm, decide_False, true_or, if_true, Bool.not_false,
          Bool.true_and, Bool.false_and, Bool.false_eq_true, if_false, decide_eq_true_eq,
          Bool.and_eq_true]
        by_cases hne : rest = []
        · subst hne
          simp [isDecimal_nil]
        · rw [if_neg hne]
          rcases digits_cases rest with ⟨hp, hd⟩ | ⟨hp, hd⟩
          · simp [hp, hd]
          · have hd : isDecimal rest = true := hd.resolve_left hne
            simp only [hp, hd, true_and]
            by_cases hlt : 2 ^ (w - 1) ≤ decimalValue rest
            · simp only [if_pos hlt]
              constructor
              · intro h; cases h
              · rintro ⟨rfl, -, h2⟩
                have : ((2 ^ (w - 1) : Nat) : Int) ≤ (decimalValue rest : Int) := by
                  exact_mod_cast hlt
                push_cast at this
                omega
            · simp only [if_neg hlt, Option.some.injEq]
              constructor
              · rintro rfl
                have : ((decimalValue rest : Nat) : Int) < ((2 ^ (w - 1) : Nat) : Int) := by
                  exact_mod_cast Nat.lt_of_not_le hlt
                push_cast at this
                refine ⟨rfl, by omega, by omega⟩
              · rintro ⟨rfl, -, -⟩
                rfl
      · have hne : c :: rest ≠ [] := by simp
        simp only [ParseInt, denotesInt, hm, hpl, decide_False, or_self, if_false,
          Bool.not_false, Bool.true_and, Bool.false_and, Bool.false_eq_true,
          decide_eq_true_eq, Bool.and_eq_true, hne]
        rcases digits_cases (c :: rest) with ⟨hp, hd⟩ | ⟨hp, hd⟩
        · simp [hp, hd]
        · have hd : isDecimal (c :: rest) = true := hd.resolve_left hne
          simp only [hp, hd, true_and]
          by_cases hlt : 2 ^ (w - 1) ≤ decimalValue (c :: rest)
          · simp only [if_pos hlt]
            constructor
            · intro h; cases h
            · rintro ⟨rfl, -, h2⟩
              have : ((2 ^ (w - 1) : Nat) : Int) ≤ (decimalValue (c :: rest) : Int) := by
                exact_mod_cast hlt
              push_cast at this
              omega
          · simp only [if_neg hlt, Option.some.injEq]
            constructor
            · rintro rfl
              have : ((decimalValue (c :: rest) : Nat) : Int) < ((2 ^ (w - 1) : Nat) : Int) := by
                exact_mod_cast Nat.lt_of_not_le hlt
              push_cast at this
              refine ⟨rfl, by omega, by omega⟩
            · rintro ⟨rfl, -, -⟩
              rfl


theorem toUint32_of_lt (n : Nat) (h : n < 2 ^ 32) : toUint32 n = n := Nat.mod_eq_of_lt h

theorem toUint64_of_lt (n : Nat) (h : n < 2 ^ 64) : toUint64 n = n := Nat.mod_eq_of_lt h

theorem toInt32_of_range (n : Int) (h1 : -(2 ^ 31 : Int) ≤ n) (h2 : n ≤ 2 ^ 31 - 1) :
    toInt32 n = n := by
  unfold toInt32
  norm_num at h1 h2 ⊢
  omega

theorem Split_length (s : Str) (sep : Char) : (Split s sep).length = s.count sep + 1 := by
  induction s with
  | nil => rfl
  | cons c cs ih =>
    by_cases hc : c = sep
    · subst hc
      simp [Split, ih]
    · have hc' : (c == sep) = false := by simpa using hc
      simp only [Split, if_neg hc, List.count_cons, hc', Bool.false_eq_true, if_false,
        Nat.add_zero]
      cases hS : Split cs sep with
      | nil => exact absurd hS (Split_ne_nil cs sep)
      | cons piece pieces =>
        rw [hS] at ih
        simpa using ih

theorem count_dropWhile (p : Char → Bool) (a : Char) (hp : p a = false) (l : Str) :
    (l.dropWhile p).count a = l.count a := by
  induction l with
  | nil => rfl
  | cons c cs ih =>
    by_cases hc : p c = true
    · have hne : (c == a) = false := by
        cases h : c == a with
        | false => rfl
        | true =>
          have : c = a := by simpa using h
          rw [this, hp] at hc
          cases hc
      simp [List.dropWhile, hc, ih, List.count_cons, hne]
    · simp [List.dropWhile, hc]

theorem count_TrimSpace (a : Char) (hp : isSpace a = false) (s : Str) :
    (TrimSpace s).count a = s.count a := by
  unfold TrimSpace
  rw [List.count_reverse, count_dropWhile isSpace a hp, List.count_reverse,
    count_dropWhile isSpace a hp]

theorem head_dropWhile_not (p : Char → Bool) (l : Str) (c : Char)
    (h : (l.dropWhile p).head? = some c) : p c = false := by
  induction l with
  | nil => simp at h
  | cons a as ih =>
    by_cases ha : p a = true
    · simp only [List.dropWhile, ha] at h
      exact ih h
    · simp only [List.dropWhile, ha] at h
      simp only [List.head?_cons, Option.some.injEq] at h
      subst h
      simpa using ha

/-- `TrimSpace` leaves no white space at either end. -/
theorem TrimSpace_ends (s : Str) (c : Char) :
    ((TrimSpace s).head? = some c → isSpace c = false)
      ∧ ((TrimSpace s).getLast? = some c → isSpace c = false) := by
  unfold TrimSpace
  constructor
  · intro h
    set l := s.dropWhile isSpace with hl
    have hpre : (l.reverse.dropWhile isSpace).reverse <+: l := by
      have hsuf : l.reverse.dropWhile isSpace <:+ l.reverse := List.dropWhile_suffix _
      have := List.reverse_prefix.2 hsuf
      simpa using this
    obtain ⟨t, ht⟩ := hpre
    have hh : l.head? = some c := by
      rw [← ht]
      cases hx : (l.reverse.dropWhile isSpace).reverse with
      | nil => rw [hx] at h; simp at h
      | cons a as => rw [hx] at h; simpa using h
    exact head_dropWhile_not isSpace s c hh
  · intro h
    rw [List.getLast?_reverse] at h
    exact head_dropWhile_not isSpace _ c h

/-! ## Which key a failure names -/

theorem incompatible_append_left (p q : Str) (h : incompatible p q = true) (x : Str) :
    incompatible (p ++ x) q = true := by
  induction p generalizing q with
  | nil => simp [incompatible] at h
  | cons a p ih =>
    cases q with
    | nil => simp [incompatible] at h
    | cons b q =>
      simp only [incompatible, Bool.or_eq_true, decide_eq_true_eq] at h
      simp only [List.cons_append, incompatible, Bool.or_eq_true, decide_eq_true_eq]
      rcases h with h | h
      · exact Or.inl h
      · exact Or.inr (ih q h)

theorem incompatible_append_right (p q : Str) (h : incompatible p q = true) (x : Str) :
    incompatible p (q ++ x) = true := by
  induction p generalizing q with
  | nil => simp [incompatible] at h
  | cons a p ih =>
    cases q with
    | nil => simp [incompatible] at h
    | cons b q =>
      simp only [incompatible, Bool.or_eq_true, decide_eq_true_eq] at h
      simp only [List.cons_append, incompatible, Bool.or_eq_true, decide_eq_true_eq]
      rcases h with h | h
      · exact Or.inl h
      · exact Or.inr (ih q h)

theorem namesKey_iff (e : Err) (key : Str) :
    namesKey e key = true ↔ ∃ T ∈ scalarTexts ++ serviceTexts, ∃ d, e = T ++ (key ++ d) := by
  unfold namesKey
  rw [List.any_eq_true]
  constructor
  · rintro ⟨T, hT, h⟩
    obtain ⟨d, hd⟩ := (HasPrefix_iff _ _).1 h
    exact ⟨T, hT, d, by rw [hd, List.append_assoc]⟩
  · rintro ⟨T, hT, d, rfl⟩
    exact ⟨T, hT, (HasPrefix_iff _ _).2 ⟨d, by rw [List.append_assoc]⟩⟩

theorem boolKeys_checked : ∀ an ∈ boolAnnotations, an.1 ∈ checkedKeys := by decide

theorem resourceKeys_checked : ∀ an ∈ resourceAnnotations, an.1 ∈ checkedKeys := by decide

theorem durationKeys_checked : ∀ an ∈ durationAnnotations, an.1 ∈ checkedKeys := by decide

/-- Every entry of the combined error is a failure text followed by a key:
a checked key that is present, the scheduler-policy key, or a key of the map
with the service prefix. -/
theorem entry_shape (lib : Lib) (u : Str) (m : List (Str × Str)) (c : Config) (e : Err)
    (he : e ∈ errorEntries (parseAnnotations lib u m c).2) :
    ∃ T ∈ scalarTexts ++ serviceTexts, ∃ K d, e = T ++ (K ++ d)
      ∧ ((K ∈ checkedKeys ∧ mapLookup m K ≠ none)
          ∨ (K = AnnotationKeyPodSchedPolicy
              ∧ schedPolicyFailure (schedPolicyAfter u m c) ≠ [])
          ∨ (HasPrefix K AnnotationKeyServicePrefix = true ∧ ∃ v, (K, v) ∈ m)) := by
  rw [entries_groups, List.mem_append, List.mem_flatten] at he
  rcases he with ⟨l, hl, he⟩ | hs
  · obtain ⟨⟨T, g⟩, hg, rfl⟩ := List.mem_map.1 hl
    have hT : T ∈ scalarTexts ++ serviceTexts := by
      refine List.mem_append_left _ ?_
      rw [← failureGroups_texts lib u m c]
      exact List.mem_map_of_mem Prod.fst hg
    refine ⟨T, hT, ?_⟩
    simp only [failureGroups, List.mem_cons, List.mem_singleton, List.not_mem_nil, or_false,
      Prod.mk.injEq] at hg
    rcases hg with ⟨rfl, rfl⟩ | ⟨rfl, rfl⟩ | ⟨rfl, rfl⟩ | ⟨rfl, rfl⟩ | ⟨rfl, rfl⟩ | ⟨rfl, rfl⟩
      | ⟨rfl, rfl⟩ | ⟨rfl, rfl⟩ | ⟨rfl, rfl⟩
    · obtain ⟨v, hv, -, -, rfl⟩ := (mem_hostnameStyleFailure m e).1 he
      exact ⟨AnnotationKeyPodHostnameStyle, [], by rw [List.append_nil],
        Or.inl ⟨by decide, by rw [hv]; exact Option.some_ne_none v⟩⟩
    · obtain ⟨an, han, v, hv, -, rfl⟩ := (mem_tableFailures _ _ m _ e).1 he
      exact ⟨an.1, [], by rw [List.append_nil],
        Or.inl ⟨boolKeys_checked an han, by rw [hv]; exact Option.some_ne_none v⟩⟩
    · obtain ⟨v, hv, -, rfl⟩ := (mem_keyFailure _ _ m _ e).1 he
      exact ⟨AnnotationKeyPodSchemaVersion, [], by rw [List.append_nil],
        Or.inl ⟨by decide, by rw [hv]; exact Option.some_ne_none v⟩⟩
    · obtain ⟨v, hv, -, rfl⟩ := (mem_keyFailure _ _ m _ e).1 he
      exact ⟨AnnotationKeyJobAcceptedTimestampMs, [], by rw [List.append_nil],
        Or.inl ⟨by decide, by rw [hv]; exact Option.some_ne_none v⟩⟩
    · obtain ⟨v, hv, -, rfl⟩ := (mem_keyFailure _ _ m _ e).1 he
      exact ⟨AnnotationKeyPodOomScoreAdj, [], by rw [List.append_nil],
        Or.inl ⟨by decide, by rw [hv]; exact Option.some_ne_none v⟩⟩
    · obtain ⟨an, han, v, hv, -, rfl⟩ := (mem_tableFailures _ _ m _ e).1 he
      exact ⟨an.1, [], by rw [List.append_nil],
        Or.inl ⟨resourceKeys_checked an han, by rw [hv]; exact Option.some_ne_none v⟩⟩
    · obtain ⟨an, han, v, hv, -, rfl⟩ := (mem_tableFailures _ _ m _ e).1 he
      exact ⟨an.1, [], by rw [List.append_nil],
        Or.inl ⟨durationKeys_checked an han, by rw [hv]; exact Option.some_ne_none v⟩⟩
    · obtain ⟨v, pErr, hv, -, rfl⟩ := (mem_regexpFailure lib m e).1 he
      exact ⟨AnnotationKeyLogUploadRegexp, [':', ' '] ++ pErr,
        by simp only [List.append_assoc],
        Or.inl ⟨by decide, by rw [hv]; exact Option.some_ne_none v⟩⟩
    · have hne : schedPolicyFailure (schedPolicyAfter u m c) ≠ [] :=
        List.ne_nil_of_mem he
      obtain ⟨v, -, -, -, rfl⟩ := (mem_schedPolicyFailure _ e).1 he
      exact ⟨AnnotationKeyPodSchedPolicy, [], by rw [List.append_nil],
        Or.inr (Or.inl ⟨rfl, hne⟩)⟩
  · obtain ⟨kv, hkv, hc⟩ := (mem_failures _ m _).1 hs
    obtain ⟨hp, T, hT, d, hd⟩ := classify_fail_shape _ _ _ _ hc
    exact ⟨T, List.mem_append_right _ hT, kv.1, d, hd, Or.inr (Or.inr ⟨hp, kv.2, hkv⟩)⟩

/-- No entry of the combined error names a key that differs from every key an
entry can be recorded for. -/
theorem not_namesKey (lib : Lib) (u : Str) (m : List (Str × Str)) (c : Config) (K : Str)
    (h1 : ∀ K1 ∈ checkedKeys, mapLookup m K1 ≠ none → incompatible K K1 = true)
    (h2 : schedPolicyFailure (schedPolicyAfter u m c) ≠ []
      → incompatible K AnnotationKeyPodSchedPolicy = true)
    (h3 : incompatible K AnnotationKeyServicePrefix = true) :
    ∀ e ∈ errorEntries (parseAnnotations lib u m c).2, namesKey e K = false := by
  intro e he
  cases hn : namesKey e K with
  | false => rfl
  | true =>
    exfalso
    obtain ⟨T, hT, d, hd⟩ := (namesKey_iff e K).1 hn
    obtain ⟨T1, hT1, K1, d1, hd1, hK1⟩ := entry_shape lib u m c e he
    have hTT : T = T1 := by
      by_contra hne
      exact incompatible_ne T T1 (texts_incompatible T hT T1 hT1 hne) _ _ (hd ▸ hd1)
    subst hTT
    have hk : K ++ d = K1 ++ d1 := List.append_cancel_left (hd ▸ hd1)
    rcases hK1 with ⟨hin, hpres⟩ | ⟨rfl, hs⟩ | ⟨hp, -⟩
    · exact incompatible_ne K K1 (h1 K1 hin hpres) d d1 hk
    · exact incompatible_ne K _ (h2 hs) d d1 hk
    · obtain ⟨r, rfl⟩ := (HasPrefix_iff _ _).1 hp
      rw [List.append_assoc] at hk
      exact incompatible_ne K _ h3 d _ hk


theorem appArmor_incompatible :
    ∀ K1 ∈ AnnotationKeyServicePrefix :: AnnotationKeyPodSchedPolicy :: checkedKeys,
      incompatible AnnotationKeyPrefixAppArmor K1 = true := by
  decide

theorem tail_incompatible :
    ∀ K ∈ (recognizedKeys []).tail,
      incompatible K AnnotationKeyServicePrefix = true
        ∧ ∀ K1 ∈ AnnotationKeyPodSchedPolicy :: checkedKeys,
            K1 ≠ K → incompatible K K1 = true := by
  decide

/-- A recognized key differs, at a position both have, from the service
prefix and from every other key a failure can be recorded for. -/
theorem recognized_incompatible (u : Str) :
    ∀ K ∈ recognizedKeys u,
      incompatible K AnnotationKeyServicePrefix = true
        ∧ ∀ K1 ∈ AnnotationKeyPodSchedPolicy :: checkedKeys,
            K1 ≠ K → incompatible K K1 = true := by
  intro K hK
  have hr : recognizedKeys u
      = (AnnotationKeyPrefixAppArmor ++ ['/'] ++ u) :: (recognizedKeys []).tail := rfl
  rw [hr] at hK
  rcases List.mem_cons.1 hK with rfl | hK
  · rw [List.append_assoc]
    refine ⟨incompatible_append_left _ _
      (appArmor_incompatible _ (List.mem_cons_self _ _)) _, ?_⟩
    intro K1 hK1 _
    exact incompatible_append_left _ _
      (appArmor_incompatible K1 (List.mem_cons_of_mem _ hK1)) _
  · exact tail_incompatible K hK

theorem schedPolicy_mem (u : Str) :
    (AnnotationKeyPodSchedPolicy, StringField.SchedPolicy) ∈ stringAnnotations u := by
  simp [stringAnnotations]

theorem schedPolicyAfter_absent (u : Str) (m : List (Str × Str)) (c : Config)
    (h : mapLookup m AnnotationKeyPodSchedPolicy = none) :
    schedPolicyAfter u m c = c.strings StringField.SchedPolicy :=
  fieldsAfter_absent some m (stringAnnotations u) c.strings
    (AnnotationKeyPodSchedPolicy, StringField.SchedPolicy) (stringFields_nodup u)
    (schedPolicy_mem u) h

theorem schedPolicyAfter_present (u : Str) (m : List (Str × Str)) (c : Config) (v : Str)
    (h : mapLookup m AnnotationKeyPodSchedPolicy = some v) :
    schedPolicyAfter u m c = some v :=
  fieldsAfter_set some m (stringAnnotations u) c.strings
    (AnnotationKeyPodSchedPolicy, StringField.SchedPolicy) (stringFields_nodup u)
    (schedPolicy_mem u) v v h rfl

/-- No entry of the combined error names a recognized key that is absent,
provided the scheduler-policy check passes on the starting `SchedPolicy`
field when the key is the scheduler-policy key. -/
theorem absent_not_named (lib : Lib) (u : Str) (m : List (Str × Str)) (c : Config) (K : Str)
    (hK : K ∈ recognizedKeys u) (habs : mapLookup m K = none)
    (hs : K = AnnotationKeyPodSchedPolicy
      → schedPolicyFailure (c.strings StringField.SchedPolicy) = []) :
    ∀ e ∈ errorEntries (parseAnnotations lib u m c).2, namesKey e K = false := by
  obtain ⟨h3, h12⟩ := recognized_incompatible u K hK
  refine not_namesKey lib u m c K ?_ ?_ h3
  · intro K1 hK1 hpres
    refine h12 K1 (List.mem_cons_of_mem _ hK1) ?_
    rintro rfl
    exact hpres habs
  · intro hne
    refine h12 _ (List.mem_cons_self _ _) ?_
    intro he
    rw [schedPolicyAfter_absent u m c (he ▸ habs)] at hne
    exact hne (hs he.symm)

/-! ## The fields of the returned `Config` -/

theorem parseAnnotations_strings (lib : Lib) (u : Str) (m : List (Str × Str)) (c : Config) :
    (parseAnnotations lib u m c).1.strings
      = fieldsAfter some m (stringAnnotations u) c.strings := by
  rw [parseAnnotations_config]; rfl

theorem parseAnnotations_bools (lib : Lib) (u : Str) (m : List (Str × Str)) (c : Config) :
    (parseAnnotations lib u m c).1.bools = fieldsAfter ParseBool m boolAnnotations c.bools := by
  rw [parseAnnotations_config]; rfl

theorem parseAnnotations_resources (lib : Lib) (u : Str) (m : List (Str × Str)) (c : Config) :
    (parseAnnotations lib u m c).1.resources
      = fieldsAfter lib.parseQuantity m resourceAnnotations c.resources := by
  rw [parseAnnotations_config]; rfl

theorem parseAnnotations_durations (lib : Lib) (u : Str) (m : List (Str × Str)) (c : Config) :
    (parseAnnotations lib u m c).1.durations
      = fieldsAfter lib.parseDuration m durationAnnotations c.durations := by
  rw [parseAnnotations_config]; rfl

theorem parseAnnotations_PodSchemaVersion (lib : Lib) (u : Str) (m : List (Str × Str))
    (c : Config) :
    (parseAnnotations lib u m c).1.PodSchemaVersion
      = match (mapLookup m AnnotationKeyPodSchemaVersion).bind (fun v => ParseUint v 32) with
        | some n => some (toUint32 n)
        | none => c.PodSchemaVersion := by
  rw [parseAnnotations_config]; rfl

theorem parseAnnotations_JobAcceptedTimestampMs (lib : Lib) (u : Str) (m : List (Str × Str))
    (c : Config) :
    (parseAnnotations lib u m c).1.JobAcceptedTimestampMs
      = match (mapLookup m AnnotationKeyJobAcceptedTimestampMs).bind
            (fun v => ParseUint v 64) with
        | some n => some (toUint64 n)
        | none => c.JobAcceptedTimestampMs := by
  rw [parseAnnotations_config]; rfl

theorem parseAnnotations_OomScoreAdj (lib : Lib) (u : Str) (m : List (Str × Str))
    (c : Config) :
    (parseAnnotations lib u m c).1.OomScoreAdj
      = match (mapLookup m AnnotationKeyPodOomScoreAdj).bind (fun v => ParseInt v 32) with
        | some n => some (toInt32 n)
        | none => c.OomScoreAdj := by
  rw [parseAnnotations_config]; rfl

theorem parseAnnotations_LogUploadRegExp (lib : Lib) (u : Str) (m : List (Str × Str))
    (c : Config) :
    (parseAnnotations lib u m c).1.LogUploadRegExp
      = match mapLookup m AnnotationKeyLogUploadRegexp with
        | some v => if lib.compileRegexp v = none then some { expr := v }
                    else c.LogUploadRegExp
        | none => c.LogUploadRegExp := by
  rw [parseAnnotations_config]; rfl

theorem parseAnnotations_SecurityGroupIDs (lib : Lib) (u : Str) (m : List (Str × Str))
    (c : Config) :
    (parseAnnotations lib u m c).1.SecurityGroupIDs
      = match mapLookup m AnnotationKeyNetworkSecurityGroups with
        | some sgVal => some ((Split (TrimSpace sgVal) ',').map TrimSpace)
        | none => c.SecurityGroupIDs := by
  rw [parseAnnotations_config]; rfl

theorem parseAnnotations_Sidecars (lib : Lib) (u : Str) (m : List (Str × Str)) (c : Config) :
    (parseAnnotations lib u m c).1.Sidecars
      = c.Sidecars ++ (m.foldl (specStep lib.parseReference) []).map Prod.snd := by
  rw [parseAnnotations_config]

theorem parseAnnotations_ErrorOrNil (lib : Lib) (u : Str) (m : List (Str × Str))
    (c : Config) : ∃ err : MultiError, (parseAnnotations lib u m c).2 = ErrorOrNil err := by
  unfold parseAnnotations
  dsimp only
  exact ⟨_, rfl⟩

/-- The returned `error` is nil exactly when there is no entry. -/
theorem parseAnnotations_nil_iff (lib : Lib) (u : Str) (m : List (Str × Str)) (c : Config) :
    (parseAnnotations lib u m c).2 = none
      ↔ errorEntries (parseAnnotations lib u m c).2 = [] := by
  obtain ⟨err, h⟩ := parseAnnotations_ErrorOrNil lib u m c
  rw [h, errorEntries_ErrorOrNil, ErrorOrNil_eq_none]

/-- A returned `error` that is not nil holds the entries, and at least one. -/
theorem parseAnnotations_some (lib : Lib) (u : Str) (m : List (Str × Str)) (c : Config)
    (l : List Err) (h : (parseAnnotations lib u m c).2 = some l) :
    l = errorEntries (parseAnnotations lib u m c).2 ∧ l ≠ [] := by
  refine ⟨by rw [h]; rfl, ?_⟩
  rintro rfl
  have := (parseAnnotations_nil_iff lib u m c).2 (by rw [h]; rfl)
  rw [h] at this
  cases this

/-- The recognized keys other than the AppArmor key do not depend on the name
of the user container. -/
theorem mem_recognizedKeys_of_tail (u K : Str) (h : K ∈ (recognizedKeys []).tail) :
    K ∈ recognizedKeys u := by
  have hr : recognizedKeys u
      = (AnnotationKeyPrefixAppArmor ++ ['/'] ++ u) :: (recognizedKeys []).tail := rfl
  rw [hr]
  exact List.mem_cons_of_mem _ h

theorem mem_stringAnnotations_of_tail (u : Str) (an : Str × StringField)
    (h : an ∈ (stringAnnotations []).tail) : an ∈ stringAnnotations u := by
  have hr : stringAnnotations u
      = (AnnotationKeyPrefixAppArmor ++ ['/'] ++ u, StringField.AppArmorProfile)
          :: (stringAnnotations []).tail := rfl
  rw [hr]
  exact List.mem_cons_of_mem _ h

theorem fieldsAfter_all_absent {F V : Type} [DecidableEq F] (parse : Str → Option V)
    (m : List (Str × Str)) (t : List (Str × F)) (h : F → Option V)
    (habs : ∀ an ∈ t, mapLookup m an.1 = none) : fieldsAfter parse m t h = h := by
  induction t generalizing h with
  | nil => rfl
  | cons an t ih =>
    rw [fieldsAfter, habs an (List.mem_cons_self _ _)]
    exact ih _ (fun a ha => habs a (List.mem_cons_of_mem _ ha))

theorem foldl_specStep_skip (parse : Str → Except Err Reference) (m : List (Str × Str))
    (s : List (Str × Sidecar))
    (h : ∀ kv ∈ m, HasPrefix kv.1 AnnotationKeyServicePrefix = false) :
    m.foldl (specStep parse) s = s := by
  induction m generalizing s with
  | nil => rfl
  | cons kv m ih =>
    have hk := classify_skip parse kv.1 kv.2 (h kv (List.mem_cons_self _ _))
    have e1 : specStep parse s kv = s := by
      unfold specStep
      rw [hk]
    rw [List.foldl_cons, e1]
    exact ih s (fun kv' hkv' => h kv' (List.mem_cons_of_mem _ hkv'))

theorem Config.eq_of_fields (a b : Config) (h1 : a.Sidecars = b.Sidecars)
    (h2 : a.bools = b.bools) (h3 : a.durations = b.durations)
    (h4 : a.resources = b.resources) (h5 : a.strings = b.strings)
    (h6 : a.PodSchemaVersion = b.PodSchemaVersion)
    (h7 : a.JobAcceptedTimestampMs = b.JobAcceptedTimestampMs)
    (h8 : a.OomScoreAdj = b.OomScoreAdj) (h9 : a.LogUploadRegExp = b.LogUploadRegExp)
    (h10 : a.SecurityGroupIDs = b.SecurityGroupIDs) : a = b := by
  cases a
  cases b
  simp only at h1 h2 h3 h4 h5 h6 h7 h8 h9 h10
  subst h1 h2 h3 h4 h5 h6 h7 h8 h9 h10
  rfl

theorem checkedKeys_recognized (u : Str) : ∀ K ∈ checkedKeys, K ∈ recognizedKeys u := by
  intro K hK
  refine mem_recognizedKeys_of_tail u K ?_
  revert K
  decide

theorem schedPolicyFailure_eq_nil (sp : Option Str)
    (h : ∀ v, sp = some v → v = "batch".toList ∨ v = "idle".toList) :
    schedPolicyFailure sp = [] := by
  rw [List.eq_nil_iff_forall_not_mem]
  intro e he
  obtain ⟨v, h1, h2, h3, -⟩ := (mem_schedPolicyFailure sp e).1 he
  rcases h v h1 with h | h
  · exact h2 h
  · exact h3 h

theorem mem_recognizedKeys (u : Str) :
    (∀ an ∈ stringAnnotations u, an.1 ∈ recognizedKeys u)
      ∧ (∀ an ∈ boolAnnotations, an.1 ∈ recognizedKeys u)
      ∧ (∀ an ∈ resourceAnnotations, an.1 ∈ recognizedKeys u)
      ∧ (∀ an ∈ durationAnnotations, an.1 ∈ recognizedKeys u)
      ∧ AnnotationKeyPodSchemaVersion ∈ recognizedKeys u
      ∧ AnnotationKeyJobAcceptedTimestampMs ∈ recognizedKeys u
      ∧ AnnotationKeyPodOomScoreAdj ∈ recognizedKeys u
      ∧ AnnotationKeyLogUploadRegexp ∈ recognizedKeys u
      ∧ AnnotationKeyNetworkSecurityGroups ∈ recognizedKeys u := by
  refine ⟨?_, ?_, ?_, ?_, ?_, ?_, ?_, ?_, ?_⟩
  · intro an han
    unfold recognizedKeys
    simp only [List.append_assoc]
    exact List.mem_append_left _ (List.mem_map_of_mem Prod.fst han)
  · intro an han
    refine mem_recognizedKeys_of_tail u _ ?_
    revert an
    decide
  · intro an han
    refine mem_recognizedKeys_of_tail u _ ?_
    revert an
    decide
  · intro an han
    refine mem_recognizedKeys_of_tail u _ ?_
    revert an
    decide
  all_goals exact mem_recognizedKeys_of_tail u _ (by decide)

/-! ## One entry for each failure -/

theorem length_filterMap_countP {α β : Type} (f : α → Option β) (l : List α) :
    (l.filterMap f).length = l.countP (fun a => (f a).isSome) := by
  induction l with
  | nil => rfl
  | cons a l ih =>
    cases h : f a with
    | none => simp [List.filterMap_cons, h, ih]
    | some b => simp [List.filterMap_cons, h, ih]

theorem tableFailures_length {F V : Type} (parse : Str → Option V) (msg : Err)
    (m : List (Str × Str)) (t : List (Str × F)) :
    (tableFailures parse msg m t).length = t.countP (fun an => keyFails parse m an.1) := by
  unfold tableFailures
  rw [length_filterMap_countP]
  congr 1
  funext an
  unfold keyFails
  cases mapLookup m an.1 with
  | none => rfl
  | some v => cases hp : parse v <;> simp [hp]

theorem keyFailure_length {V : Type} (parse : Str → Option V) (msg : Err)
    (m : List (Str × Str)) (key : Str) :
    (keyFailure parse msg m key).length = (keyFails parse m key).toNat := by
  unfold keyFailure keyFails
  cases mapLookup m key with
  | none => rfl
  | some v => cases hp : parse v <;> simp [hp]

theorem hostnameStyleFailure_length (m : List (Str × Str)) :
    (hostnameStyleFailure m).length = (hostnameStyleFails m).toNat := by
  unfold hostnameStyleFailure hostnameStyleFails
  cases mapLookup m AnnotationKeyPodHostnameStyle with
  | none => rfl
  | some v =>
    by_cases h : v ≠ "ec2".toList ∧ v ≠ []
    · simp only [if_pos h, decide_eq_true h]; rfl
    · simp only [if_neg h, decide_eq_false h]; rfl

theorem regexpFailure_length (lib : Lib) (m : List (Str × Str)) :
    (regexpFailure lib m).length = (regexpFails lib m).toNat := by
  unfold regexpFailure regexpFails
  cases mapLookup m AnnotationKeyLogUploadRegexp with
  | none => rfl
  | some v => cases hp : lib.compileRegexp v <;> simp [hp]

theorem schedPolicyFailure_length (sp : Option Str) :
    (schedPolicyFailure sp).length = (schedPolicyFails sp).toNat := by
  unfold schedPolicyFailure schedPolicyFails
  cases sp with
  | none => rfl
  | some v =>
    by_cases h : v ≠ "batch".toList ∧ v ≠ "idle".toList
    · simp only [if_pos h, decide_eq_true h]; rfl
    · simp only [if_neg h, decide_eq_false h]; rfl

/-- The combined error holds one entry for each individual failure. -/
theorem entries_length (lib : Lib) (u : Str) (m : List (Str × Str)) (c : Config) :
    (errorEntries (parseAnnotations lib u m c).2).length
      = failureCount lib m (schedPolicyAfter u m c) := by
  rw [parseAnnotations_entries]
  unfold scalarFailures failureCount failures
  simp only [List.length_append, tableFailures_length, keyFailure_length,
    hostnameStyleFailure_length, regexpFailure_length, schedPolicyFailure_length,
    length_filterMap_countP]

/-! ## Parse failures and the keys of the string table -/

theorem parseFailureNames_iff (e : Err) (key : Str) :
    parseFailureNames e key = true
      ↔ ∃ T ∈ parseTexts ++ serviceTexts, ∃ d, e = T ++ (key ++ d) := by
  unfold parseFailureNames
  rw [List.any_eq_true]
  constructor
  · rintro ⟨T, hT, h⟩
    obtain ⟨d, hd⟩ := (HasPrefix_iff _ _).1 h
    exact ⟨T, hT, d, by rw [hd, List.append_assoc]⟩
  · rintro ⟨T, hT, d, rfl⟩
    exact ⟨T, hT, (HasPrefix_iff _ _).2 ⟨d, by rw [List.append_assoc]⟩⟩

theorem parseTexts_sub : ∀ T ∈ parseTexts ++ serviceTexts, T ∈ scalarTexts ++ serviceTexts := by
  decide

theorem parseTexts_ne :
    ∀ T ∈ parseTexts ++ serviceTexts, T ≠ msgHostnameStyle ∧ T ≠ msgSchedPolicy := by
  decide

theorem boolKeys_parsed : ∀ an ∈ boolAnnotations, an.1 ∈ checkedKeys.tail := by decide

theorem resourceKeys_parsed : ∀ an ∈ resourceAnnotations, an.1 ∈ checkedKeys.tail := by decide

theorem durationKeys_parsed : ∀ an ∈ durationAnnotations, an.1 ∈ checkedKeys.tail := by decide

/-- Every entry of the combined error is the failure of one of the two checks
of an enumerated value, or a parse failure for a key that is present: a key
with a typed value, or a key with the service prefix. -/
theorem parse_entry_shape (lib : Lib) (u : Str) (m : List (Str × Str)) (c : Config) (e : Err)
    (he : e ∈ errorEntries (parseAnnotations lib u m c).2) :
    e = msgHostnameStyle ++ AnnotationKeyPodHostnameStyle
      ∨ e = msgSchedPolicy ++ AnnotationKeyPodSchedPolicy
      ∨ ∃ T ∈ parseTexts ++ serviceTexts, ∃ K d, e = T ++ (K ++ d)
          ∧ ((K ∈ checkedKeys.tail ∧ mapLookup m K ≠ none)
            ∨ (HasPrefix K AnnotationKeyServicePrefix = true ∧ ∃ v, (K, v) ∈ m)) := by
  rw [entries_groups, List.mem_append, List.mem_flatten] at he
  rcases he with ⟨l, hl, he⟩ | hs
  · obtain ⟨⟨T, g⟩, hg, rfl⟩ := List.mem_map.1 hl
    simp only [failureGroups, List.mem_cons, List.mem_singleton, List.not_mem_nil, or_false,
      Prod.mk.injEq] at hg
    rcases hg with ⟨rfl, rfl⟩ | ⟨rfl, rfl⟩ | ⟨rfl, rfl⟩ | ⟨rfl, rfl⟩ | ⟨rfl, rfl⟩ | ⟨rfl, rfl⟩
      | ⟨rfl, rfl⟩ | ⟨rfl, rfl⟩ | ⟨rfl, rfl⟩
    · obtain ⟨v, hv, -, -, rfl⟩ := (mem_hostnameStyleFailure m e).1 he
      exact Or.inl rfl
    · obtain ⟨an, han, v, hv, -, rfl⟩ := (mem_tableFailures _ _ m _ e).1 he
      exact Or.inr (Or.inr ⟨msgBool, by decide, an.1, [], by rw [List.append_nil],
        Or.inl ⟨boolKeys_parsed an han, by rw [hv]; exact Option.some_ne_none v⟩⟩)
    · obtain ⟨v, hv, -, rfl⟩ := (mem_keyFailure _ _ m _ e).1 he
      exact Or.inr (Or.inr ⟨msgUint32, by decide, AnnotationKeyPodSchemaVersion, [],
        by rw [List.append_nil],
        Or.inl ⟨by decide, by rw [hv]; exact Option.some_ne_none v⟩⟩)
    · obtain ⟨v, hv, -, rfl⟩ := (mem_keyFailure _ _ m _ e).1 he
      exact Or.inr (Or.inr ⟨msgUint64, by decide, AnnotationKeyJobAcceptedTimestampMs, [],
        by rw [List.append_nil],
        Or.inl ⟨by decide, by rw [hv]; exact Option.some_ne_none v⟩⟩)
    · obtain ⟨v, hv, -, rfl⟩ := (mem_keyFailure _ _ m _ e).1 he
      exact Or.inr (Or.inr ⟨msgInt32, by decide, AnnotationKeyPodOomScoreAdj, [],
        by rw [List.append_nil],
        Or.inl ⟨by decide, by rw [hv]; exact Option.some_ne_none v⟩⟩)
    · obtain ⟨an, han, v, hv, -, rfl⟩ := (mem_tableFailures _ _ m _ e).1 he
      exact Or.inr (Or.inr ⟨msgResource, by decide, an.1, [], by rw [List.append_nil],
        Or.inl ⟨resourceKeys_parsed an han, by rw [hv]; exact Option.some_ne_none v⟩⟩)
    · obtain ⟨an, han, v, hv, -, rfl⟩ := (mem_tableFailures _ _ m _ e).1 he
      exact Or.inr (Or.inr ⟨msgDuration, by decide, an.1, [], by rw [List.append_nil],
        Or.inl ⟨durationKeys_parsed an han, by rw [hv]; exact Option.some_ne_none v⟩⟩)
    · obtain ⟨v, pErr, hv, -, rfl⟩ := (mem_regexpFailure lib m e).1 he
      exact Or.inr (Or.inr ⟨msgRegexp, by decide, AnnotationKeyLogUploadRegexp,
        [':', ' '] ++ pErr, by simp only [List.append_assoc],
        Or.inl ⟨by decide, by rw [hv]; exact Option.some_ne_none v⟩⟩)
    · obtain ⟨v, -, -, -, rfl⟩ := (mem_schedPolicyFailure _ e).1 he
      exact Or.inr (Or.inl rfl)
  · obtain ⟨kv, hkv, hc⟩ := (mem_failures _ m _).1 hs
    obtain ⟨hp, T, hT, d, hd⟩ := classify_fail_shape _ _ _ _ hc
    exact Or.inr (Or.inr ⟨T, List.mem_append_right _ hT, kv.1, d, hd,
      Or.inr ⟨hp, kv.2, hkv⟩⟩)

theorem stringTail_incompatible :
    ∀ an ∈ (stringAnnotations []).tail,
      incompatible an.1 AnnotationKeyServicePrefix = true
        ∧ ∀ K1 ∈ checkedKeys.tail, incompatible an.1 K1 = true := by
  decide

/-- A key of the string table differs, at a position both have, from the
service prefix and from every key with a typed value. -/
theorem stringKey_incompatible (u : Str) :
    ∀ an ∈ stringAnnotations u,
      incompatible an.1 AnnotationKeyServicePrefix = true
        ∧ ∀ K1 ∈ checkedKeys.tail, incompatible an.1 K1 = true := by
  intro an han
  have hr : stringAnnotations u
      = (AnnotationKeyPrefixAppArmor ++ ['/'] ++ u, StringField.AppArmorProfile)
          :: (stringAnnotations []).tail := rfl
  rw [hr] at han
  rcases List.mem_cons.1 han with rfl | han
  · simp only [List.append_assoc]
    refine ⟨incompatible_append_left _ _
      (appArmor_incompatible _ (List.mem_cons_self _ _)) _, ?_⟩
    intro K1 hK1
    exact incompatible_append_left _ _
      (appArmor_incompatible K1
        (List.mem_cons_of_mem _ (List.mem_cons_of_mem _ (List.mem_of_mem_tail hK1)))) _
  · exact stringTail_incompatible an han

/-- No parse failure names a key of the string table. -/
theorem stringKey_no_parse_failure (lib : Lib) (u : Str) (m : List (Str × Str)) (c : Config)
    (an : Str × StringField) (han : an ∈ stringAnnotations u) :
    ∀ e ∈ errorEntries (parseAnnotations lib u m c).2, parseFailureNames e an.1 = false := by
  intro e he
  obtain ⟨h3, h1⟩ := stringKey_incompatible u an han
  cases hn : parseFailureNames e an.1 with
  | false => rfl
  | true =>
    exfalso
    obtain ⟨T, hT, d, hd⟩ := (parseFailureNames_iff e an.1).1 hn
    obtain ⟨hT1, hT2⟩ := parseTexts_ne T hT
    have hTs := parseTexts_sub T hT
    rcases parse_entry_shape lib u m c e he with h | h | ⟨T1, hT1', K1, d1, hd1, hK1⟩
    · have := texts_incompatible T hTs msgHostnameStyle (by decide) hT1
      exact incompatible_ne T _ this _ _ (hd ▸ h)
    · have := texts_incompatible T hTs msgSchedPolicy (by decide) hT2
      exact incompatible_ne T _ this _ _ (hd ▸ h)
    · have hTT : T = T1 := by
        by_contra hne
        exact incompatible_ne T T1
          (texts_incompatible T hTs T1 (parseTexts_sub T1 hT1') hne) _ _ (hd ▸ hd1)
      subst hTT
      have hk : an.1 ++ d = K1 ++ d1 := List.append_cancel_left (hd ▸ hd1)
      rcases hK1 with ⟨hin, -⟩ | ⟨hp, -⟩
      · exact incompatible_ne an.1 K1 (h1 K1 hin) d d1 hk
      · obtain ⟨r, rfl⟩ := (HasPrefix_iff _ _).1 hp
        rw [List.append_assoc] at hk
        exact incompatible_ne an.1 _ h3 d _ hk

/-- No failure at all names a key of the string table other than the two keys
with an enumerated value. -/
theorem stringKey_not_named (lib : Lib) (u : Str) (m : List (Str × Str)) (c : Config)
    (an : Str × StringField) (han : an ∈ stringAnnotations u)
    (h1 : an.1 ≠ AnnotationKeyPodHostnameStyle) (h2 : an.1 ≠ AnnotationKeyPodSchedPolicy) :
    ∀ e ∈ errorEntries (parseAnnotations lib u m c).2, namesKey e an.1 = false := by
  obtain ⟨r1, -⟩ := mem_recognizedKeys u
  obtain ⟨h3, h12⟩ := recognized_incompatible u an.1 (r1 an han)
  obtain ⟨-, ht⟩ := stringKey_incompatible u an han
  refine not_namesKey lib u m c an.1 ?_ ?_ h3
  · intro K1 hK1 _
    have hc : checkedKeys = AnnotationKeyPodHostnameStyle :: checkedKeys.tail := rfl
    rw [hc] at hK1
    rcases List.mem_cons.1 hK1 with rfl | hK1
    · exact h12 _ (List.mem_cons_of_mem _ (by decide)) (fun h => h1 h.symm)
    · exact ht K1 hK1
  · intro _
    exact h12 _ (List.mem_cons_self _ _) (fun h => h2 h.symm)

/-! ## Keys with the service prefix and no slash -/

/-- A key that starts with the service prefix but not with the prefix and a
slash is rejected: for the segment count when a dot follows the prefix, for
the version otherwise, the second segment being `netflix`. -/
theorem classify_no_slash (parse : Str → Except Err Reference) (k v : Str)
    (hp : HasPrefix k AnnotationKeyServicePrefix = true)
    (hn : HasPrefix k (AnnotationKeyServicePrefix ++ ['/']) = false) :
    classify parse k v
      = .fail (if '.' ∈ k.drop AnnotationKeyServicePrefix.length then msgServiceParams ++ k
               else msgServiceVersion ++ k) := by
  obtain ⟨r, rfl⟩ := (HasPrefix_iff _ _).1 hp
  have hdrop : (AnnotationKeyServicePrefix ++ r).drop AnnotationKeyServicePrefix.length = r :=
    List.drop_left _ _
  rw [hdrop]
  have e : AnnotationKeyServicePrefix ++ r
      = "service".toList ++ '.' :: ("netflix".toList ++ '.' :: ("com".toList ++ r)) := by
    simp [AnnotationKeyServicePrefix]
  have hs : Split (TrimPrefix (AnnotationKeyServicePrefix ++ r)
      (AnnotationKeyServicePrefix ++ ['/'])) '.'
      = "service".toList :: "netflix".toList :: Split ("com".toList ++ r) '.' := by
    rw [TrimPrefix_of_not _ _ hn, e, Split_append_sep _ _ _ (by decide),
      Split_append_sep _ _ _ (by decide)]
  by_cases hdot : '.' ∈ r
  · rw [if_pos hdot]
    apply classify_bad_count parse _ v hp
    rw [hs]
    have hlen := Split_length ("com".toList ++ r) '.'
    have hc : 0 < ("com".toList ++ r).count '.' :=
      List.count_pos_iff.2 (List.mem_append_right _ hdot)
    simp only [List.length_cons]
    omega
  · rw [if_neg hdot]
    have hnot : '.' ∉ "com".toList ++ r := by
      intro h
      rcases List.mem_append.1 h with h | h
      · exact absurd h (by decide)
      · exact hdot h
    rw [Split_of_not_mem _ _ hnot] at hs
    exact classify_bad_version parse _ v _ _ _ hp hs (by decide)

/-- The shape of a failure of `parseServiceAnnotations` for the key `k`; an
image failure is only recorded for a key that starts with the prefix and a
slash. -/
theorem classify_fail_cases (parse : Str → Except Err Reference) (k v : Str) (e : Err)
    (h : classify parse k v = .fail e) :
    e = msgServiceParams ++ k ∨ e = msgServiceVersion ++ k ∨ e = msgServiceEnabled ++ k
      ∨ (HasPrefix k (AnnotationKeyServicePrefix ++ ['/']) = true
          ∧ ∃ r, e = msgServiceImage ++ k ++ [':', ' '] ++ r) := by
  by_cases hp : HasPrefix k AnnotationKeyServicePrefix = true
  · cases hq : HasPrefix k (AnnotationKeyServicePrefix ++ ['/']) with
    | false =>
      rw [classify_no_slash parse k v hp hq] at h
      injection h with h
      by_cases hdot : '.' ∈ k.drop AnnotationKeyServicePrefix.length
      · rw [if_pos hdot] at h
        exact Or.inl h.symm
      · rw [if_neg hdot] at h
        exact Or.inr (Or.inl h.symm)
    | true =>
      unfold classify at h
      simp only [hp, Bool.not_true, Bool.false_eq_true, if_false] at h
      split at h
      · split at h
        · injection h with h
          exact Or.inr (Or.inl h.symm)
        · split at h
          · split at h
            · injection h with h
              exact Or.inr (Or.inr (Or.inl h.symm))
            · cases h
          · split at h
            · split at h
              · rename_i iErr _
                injection h with h
                exact Or.inr (Or.inr (Or.inr ⟨rfl, iErr, h.symm⟩))
              · cases h
            · cases h
      · injection h with h
        exact Or.inl h.symm
  · simp only [Bool.not_eq_true] at hp
    rw [classify_skip parse k v hp] at h
    cases h

theorem no_slash_mismatch (k k1 x y : Str)
    (hp : HasPrefix k AnnotationKeyServicePrefix = true)
    (hn : HasPrefix k (AnnotationKeyServicePrefix ++ ['/']) = false)
    (hs : HasPrefix k1 (AnnotationKeyServicePrefix ++ ['/']) = true)
    (h : k ++ ':' :: x = k1 ++ ':' :: y) : False := by
  obtain ⟨rk, rfl⟩ := (HasPrefix_iff _ _).1 hp
  obtain ⟨r1, rfl⟩ := (HasPrefix_iff _ _).1 hs
  simp only [List.append_assoc] at h
  have h2 := List.append_cancel_left h
  cases rk with
  | nil =>
    simp only [List.nil_append, List.singleton_append, List.cons.injEq] at h2
    exact absurd h2.1 (by decide)
  | cons ch rk2 =>
    simp only [List.cons_append, List.singleton_append, List.cons.injEq] at h2
    have : HasPrefix (AnnotationKeyServicePrefix ++ ch :: rk2)
        (AnnotationKeyServicePrefix ++ ['/']) = true := by
      rw [h2.1]
      exact (HasPrefix_iff _ _).2 ⟨rk2, by simp⟩
    rw [this] at hn
    cases hn

theorem serviceTexts_incompatible :
    ∀ a ∈ serviceTexts, ∀ b ∈ serviceTexts, a ≠ b → incompatible a b = true := by
  decide

/-- The failure that another key records is not a failure for a key that
starts with the service prefix but not with the prefix and a slash. -/
theorem other_key_failure (parse : Str → Except Err Reference) (k k1 v1 : Str) (e : Err)
    (hp : HasPrefix k AnnotationKeyServicePrefix = true)
    (hn : HasPrefix k (AnnotationKeyServicePrefix ++ ['/']) = false)
    (hne : k1 ≠ k) (hc : classify parse k1 v1 = .fail e) :
    serviceFailureFor e k = false := by
  have hB : ∃ T ∈ serviceTexts, ∃ y, e = T ++ (k1 ++ y)
      ∧ ((T ≠ msgServiceImage ∧ y = [])
        ∨ (HasPrefix k1 (AnnotationKeyServicePrefix ++ ['/']) = true ∧ T = msgServiceImage
            ∧ ∃ r, y = ':' :: ' ' :: r)) := by
    rcases classify_fail_cases parse k1 v1 e hc with h | h | h | ⟨hs, r, h⟩
    · exact ⟨msgServiceParams, by decide, [], by rw [h, List.append_nil],
        Or.inl ⟨by decide, rfl⟩⟩
    · exact ⟨msgServiceVersion, by decide, [], by rw [h, List.append_nil],
        Or.inl ⟨by decide, rfl⟩⟩
    · exact ⟨msgServiceEnabled, by decide, [], by rw [h, List.append_nil],
        Or.inl ⟨by decide, rfl⟩⟩
    · exact ⟨msgServiceImage, by decide, ':' :: ' ' :: r,
        by rw [h]; simp only [List.append_assoc, List.cons_append, List.nil_append],
        Or.inr ⟨hs, rfl, r, rfl⟩⟩
  cases hf : serviceFailureFor e k with
  | false => rfl
  | true =>
    exfalso
    have hA : ∃ T ∈ serviceTexts, ∃ x, e = T ++ (k ++ x)
        ∧ ((T ≠ msgServiceImage ∧ x = []) ∨ (T = msgServiceImage ∧ ∃ d, x = ':' :: ' ' :: d)) := by
      unfold serviceFailureFor at hf
      simp only [Bool.or_eq_true, decide_eq_true_eq] at hf
      rcases hf with ((h | h) | h) | h
      · exact ⟨msgServiceParams, by decide, [], by rw [h, List.append_nil],
          Or.inl ⟨by decide, rfl⟩⟩
      · exact ⟨msgServiceVersion, by decide, [], by rw [h, List.append_nil],
          Or.inl ⟨by decide, rfl⟩⟩
      · exact ⟨msgServiceEnabled, by decide, [], by rw [h, List.append_nil],
          Or.inl ⟨by decide, rfl⟩⟩
      · obtain ⟨d, hd⟩ := (HasPrefix_iff _ _).1 h
        exact ⟨msgServiceImage, by decide, ':' :: ' ' :: d,
          by rw [hd]; simp only [List.append_assoc, List.cons_append, List.nil_append],
          Or.inr ⟨rfl, d, rfl⟩⟩
    obtain ⟨T, hT, x, hx, hxc⟩ := hA
    obtain ⟨T1, hT1, y, hy, hyc⟩ := hB
    have hTT : T = T1 := by
      by_contra hneq
      exact incompatible_ne T T1 (serviceTexts_incompatible T hT T1 hT1 hneq) _ _ (hx ▸ hy)
    subst hTT
    have hk : k ++ x = k1 ++ y := List.append_cancel_left (hx ▸ hy)
    rcases hxc with ⟨hni, rfl⟩ | ⟨hi, d, rfl⟩
    · rcases hyc with ⟨-, rfl⟩ | ⟨-, hi, -⟩
      · rw [List.append_nil, List.append_nil] at hk
        exact hne hk.symm
      · exact hni hi
    · rcases hyc with ⟨hni, -⟩ | ⟨hs, -, r, rfl⟩
      · exact hni hi
      · exact no_slash_mismatch k k1 _ _ hp hn hs hk

/-! ## A map without recognized keys -/

theorem tableFailures_eq_nil {F V : Type} (parse : Str → Option V) (msg : Err)
    (m : List (Str × Str)) (t : List (Str × F))
    (h : ∀ an ∈ t, mapLookup m an.1 = none) : tableFailures parse msg m t = [] := by
  rw [List.eq_nil_iff_forall_not_mem]
  intro e he
  obtain ⟨an, han, v, hv, -, -⟩ := (mem_tableFailures parse msg m t e).1 he
  rw [h an han] at hv
  cases hv

theorem keyFailure_eq_nil {V : Type} (parse : Str → Option V) (msg : Err)
    (m : List (Str × Str)) (key : Str) (h : mapLookup m key = none) :
    keyFailure parse msg m key = [] := by
  unfold keyFailure
  rw [h]

/-- With no recognized key and no key with the service prefix, the entries of
the combined error are the failure of the scheduler-policy check on the
starting `SchedPolicy` field. -/
theorem entries_of_no_key (lib : Lib) (u : Str) (m : List (Str × Str)) (c : Config)
    (hall : ∀ K ∈ recognizedKeys u, mapLookup m K = none)
    (hsvc : ∀ kv ∈ m, HasPrefix kv.1 AnnotationKeyServicePrefix = false) :
    errorEntries (parseAnnotations lib u m c).2
      = schedPolicyFailure (c.strings StringField.SchedPolicy) := by
  obtain ⟨r1, r2, r3, r4, r5, r6, r7, r8, -⟩ := mem_recognizedKeys u
  have hhost : hostnameStyleFailure m = [] := by
    rw [List.eq_nil_iff_forall_not_mem]
    intro e he
    obtain ⟨v, hv, -⟩ := (mem_hostnameStyleFailure m e).1 he
    rw [hall _ (checkedKeys_recognized u _ (by decide))] at hv
    cases hv
  have hre : regexpFailure lib m = [] := by
    rw [List.eq_nil_iff_forall_not_mem]
    intro e he
    obtain ⟨v, d, hv, -⟩ := (mem_regexpFailure lib m e).1 he
    rw [hall _ r8] at hv
    cases hv
  have hf : failures lib.parseReference m = [] := by
    apply failures_eq_nil
    intro kv hkv e he
    rw [classify_skip _ _ _ (hsvc kv hkv)] at he
    cases he
  rw [parseAnnotations_entries, hf,
    schedPolicyAfter_absent u m c (hall _ (r1 _ (schedPolicy_mem u)))]
  unfold scalarFailures
  rw [hhost, hre, tableFailures_eq_nil _ _ m _ (fun an han => hall _ (r2 an han)),
    tableFailures_eq_nil _ _ m _ (fun an han => hall _ (r3 an han)),
    tableFailures_eq_nil _ _ m _ (fun an han => hall _ (r4 an han)),
    keyFailure_eq_nil _ _ m _ (hall _ r5), keyFailure_eq_nil _ _ m _ (hall _ r6),
    keyFailure_eq_nil _ _ m _ (hall _ r7)]
  simp

/-- The returned `error` holds its entries. -/
theorem parseAnnotations_error_eq (lib : Lib) (u : Str) (m : List (Str × Str)) (c : Config)
    (h : errorEntries (parseAnnotations lib u m c).2 ≠ []) :
    (parseAnnotations lib u m c).2 = some (errorEntries (parseAnnotations lib u m c).2) := by
  cases hr : (parseAnnotations lib u m c).2 with
  | none =>
    rw [hr] at h
    exact absurd rfl h
  | some l => rfl

theorem typedKeys_ne_schedPolicy :
    (∀ an ∈ boolAnnotations, an.1 ≠ AnnotationKeyPodSchedPolicy)
      ∧ (∀ an ∈ resourceAnnotations, an.1 ≠ AnnotationKeyPodSchedPolicy)
      ∧ (∀ an ∈ durationAnnotations, an.1 ≠ AnnotationKeyPodSchedPolicy)
      ∧ AnnotationKeyPodSchemaVersion ≠ AnnotationKeyPodSchedPolicy
      ∧ AnnotationKeyJobAcceptedTimestampMs ≠ AnnotationKeyPodSchedPolicy
      ∧ AnnotationKeyPodOomScoreAdj ≠ AnnotationKeyPodSchedPolicy
      ∧ AnnotationKeyLogUploadRegexp ≠ AnnotationKeyPodSchedPolicy
      ∧ AnnotationKeyNetworkSecurityGroups ≠ AnnotationKeyPodSchedPolicy := by
  decide
/-! ## Claims about the composite parser -/

/-- C1, as stated, fails: the version number 9223372036854775808 is a decimal
number, but it does not fit `int`, so both keys record the version failure and
no Sidecar is appended. -/
theorem C1_counterexample :
    serviceResult referenceParse
        [ ("service.netflix.com/a.v9223372036854775808.enabled".toList, "true".toList),
          ("service.netflix.com/a.v9223372036854775808.image".toList,
            "registry/x:latest".toList) ]
      = ([],
          [ "annotation has an incorrect service version number: service.netflix.com/a.v9223372036854775808.enabled".toList,
            "annotation has an incorrect service version number: service.netflix.com/a.v9223372036854775808.image".toList ]) := by
  decide

/-- C1 (amended): for every name without `.`, every run `ds` of decimal digits
whose number fits `int` (is below 2^63), every valid boolean text `b` and every
image `i` whose reference carries a tag or a digest: when the only keys of the
map that start with the service prefix are `<name>.v<ds>.enabled = b` and
`<name>.v<ds>.image = i`, no failure is recorded and exactly one Sidecar is
appended, with that name, the number of `ds`, the boolean of `b` and the image
`i`. For the four-key map of `TestServiceAnnotations`, visited in any order,
no failure is recorded and the records are, up to order, the two expected. -/
theorem C1_single_record (parse : Str → Except Err Reference) (name ds b i : Str)
    (bv : Bool) (ref : Reference) (m : List (Str × Str)) (pConf : Config)
    (hname : '.' ∉ name) (hne : ds ≠ []) (hdig : ∀ c ∈ ds, c.isDigit = true)
    (hfit : decimalValue ds < 2 ^ 63)
    (hb : ParseBool b = some bv)
    (hi : parse i = .ok ref) (hti : ref.tagged = true ∨ ref.digested = true)
    (hd : keysDistinct m)
    (hE : (serviceKey name ('v' :: ds) "enabled".toList, b) ∈ m)
    (hI : (serviceKey name ('v' :: ds) "image".toList, i) ∈ m)
    (hothers : ∀ kv ∈ m, HasPrefix kv.1 AnnotationKeyServicePrefix = true →
      kv.1 = serviceKey name ('v' :: ds) "enabled".toList
        ∨ kv.1 = serviceKey name ('v' :: ds) "image".toList) :
    parseServiceAnnotations parse m pConf
        = ({ pConf with Sidecars := pConf.Sidecars ++
              [{ Name := name, Version := decimalValue ds, Enabled := bv, Image := i }] }, [])
      ∧ ∀ m', m'.Perm testServiceAnnotations →
          (parseServiceAnnotations referenceParse m' {}).2 = []
            ∧ (parseServiceAnnotations referenceParse m' {}).1.Sidecars.Perm
                testServiceSidecars := by
  constructor
  · have hv : '.' ∉ ('v' :: ds) := by
      intro h
      rcases List.mem_cons.1 h with h | h
      · exact absurd h (by decide)
      · exact not_mem_of_digits ds hdig h
    have ha := Atoi_version ds hne hdig hfit
    have hval : validateImage parse i = none := by
      unfold validateImage
      rw [hi]
      rcases hti with h | h <;> simp [h]
    have hcE := serviceKey_classify parse name ('v' :: ds) "enabled".toList b _ hname hv
      (by decide) ha
    have hcI := serviceKey_classify parse name ('v' :: ds) "image".toList i _ hname hv
      (by decide) ha
    rw [if_pos rfl, hb] at hcE
    rw [if_neg (by decide), if_pos rfl, hval] at hcI
    simp only at hcE hcI
    rw [parseServiceAnnotations_eq]
    have hfail : failures parse m = [] := by
      refine failures_eq_nil parse m ?_
      intro kv hkv e
      cases hp : HasPrefix kv.1 AnnotationKeyServicePrefix with
      | false =>
        rw [classify_skip parse _ _ hp]
        exact Action.noConfusion
      | true =>
        obtain ⟨k, v⟩ := kv
        rcases hothers _ hkv hp with h | h
        · simp only at h
          subst h
          have := value_unique m _ _ _ hd hkv hE
          subst this
          simp only [hcE]
          exact Action.noConfusion
        · simp only at h
          subst h
          have := value_unique m _ _ _ hd hkv hI
          subst this
          simp only [hcI]
          exact Action.noConfusion
    have hperm : (m.foldl (specStep parse) []).Perm
        [(name ++ '.' :: ('v' :: ds),
          ({ Name := name, Version := decimalValue ds, Enabled := bv, Image := i } : Sidecar))] := by
      refine perm_of_mapLookup_eq _ _ (keysDistinct_foldl parse m [] keysDistinct_nil)
        (by simp [keysDistinct]) ?_
      intro g
      rw [mapLookup_foldl]
      have := pair_lookup parse name ('v' :: ds) b i _ bv m hname hv ha hb hval hd hE hI
        hothers g
      simp only [mapLookup] at this ⊢
      rw [this]
    rw [List.perm_singleton.1 hperm, hfail]
    rfl
  · intro m' hm'
    have hd' : keysDistinct m' := by
      unfold keysDistinct
      exact (hm'.map Prod.fst).nodup_iff.2 (by decide)
    rw [parseServiceAnnotations_eq]
    constructor
    · have h1 := failures_perm referenceParse _ _ hm'
      have h2 : failures referenceParse testServiceAnnotations = [] := by decide
      rw [h2] at h1
      exact List.perm_nil.1 h1
    · have h1 := (sidecars_perm referenceParse _ _ hd' hm').map Prod.snd
      have h2 : (testServiceAnnotations.foldl (specStep referenceParse) []).map Prod.snd
          = testServiceSidecars := by decide
      rw [h2] at h1
      simpa using h1

/-- C1 (amended), at a concrete input: name `svc`, version `v2`, `enabled` =
`false` and a tagged image, next to an unrelated annotation. -/
theorem C1_single_record_witness :
    parseServiceAnnotations referenceParse
        [ ("app.netflix.com/name".toList, "x".toList),
          ("service.netflix.com/svc.v2.image".toList, "titusops/svc:latest".toList),
          ("service.netflix.com/svc.v2.enabled".toList, "false".toList) ] {}
      = ({ Sidecars := [{ Name := "svc".toList, Version := 2, Enabled := false,
                          Image := "titusops/svc:latest".toList }] }, []) :=
  (C1_single_record referenceParse "svc".toList "2".toList "false".toList
    "titusops/svc:latest".toList false { digested := false, tagged := true }
    [ ("app.netflix.com/name".toList, "x".toList),
      ("service.netflix.com/svc.v2.image".toList, "titusops/svc:latest".toList),
      ("service.netflix.com/svc.v2.enabled".toList, "false".toList) ] {}
    (by decide) (by decide) (by decide) (by decide) (by decide) rfl (by decide)
    (by decide) (by decide) (by decide) (by decide)).1

/-- C2: composite parsing does not depend on the order in which the entries
of a well-formed annotation map are visited: two visiting orders give the same
Sidecar records and the same failure messages, both up to order. In
particular `name.v2.enabled = true`, `name.v2.image = registry/x:latest` gives
the one record `name, 2, true, registry/x:latest` in either order. -/
theorem C2_order_independent (parse : Str → Except Err Reference)
    (m1 m2 : List (Str × Str)) (pConf : Config)
    (hd : keysDistinct m1) (hp : m1.Perm m2) :
    (parseServiceAnnotations parse m1 pConf).1.Sidecars.Perm
        (parseServiceAnnotations parse m2 pConf).1.Sidecars
      ∧ (parseServiceAnnotations parse m1 pConf).2.Perm
          (parseServiceAnnotations parse m2 pConf).2
      ∧ serviceResult referenceParse
          [ ("service.netflix.com/name.v2.enabled".toList, "true".toList),
            ("service.netflix.com/name.v2.image".toList, "registry/x:latest".toList) ]
        = ([{ Name := "name".toList, Version := 2, Enabled := true,
                            Image := "registry/x:latest".toList }], [])
      ∧ serviceResult referenceParse
          [ ("service.netflix.com/name.v2.image".toList, "registry/x:latest".toList),
            ("service.netflix.com/name.v2.enabled".toList, "true".toList) ]
        = ([{ Name := "name".toList, Version := 2, Enabled := true,
                            Image := "registry/x:latest".toList }], []) := by
  refine ⟨?_, ?_, by decide, by decide⟩
  · rw [parseServiceAnnotations_eq, parseServiceAnnotations_eq]
    exact ((sidecars_perm parse m1 m2 hd hp).map Prod.snd).append_left _
  · rw [parseServiceAnnotations_eq, parseServiceAnnotations_eq]
    exact failures_perm parse m1 m2 hp

/-- C2 at a concrete input: a map with a valid record, a malformed key and a
bad version, visited in two different orders. -/
theorem C2_order_independent_witness :
    (parseServiceAnnotations referenceParse
        [ ("service.netflix.com/name.v2.enabled".toList, "true".toList),
          ("service.netflix.com/only-one-field".toList, "true".toList),
          ("service.netflix.com/name.v2.image".toList, "registry/x:latest".toList),
          ("service.netflix.com/foo.vA.enabled".toList, "true".toList) ] {}).1.Sidecars.Perm
      (parseServiceAnnotations referenceParse
        [ ("service.netflix.com/foo.vA.enabled".toList, "true".toList),
          ("service.netflix.com/name.v2.image".toList, "registry/x:latest".toList),
          ("service.netflix.com/only-one-field".toList, "true".toList),
          ("service.netflix.com/name.v2.enabled".toList, "true".toList) ] {}).1.Sidecars
    ∧ (parseServiceAnnotations referenceParse
        [ ("service.netflix.com/name.v2.enabled".toList, "true".toList),
          ("service.netflix.com/only-one-field".toList, "true".toList),
          ("service.netflix.com/name.v2.image".toList, "registry/x:latest".toList),
          ("service.netflix.com/foo.vA.enabled".toList, "true".toList) ] {}).2.Perm
      (parseServiceAnnotations referenceParse
        [ ("service.netflix.com/foo.vA.enabled".toList, "true".toList),
          ("service.netflix.com/name.v2.image".toList, "registry/x:latest".toList),
          ("service.netflix.com/only-one-field".toList, "true".toList),
          ("service.netflix.com/name.v2.enabled".toList, "true".toList) ] {}).2 :=
  have h := C2_order_independent referenceParse
    [ ("service.netflix.com/name.v2.enabled".toList, "true".toList),
      ("service.netflix.com/only-one-field".toList, "true".toList),
      ("service.netflix.com/name.v2.image".toList, "registry/x:latest".toList),
      ("service.netflix.com/foo.vA.enabled".toList, "true".toList) ]
    [ ("service.netflix.com/foo.vA.enabled".toList, "true".toList),
      ("service.netflix.com/name.v2.image".toList, "registry/x:latest".toList),
      ("service.netflix.com/only-one-field".toList, "true".toList),
      ("service.netflix.com/name.v2.enabled".toList, "true".toList) ] {}
    (by decide) (by decide)
  ⟨h.1, h.2.1⟩

/-- C3, as stated, fails: the version segments `v1` and `1` denote the same
number, the map is keyed by the segment as written, and two records with the
same name and the same version number are emitted. -/
theorem C3_counterexample :
    (serviceResult referenceParse
        [ ("service.netflix.com/foo.v1.enabled".toList, "true".toList),
          ("service.netflix.com/foo.1.enabled".toList, "false".toList) ]).2 = []
    ∧ (serviceResult referenceParse
        [ ("service.netflix.com/foo.v1.enabled".toList, "true".toList),
          ("service.netflix.com/foo.1.enabled".toList, "false".toList) ]).1.Perm
        [ { Name := "foo".toList, Version := 1, Enabled := true, Image := [] },
          { Name := "foo".toList, Version := 1, Enabled := false, Image := [] } ]
    ∧ ¬ ((serviceResult referenceParse
        [ ("service.netflix.com/foo.v1.enabled".toList, "true".toList),
          ("service.netflix.com/foo.1.enabled".toList, "false".toList) ]).1.map
          fun sc => (sc.Name, sc.Version)).Nodup := by
  refine ⟨by decide, ?_, by decide⟩
  have h : (serviceResult referenceParse
        [ ("service.netflix.com/foo.v1.enabled".toList, "true".toList),
          ("service.netflix.com/foo.1.enabled".toList, "false".toList) ]).1
      = [ { Name := "foo".toList, Version := 1, Enabled := true, Image := [] },
          { Name := "foo".toList, Version := 1, Enabled := false, Image := [] } ] := by
    decide
  rw [h]

/-- C3 (amended): the records appended to an empty Sidecars list are keyed
uniquely by the name and the version segment as written: they are the values
of a map with pairwise distinct keys `name.version`, each key being built from
the name and the version segment of a service key of the annotation map, and
each record carrying that name and the number of that segment. -/
theorem C3_keyed_by_segment (parse : Str → Except Err Reference) (m : List (Str × Str)) :
    ∃ keyed : List (Str × Sidecar),
      (parseServiceAnnotations parse m {}).1.Sidecars = keyed.map Prod.snd
        ∧ keysDistinct keyed
        ∧ ∀ p ∈ keyed, ∃ version param v,
            (serviceKey p.2.Name version param, v) ∈ m
              ∧ p.1 = p.2.Name ++ '.' :: version ∧ '.' ∉ p.2.Name ∧ '.' ∉ version
              ∧ Atoi (TrimPrefix version ['v']) = some p.2.Version := by
  refine ⟨m.foldl (specStep parse) [], ?_, keysDistinct_foldl parse m [] keysDistinct_nil, ?_⟩
  · rw [parseServiceAnnotations_eq]
    rfl
  · rintro ⟨g, sc⟩ hp
    obtain ⟨version, param, v, hmem, hg, hn, hv, -, ha, -, -⟩ :=
      final_entry_origin parse m g sc hp
    exact ⟨version, param, v, hmem, hg, hn, hv, ha⟩

/-- C4, as stated, fails in both directions: an `enabled` key with a valid
composite key and a value that is not a boolean gives no record, and a key
with a third segment other than `enabled` and `image` gives a record. -/
theorem C4_counterexample :
    serviceResult referenceParse
        [ ("service.netflix.com/foo.v1.enabled".toList, "asdf".toList) ]
      = ([],
          [ "annotation has an incorrect service enabled boolean value: service.netflix.com/foo.v1.enabled".toList ])
    ∧ serviceResult referenceParse
        [ ("service.netflix.com/foo.v1.other".toList, "x".toList) ]
      = ([ { Name := "foo".toList, Version := 1, Enabled := false,
                           Image := [] } ], []) := by
  constructor
  · decide
  · decide

/-- C4 (amended): a record with name `name` and version number `n` is in the
list produced from an empty Sidecars list if and only if the map has a key
`service.netflix.com/<name>.<version>.<param>` of exactly three segments whose
version segment is valid and denotes `n`, and whose entry is accepted: the
value is a valid boolean when the param is `enabled`, the value validates as an
image when the param is `image`, and any value when the param is another
word. -/
theorem C4_record_iff (parse : Str → Except Err Reference) (m : List (Str × Str))
    (name : Str) (n : Int) :
    (∃ sc ∈ (parseServiceAnnotations parse m {}).1.Sidecars, sc.Name = name ∧ sc.Version = n)
      ↔ ∃ version param v, (serviceKey name version param, v) ∈ m
          ∧ '.' ∉ name ∧ '.' ∉ version ∧ '.' ∉ param
          ∧ Atoi (TrimPrefix version ['v']) = some n
          ∧ (param = "enabled".toList → ParseBool v ≠ none)
          ∧ (param = "image".toList → validateImage parse v = none) := by
  rw [parseServiceAnnotations_eq]
  constructor
  · rintro ⟨sc, hsc, rfl, rfl⟩
    simp only [List.nil_append, List.mem_map] at hsc
    obtain ⟨⟨g, sc'⟩, hp, rfl⟩ := hsc
    obtain ⟨version, param, v, hmem, -, hn, hv, hpa, ha, hE, hI⟩ :=
      final_entry_origin parse m g sc' hp
    exact ⟨version, param, v, hmem, hn, hv, hpa, ha, hE, hI⟩
  · rintro ⟨version, param, v, hmem, hn, hv, hpa, ha, hE, hI⟩
    obtain ⟨sc, hin, h1, h2⟩ :=
      final_entry_of_update parse m name version param v n hmem hn hv hpa ha hE hI
    refine ⟨sc, ?_, h1, h2⟩
    simp only [List.nil_append, List.mem_map]
    exact ⟨(_, sc), hin, rfl⟩

/-- C5, as stated, fails: a version segment without the leading `v` is
accepted, and so is a negative number after the `v`; neither records a failure
and both create a record, the second one with a negative version. -/
theorem C5_counterexample :
    serviceResult referenceParse
        [ ("service.netflix.com/foo.1.enabled".toList, "true".toList) ]
      = ([ { Name := "foo".toList, Version := 1, Enabled := true,
                           Image := [] } ], [])
    ∧ serviceResult referenceParse
        [ ("service.netflix.com/foo.v-1.enabled".toList, "true".toList) ]
      = ([ { Name := "foo".toList, Version := -1, Enabled := true,
                           Image := [] } ], []) := by
  constructor
  · decide
  · decide

/-- C5 (amended): for every three-segment service key whose version segment,
once one leading `v` (if there is one) is removed, is not read by `Atoi` (an
optional sign and decimal digits, within the range of `int`), the failure
"annotation has an incorrect service version number: <key>" is recorded and
the key creates or updates no record: the failures are those of the map
without the key plus this one, and the Sidecars are, up to order, those of
the map without the key. Every Sidecar of the output carries the number that `Atoi` reads from
the version segment of one of the service keys of its name. The key
`service.netflix.com/foo.vA.enabled` gives that failure and no record. -/
theorem C5_bad_version (parse : Str → Except Err Reference) (m : List (Str × Str))
    (k v name version param : Str) (pConf : Config)
    (hd : keysDistinct m) (hmem : (k, v) ∈ m)
    (hp : HasPrefix k AnnotationKeyServicePrefix = true)
    (hs : Split (TrimPrefix k (AnnotationKeyServicePrefix ++ ['/'])) '.'
      = [name, version, param])
    (hbad : Atoi (TrimPrefix version ['v']) = none) :
    (parseServiceAnnotations parse m pConf).2.Perm
        (("annotation has an incorrect service version number: ".toList ++ k)
          :: (parseServiceAnnotations parse (withoutKey m k) pConf).2)
      ∧ (parseServiceAnnotations parse m pConf).1.Sidecars.Perm
          (parseServiceAnnotations parse (withoutKey m k) pConf).1.Sidecars
      ∧ (∀ sc ∈ (parseServiceAnnotations parse m {}).1.Sidecars,
          ∃ version' param' v', (serviceKey sc.Name version' param', v') ∈ m
            ∧ Atoi (TrimPrefix version' ['v']) = some sc.Version)
      ∧ serviceResult referenceParse
          [ ("service.netflix.com/foo.vA.enabled".toList, "true".toList) ]
        = ([],
            [ "annotation has an incorrect service version number: service.netflix.com/foo.vA.enabled".toList ]) := by
  have hc := classify_bad_version parse k v name version param hp hs hbad
  obtain ⟨h1, h2⟩ := fail_entry parse m k v _ pConf hc hd hmem
  refine ⟨h1, h2, ?_, by decide⟩
  intro sc hsc
  rw [parseServiceAnnotations_eq] at hsc
  simp only [List.nil_append, List.mem_map] at hsc
  obtain ⟨⟨g, sc'⟩, hin, rfl⟩ := hsc
  obtain ⟨version', param', v', hmem', -, -, -, -, ha, -, -⟩ :=
    final_entry_origin parse m g sc' hin
  exact ⟨version', param', v', hmem', ha⟩

/-- C5 (amended) at a concrete input: the key `foo.vA.enabled` next to a valid
`svc.v2.enabled`. -/
theorem C5_bad_version_witness :
    (parseServiceAnnotations referenceParse
        [ ("service.netflix.com/foo.vA.enabled".toList, "true".toList),
          ("service.netflix.com/svc.v2.enabled".toList, "false".toList) ] {}).2.Perm
      (("annotation has an incorrect service version number: ".toList
          ++ "service.netflix.com/foo.vA.enabled".toList)
        :: (parseServiceAnnotations referenceParse
            (withoutKey
              [ ("service.netflix.com/foo.vA.enabled".toList, "true".toList),
                ("service.netflix.com/svc.v2.enabled".toList, "false".toList) ]
              "service.netflix.com/foo.vA.enabled".toList) {}).2) :=
  (C5_bad_version referenceParse
    [ ("service.netflix.com/foo.vA.enabled".toList, "true".toList),
      ("service.netflix.com/svc.v2.enabled".toList, "false".toList) ]
    "service.netflix.com/foo.vA.enabled".toList "true".toList
    "foo".toList "vA".toList "enabled".toList {}
    (by decide) (by decide) (by decide) (by decide) (by decide)).1

/-- C6: for every key that starts with the service prefix and whose remainder
after stripping `service.netflix.com/` does not split on `.` into exactly
three segments, the failure "annotation has an incorrect number of service
configuration parameters: <key>" is recorded, and the key contributes nothing
else: the failures are those of the map without the key plus this one, and the
Sidecars are, up to order, those of the map without the key. The key
`service.netflix.com/only-one-field` gives that failure and no record. -/
theorem C6_segment_count (parse : Str → Except Err Reference) (m : List (Str × Str))
    (k v : Str) (pConf : Config)
    (hd : keysDistinct m) (hmem : (k, v) ∈ m)
    (hp : HasPrefix k AnnotationKeyServicePrefix = true)
    (hs : (Split (TrimPrefix k (AnnotationKeyServicePrefix ++ ['/'])) '.').length ≠ 3) :
    (parseServiceAnnotations parse m pConf).2.Perm
        (("annotation has an incorrect number of service configuration parameters: ".toList
            ++ k)
          :: (parseServiceAnnotations parse (withoutKey m k) pConf).2)
      ∧ (parseServiceAnnotations parse m pConf).1.Sidecars.Perm
          (parseServiceAnnotations parse (withoutKey m k) pConf).1.Sidecars
      ∧ serviceResult referenceParse
          [ ("service.netflix.com/only-one-field".toList, "true".toList) ]
        = ([],
            [ "annotation has an incorrect number of service configuration parameters: service.netflix.com/only-one-field".toList ]) := by
  have hc := classify_bad_count parse k v hp hs
  obtain ⟨h1, h2⟩ := fail_entry parse m k v _ pConf hc hd hmem
  exact ⟨h1, h2, by decide⟩

/-- C6 at a concrete input: a key of four segments between the two keys of a
valid record. -/
theorem C6_segment_count_witness :
    (parseServiceAnnotations referenceParse
        [ ("service.netflix.com/svc.v2.enabled".toList, "true".toList),
          ("service.netflix.com/a.b.c.d".toList, "true".toList),
          ("service.netflix.com/svc.v2.image".toList,
            "registry/x:latest".toList) ] {}).1.Sidecars.Perm
        (parseServiceAnnotations referenceParse
          (withoutKey
            [ ("service.netflix.com/svc.v2.enabled".toList, "true".toList),
              ("service.netflix.com/a.b.c.d".toList, "true".toList),
              ("service.netflix.com/svc.v2.image".toList, "registry/x:latest".toList) ]
            "service.netflix.com/a.b.c.d".toList) {}).1.Sidecars :=
  (C6_segment_count referenceParse
    [ ("service.netflix.com/svc.v2.enabled".toList, "true".toList),
      ("service.netflix.com/a.b.c.d".toList, "true".toList),
      ("service.netflix.com/svc.v2.image".toList, "registry/x:latest".toList) ]
    "service.netflix.com/a.b.c.d".toList "true".toList {}
    (by decide) (by decide) (by decide) (by decide)).2.1

/-- C7: `validateImage` returns no error exactly when the string parses as a
reference that carries a tag or a digest; a reference with neither is rejected
with "image does not have a digest or tag", and a string that does not parse is
rejected with the error of the parser. On the reference grammar, `registry/x`
and `asdf` are rejected, `registry/x:latest` and a name with a sha256 digest
are accepted. -/
theorem C7_validateImage (parse : Str → Except Err Reference) (image : Str) :
    (validateImage parse image = none ↔
        ∃ ref, parse image = .ok ref ∧ (ref.tagged = true ∨ ref.digested = true))
      ∧ (∀ ref, parse image = .ok ref ∧ ref.tagged = false ∧ ref.digested = false →
          validateImage parse image = some "image does not have a digest or tag".toList)
      ∧ (∀ err, parse image = .error err → validateImage parse image = some err)
      ∧ validateImage referenceParse "registry/x".toList
          = some "image does not have a digest or tag".toList
      ∧ validateImage referenceParse "asdf".toList
          = some "image does not have a digest or tag".toList
      ∧ validateImage referenceParse "registry/x:latest".toList = none
      ∧ validateImage referenceParse
          "registry/x@sha256:5abd793cc69018e747cb8d4bc288f1df7b20747f91ec26da88f0fa4ba2ec46a1".toList
          = none := by
  refine ⟨?_, ?_, ?_, by decide, by decide, by decide, by decide⟩
  · unfold validateImage
    cases h : parse image with
    | error e => simp
    | ok ref =>
      cases ht : ref.tagged <;> cases hg : ref.digested <;> simp [ht, hg]
  · rintro ref ⟨h, ht, hg⟩
    unfold validateImage
    rw [h]
    simp [ht, hg, msgNoDigestOrTag]
  · intro err h
    unfold validateImage
    rw [h]

/-- C8, as stated, fails: when the number after `v` does not fit `int`, the
key records the version failure and the image is never validated, so the
image failure is not recorded. -/
theorem C8_counterexample :
    serviceResult referenceParse
        [ ("service.netflix.com/foo.v9223372036854775808.image".toList, "asdf".toList) ]
      = ([],
          [ "annotation has an incorrect service version number: service.netflix.com/foo.v9223372036854775808.image".toList ]) := by
  decide

/-- C8 (amended): for every key `service.netflix.com/<name>.v<ds>.image` whose
digits `ds` denote a number that fits `int` and whose value `validateImage`
rejects with reason `r`, the failure "error parsing service image annotation:
<key>: <r>" is recorded and the key changes no record: the failures are those
of the map without the key plus this one, the Sidecars are, up to order, those
of the map without the key, the record stored for `name.v<ds>`, when there is one, has an
empty Image, and when the sibling `enabled` key has a valid boolean the output
holds the record with that flag and an empty Image. The key `foo.v1.image`
with value `asdf` gives the failure of the test. -/
theorem C8_bad_image (parse : Str → Except Err Reference) (m : List (Str × Str))
    (name ds v r : Str) (pConf : Config)
    (hd : keysDistinct m) (hname : '.' ∉ name)
    (hne : ds ≠ []) (hdig : ∀ c ∈ ds, c.isDigit = true) (hfit : decimalValue ds < 2 ^ 63)
    (hmem : (serviceKey name ('v' :: ds) "image".toList, v) ∈ m)
    (hr : validateImage parse v = some r) :
    (parseServiceAnnotations parse m pConf).2.Perm
        (("error parsing service image annotation: ".toList
            ++ serviceKey name ('v' :: ds) "image".toList ++ ": ".toList ++ r)
          :: (parseServiceAnnotations parse
                (withoutKey m (serviceKey name ('v' :: ds) "image".toList)) pConf).2)
      ∧ (parseServiceAnnotations parse m pConf).1.Sidecars.Perm
          (parseServiceAnnotations parse
                (withoutKey m (serviceKey name ('v' :: ds) "image".toList)) pConf).1.Sidecars
      ∧ (∀ sc, mapLookup (serviceLoop parse m ([], [])).2 (name ++ '.' :: 'v' :: ds) = some sc →
          sc.Image = [])
      ∧ (∀ b bv, (serviceKey name ('v' :: ds) "enabled".toList, b) ∈ m →
          ParseBool b = some bv →
          ({ Name := name, Version := decimalValue ds, Enabled := bv, Image := [] } : Sidecar)
            ∈ (parseServiceAnnotations parse m {}).1.Sidecars)
      ∧ serviceResult referenceParse
          [ ("service.netflix.com/foo.v1.image".toList, "asdf".toList) ]
        = ([],
            [ "error parsing service image annotation: service.netflix.com/foo.v1.image: image does not have a digest or tag".toList ]) := by
  have hv : '.' ∉ ('v' :: ds) := by
    intro h
    rcases List.mem_cons.1 h with h | h
    · exact absurd h (by decide)
    · exact not_mem_of_digits ds hdig h
  have ha := Atoi_version ds hne hdig hfit
  have hc := serviceKey_classify parse name ('v' :: ds) "image".toList v _ hname hv
    (by decide) ha
  rw [if_neg (by decide), if_pos rfl, hr] at hc
  simp only at hc
  obtain ⟨h1, h2⟩ := fail_entry parse m _ v _ pConf hc hd hmem
  have hprops : ∀ m' : List (Str × Str), (∀ kv ∈ m', kv ∈ m) → ∀ sc,
      m'.foldl (groupStep parse (name ++ '.' :: 'v' :: ds)) none = some sc →
      sc.Name = name ∧ sc.Version = decimalValue ds ∧ sc.Image = [] := by
    intro m' hsub
    refine group_props parse m name ('v' :: ds) _
      (fun sc => sc.Name = name ∧ sc.Version = decimalValue ds ∧ sc.Image = [])
      hname ha ⟨rfl, rfl, rfl⟩ ?_ ?_ m' hsub none (fun sc h => Option.noConfusion h)
    · intro b bv _ _ sc h
      exact h
    · intro i hi hval
      have := value_unique m _ _ _ hd hi hmem
      subst this
      rw [hr] at hval
      exact Option.noConfusion hval
  refine ⟨h1, h2, ?_, ?_, by decide⟩
  · intro sc hsc
    rw [serviceLoop_eq parse m [] [] Inv_nil, mapLookup_foldl] at hsc
    exact (hprops m (fun _ h => h) sc hsc).2.2
  · intro b bv hb hbv
    have hcE := serviceKey_classify parse name ('v' :: ds) "enabled".toList b _ hname hv
      (by decide) ha
    rw [if_pos rfl, hbv] at hcE
    simp only at hcE
    have hl := group_after_entry parse m _ b _ _ _ hd hb hcE
    refine mem_sidecars_of_lookup parse m (name ++ '.' :: 'v' :: ds) _ ?_
    rw [hl]
    cases ho : (withoutKey m (serviceKey name ('v' :: ds) "enabled".toList)).foldl
        (groupStep parse (name ++ '.' :: 'v' :: ds)) none with
    | none => rfl
    | some sc =>
      obtain ⟨e1, e2, e3⟩ := hprops _ (fun kv h => mem_withoutKey m _ kv h) sc ho
      cases sc
      simp only at e1 e2 e3
      subst e1 e2 e3
      rfl

/-- C8 (amended) at a concrete input: `foo.v1.image = asdf` next to
`foo.v1.enabled = true`; the record keeps the flag and has no image. -/
theorem C8_bad_image_witness :
    ({ Name := "foo".toList, Version := decimalValue "1".toList, Enabled := true,
       Image := [] } : Sidecar)
      ∈ (parseServiceAnnotations referenceParse
          [ ("service.netflix.com/foo.v1.image".toList, "asdf".toList),
            ("service.netflix.com/foo.v1.enabled".toList, "true".toList) ] {}).1.Sidecars :=
  (C8_bad_image referenceParse
    [ ("service.netflix.com/foo.v1.image".toList, "asdf".toList),
      ("service.netflix.com/foo.v1.enabled".toList, "true".toList) ]
    "foo".toList "1".toList "asdf".toList "image does not have a digest or tag".toList {}
    (by decide) (by decide) (by decide) (by decide) (by decide) (by decide)
    (by decide)).2.2.2.1 "true".toList true (by decide) (by decide)

/-- C9, as stated, fails: when the number after `v` does not fit `int`, the
key records the version failure and the value is never parsed as a boolean, so
the boolean failure is not recorded, and the valid sibling `image` key gives
no record either. -/
theorem C9_counterexample :
    serviceResult referenceParse
        [ ("service.netflix.com/foo.v9223372036854775808.enabled".toList, "asdf".toList),
          ("service.netflix.com/foo.v9223372036854775808.image".toList,
            "registry/x:latest".toList) ]
      = ([],
          [ "annotation has an incorrect service version number: service.netflix.com/foo.v9223372036854775808.enabled".toList,
            "annotation has an incorrect service version number: service.netflix.com/foo.v9223372036854775808.image".toList ]) := by
  decide

/-- C9 (amended): for every key `service.netflix.com/<name>.v<ds>.enabled`
whose digits `ds` denote a number that fits `int` and whose value is not a
valid boolean text, the failure "annotation has an incorrect service enabled
boolean value: <key>" is recorded and the Enabled flag is left as it is: the
failures are those of the map without the key plus this one, the Sidecars are,
up to order, those of the map without the key, the record stored for `name.v<ds>`, when
there is one, has Enabled = false, and when the sibling `image` key is valid
the output holds the record with that Image and Enabled = false, in whatever
order the keys are visited. -/
theorem C9_bad_enabled (parse : Str → Except Err Reference) (m : List (Str × Str))
    (name ds v : Str) (pConf : Config)
    (hd : keysDistinct m) (hname : '.' ∉ name)
    (hne : ds ≠ []) (hdig : ∀ c ∈ ds, c.isDigit = true) (hfit : decimalValue ds < 2 ^ 63)
    (hmem : (serviceKey name ('v' :: ds) "enabled".toList, v) ∈ m)
    (hbad : ParseBool v = none) :
    (parseServiceAnnotations parse m pConf).2.Perm
        (("annotation has an incorrect service enabled boolean value: ".toList
            ++ serviceKey name ('v' :: ds) "enabled".toList)
          :: (parseServiceAnnotations parse
                (withoutKey m (serviceKey name ('v' :: ds) "enabled".toList)) pConf).2)
      ∧ (parseServiceAnnotations parse m pConf).1.Sidecars.Perm
          (parseServiceAnnotations parse
                (withoutKey m (serviceKey name ('v' :: ds) "enabled".toList)) pConf).1.Sidecars
      ∧ (∀ sc, mapLookup (serviceLoop parse m ([], [])).2 (name ++ '.' :: 'v' :: ds) = some sc →
          sc.Enabled = false)
      ∧ (∀ i, (serviceKey name ('v' :: ds) "image".toList, i) ∈ m →
          validateImage parse i = none →
          ({ Name := name, Version := decimalValue ds, Enabled := false, Image := i } : Sidecar)
            ∈ (parseServiceAnnotations parse m {}).1.Sidecars)
      ∧ serviceResult referenceParse
          [ ("service.netflix.com/foo.v1.enabled".toList, "asdf".toList),
            ("service.netflix.com/foo.v1.image".toList, "registry/x:latest".toList) ]
        = ([ { Name := "foo".toList, Version := 1, Enabled := false,
                             Image := "registry/x:latest".toList } ],
            [ "annotation has an incorrect service enabled boolean value: service.netflix.com/foo.v1.enabled".toList ])
      ∧ serviceResult referenceParse
          [ ("service.netflix.com/foo.v1.image".toList, "registry/x:latest".toList),
            ("service.netflix.com/foo.v1.enabled".toList, "asdf".toList) ]
        = ([ { Name := "foo".toList, Version := 1, Enabled := false,
                             Image := "registry/x:latest".toList } ],
            [ "annotation has an incorrect service enabled boolean value: service.netflix.com/foo.v1.enabled".toList ]) := by
  have hv : '.' ∉ ('v' :: ds) := by
    intro h
    rcases List.mem_cons.1 h with h | h
    · exact absurd h (by decide)
    · exact not_mem_of_digits ds hdig h
  have ha := Atoi_version ds hne hdig hfit
  have hc := serviceKey_classify parse name ('v' :: ds) "enabled".toList v _ hname hv
    (by decide) ha
  rw [if_pos rfl, hbad] at hc
  simp only at hc
  obtain ⟨h1, h2⟩ := fail_entry parse m _ v _ pConf hc hd hmem
  have hprops : ∀ m' : List (Str × Str), (∀ kv ∈ m', kv ∈ m) → ∀ sc,
      m'.foldl (groupStep parse (name ++ '.' :: 'v' :: ds)) none = some sc →
      sc.Name = name ∧ sc.Version = decimalValue ds ∧ sc.Enabled = false := by
    intro m' hsub
    refine group_props parse m name ('v' :: ds) _
      (fun sc => sc.Name = name ∧ sc.Version = decimalValue ds ∧ sc.Enabled = false)
      hname ha ⟨rfl, rfl, rfl⟩ ?_ ?_ m' hsub none (fun sc h => Option.noConfusion h)
    · intro b bv hb hbv
      have := value_unique m _ _ _ hd hb hmem
      subst this
      rw [hbad] at hbv
      exact Option.noConfusion hbv
    · intro i _ _ sc h
      exact h
  refine ⟨h1, h2, ?_, ?_, by decide, by decide⟩
  · intro sc hsc
    rw [serviceLoop_eq parse m [] [] Inv_nil, mapLookup_foldl] at hsc
    exact (hprops m (fun _ h => h) sc hsc).2.2
  · intro i hi hval
    have hcI := serviceKey_classify parse name ('v' :: ds) "image".toList i _ hname hv
      (by decide) ha
    rw [if_neg (by decide), if_pos rfl, hval] at hcI
    simp only at hcI
    have hl := group_after_entry parse m _ i _ _ _ hd hi hcI
    refine mem_sidecars_of_lookup parse m (name ++ '.' :: 'v' :: ds) _ ?_
    rw [hl]
    cases ho : (withoutKey m (serviceKey name ('v' :: ds) "image".toList)).foldl
        (groupStep parse (name ++ '.' :: 'v' :: ds)) none with
    | none => rfl
    | some sc =>
      obtain ⟨e1, e2, e3⟩ := hprops _ (fun kv h => mem_withoutKey m _ kv h) sc ho
      cases sc
      simp only at e1 e2 e3
      subst e1 e2 e3
      rfl

/-- C9 (amended) at a concrete input: `foo.v1.enabled = asdf` visited after a
valid `foo.v1.image`. -/
theorem C9_bad_enabled_witness :
    ({ Name := "foo".toList, Version := decimalValue "1".toList, Enabled := false,
       Image := "registry/x:latest".toList } : Sidecar)
      ∈ (parseServiceAnnotations referenceParse
          [ ("service.netflix.com/foo.v1.image".toList, "registry/x:latest".toList),
            ("service.netflix.com/foo.v1.enabled".toList, "asdf".toList) ] {}).1.Sidecars :=
  (C9_bad_enabled referenceParse
    [ ("service.netflix.com/foo.v1.image".toList, "registry/x:latest".toList),
      ("service.netflix.com/foo.v1.enabled".toList, "asdf".toList) ]
    "foo".toList "1".toList "asdf".toList {}
    (by decide) (by decide) (by decide) (by decide) (by decide) (by decide)
    (by decide)).2.2.2.1 "registry/x:latest".toList (by decide) (by decide)

/-- C10, as stated, fails: a key whose third segment is neither `enabled` nor
`image` records no failure, but it stores a record for its name and version,
which the empty map does not have. -/
theorem C10_counterexample :
    serviceResult referenceParse
        [ ("service.netflix.com/foo.v1.other".toList, "x".toList) ]
      = ([ { Name := "foo".toList, Version := 1, Enabled := false,
                           Image := [] } ], [])
    ∧ serviceResult referenceParse [] = ([], []) := by
  constructor
  · decide
  · decide

/-- C10 (amended): a three-segment service key with a valid version segment
whose third segment is neither `enabled` nor `image` records no failure and
writes no field, but it does store the record of its group: the failures are
those of the map without the key; when the map without the key already gives
the group `name.version` a record, the Sidecars are the same, up to order, as
without the key, and otherwise they are those without the key plus the record
with that name and version number, Enabled = false and an empty Image. -/
theorem C10_other_param (parse : Str → Except Err Reference) (m : List (Str × Str))
    (name version param v : Str) (n : Int) (pConf : Config)
    (hd : keysDistinct m) (hname : '.' ∉ name) (hv : '.' ∉ version) (hpa : '.' ∉ param)
    (ha : Atoi (TrimPrefix version ['v']) = some n)
    (hE : param ≠ "enabled".toList) (hI : param ≠ "image".toList)
    (hmem : (serviceKey name version param, v) ∈ m) :
    (parseServiceAnnotations parse m pConf).2.Perm
        (parseServiceAnnotations parse (withoutKey m (serviceKey name version param)) pConf).2
      ∧ ((mapLookup (serviceLoop parse (withoutKey m (serviceKey name version param))
              ([], [])).2 (name ++ '.' :: version)).isSome = true →
          (parseServiceAnnotations parse m pConf).1.Sidecars.Perm
            (parseServiceAnnotations parse
              (withoutKey m (serviceKey name version param)) pConf).1.Sidecars)
      ∧ (mapLookup (serviceLoop parse (withoutKey m (serviceKey name version param))
              ([], [])).2 (name ++ '.' :: version) = none →
          (parseServiceAnnotations parse m pConf).1.Sidecars.Perm
            ((parseServiceAnnotations parse
                (withoutKey m (serviceKey name version param)) pConf).1.Sidecars
              ++ [{ Name := name, Version := n, Enabled := false, Image := [] }])) := by
  have hc := serviceKey_classify parse name version param v n hname hv hpa ha
  rw [if_neg hE, if_neg hI] at hc
  have hstep : ∀ s, specStep parse s (serviceKey name version param, v)
      = mapStore s (name ++ '.' :: version)
          ((mapLookup s (name ++ '.' :: version)).getD
            { Name := name, Version := n, Enabled := false, Image := [] }) := by
    intro s
    simp [specStep, hc, Upd.apply]
  have hperm := sidecars_without parse m _ v hd hmem
  rw [hstep] at hperm
  rw [parseServiceAnnotations_eq, parseServiceAnnotations_eq,
    serviceLoop_eq parse _ [] [] Inv_nil]
  unfold withoutKey at *
  refine ⟨?_, ?_, ?_⟩
  · have h := failures_without parse m _ v hd hmem
    have hf : failureOf parse (serviceKey name version param, v) = none := by
      simp [failureOf, hc]
    rw [hf] at h
    exact h
  · intro hsome
    obtain ⟨sc, hsc⟩ := Option.isSome_iff_exists.1 hsome
    simp only at hsc
    rw [hsc, Option.getD_some, mapStore_self _ _ _ hsc] at hperm
    exact (hperm.map Prod.snd).append_left _
  · intro hnone
    simp only at hnone
    rw [hnone, Option.getD_none, mapStore_of_none _ _ _ hnone] at hperm
    have h := (hperm.map Prod.snd).append_left pConf.Sidecars
    simpa [List.map_append, List.append_assoc] using h

/-- C10 (amended) at a concrete input: `foo.v1.other` next to a valid
`foo.v1.enabled`; the failures are those of the map without the key. -/
theorem C10_other_param_witness :
    (parseServiceAnnotations referenceParse
        [ ("service.netflix.com/foo.v1.other".toList, "x".toList),
          ("service.netflix.com/foo.v1.enabled".toList, "true".toList) ] {}).2.Perm
      (parseServiceAnnotations referenceParse
        (withoutKey
          [ ("service.netflix.com/foo.v1.other".toList, "x".toList),
            ("service.netflix.com/foo.v1.enabled".toList, "true".toList) ]
          (serviceKey "foo".toList "v1".toList "other".toList)) {}).2 :=
  (C10_other_param referenceParse
    [ ("service.netflix.com/foo.v1.other".toList, "x".toList),
      ("service.netflix.com/foo.v1.enabled".toList, "true".toList) ]
    "foo".toList "v1".toList "other".toList "x".toList 1 {}
    (by decide) (by decide) (by decide) (by decide) (by decide) (by decide) (by decide)
    (by decide)).1

/-! ## Claims about the scalar parser -/

/-! ## C11 -/

/-- C11: for every value `v` of `pod.netflix.com/oom-score-adj`, when `v` is a
strict base-10 integer text (an optional single sign followed by one or more
decimal digits) denoting `n` with `-2^31 ≤ n ≤ 2^31-1`, `OomScoreAdj` is set to
`n` and the failure for the key is not recorded; for every other `v` the field
is left as it was and the combined error holds
`annotation is not a valid int32 value: pod.netflix.com/oom-score-adj`; so,
starting from an unset field, `OomScoreAdj` is set to `n` exactly when `v`
denotes `n` in that range. -/
theorem C11_oomScoreAdj (lib : Lib) (userCtrName : Str) (m : List (Str × Str)) (c : Config)
    (v : Str) (hv : mapLookup m AnnotationKeyPodOomScoreAdj = some v) :
    (∀ n : Int, denotesInt v n = true → -(2 ^ 31 : Int) ≤ n → n ≤ 2 ^ 31 - 1 →
        (parseAnnotations lib userCtrName m c).1.OomScoreAdj = some n
          ∧ msgInt32 ++ AnnotationKeyPodOomScoreAdj
              ∉ errorEntries (parseAnnotations lib userCtrName m c).2)
      ∧ ((∀ n : Int, ¬ (denotesInt v n = true ∧ -(2 ^ 31 : Int) ≤ n ∧ n ≤ 2 ^ 31 - 1)) →
          (parseAnnotations lib userCtrName m c).1.OomScoreAdj = c.OomScoreAdj
            ∧ msgInt32 ++ AnnotationKeyPodOomScoreAdj
                ∈ errorEntries (parseAnnotations lib userCtrName m c).2)
      ∧ (c.OomScoreAdj = none → ∀ n : Int,
          ((parseAnnotations lib userCtrName m c).1.OomScoreAdj = some n
            ↔ denotesInt v n = true ∧ -(2 ^ 31 : Int) ≤ n ∧ n ≤ 2 ^ 31 - 1)) := by
  have hg : (msgInt32, keyFailure (fun v => ParseInt v 32) msgInt32 m
      AnnotationKeyPodOomScoreAdj) ∈ failureGroups lib userCtrName m c := by
    simp [failureGroups]
  have hmem := mem_entries_of_group lib userCtrName m c _ _ AnnotationKeyPodOomScoreAdj hg
  have hfail : msgInt32 ++ AnnotationKeyPodOomScoreAdj
      ∈ errorEntries (parseAnnotations lib userCtrName m c).2 ↔ ParseInt v 32 = none := by
    rw [hmem, mem_keyFailure, hv]
    simp
  have hfield : (parseAnnotations lib userCtrName m c).1.OomScoreAdj
      = match ParseInt v 32 with
        | some n => some (toInt32 n)
        | none => c.OomScoreAdj := by
    rw [parseAnnotations_OomScoreAdj, hv]
    rfl
  have hsome : ∀ n : Int, ParseInt v 32 = some n
      ↔ denotesInt v n = true ∧ -(2 ^ 31 : Int) ≤ n ∧ n ≤ 2 ^ 31 - 1 := fun n =>
    ParseInt_eq_some v 32 n
  refine ⟨?_, ?_, ?_⟩
  · intro n h1 h2 h3
    have hp : ParseInt v 32 = some n := (hsome n).2 ⟨h1, h2, h3⟩
    refine ⟨?_, ?_⟩
    · rw [hfield, hp]
      simp only [toInt32_of_range n h2 h3]
    · rw [hfail, hp]
      simp
  · intro hno
    have hp : ParseInt v 32 = none := by
      cases h : ParseInt v 32 with
      | none => rfl
      | some n => exact absurd ((hsome n).1 h) (hno n)
    exact ⟨by rw [hfield, hp], hfail.2 hp⟩
  · intro hc n
    rw [hfield]
    cases h : ParseInt v 32 with
    | none =>
      simp only [hc]
      constructor
      · intro h'; cases h'
      · intro h'
        rw [(hsome n).2 h'] at h
        cases h
    | some k =>
      obtain ⟨-, k1, k2⟩ := (hsome k).1 h
      simp only [toInt32_of_range k k1 k2, Option.some.injEq]
      constructor
      · rintro rfl
        exact (hsome k).1 h
      · intro h'
        have := (hsome n).2 h'
        rw [h] at this
        exact Option.some.inj this

/-- C11, the two scenarios: `-800` gives -800 and a nil error; `foo` leaves
the field unset and gives the failure. -/
theorem C11_oomScoreAdj_witness :
    ((parseAnnotations testLib "main".toList
        [(AnnotationKeyPodOomScoreAdj, "-800".toList)] {}).1.OomScoreAdj = some (-800)
      ∧ msgInt32 ++ AnnotationKeyPodOomScoreAdj
          ∉ errorEntries (parseAnnotations testLib "main".toList
              [(AnnotationKeyPodOomScoreAdj, "-800".toList)] {}).2)
    ∧ (parseAnnotations testLib "main".toList
        [(AnnotationKeyPodOomScoreAdj, "-800".toList)] {}).2 = none
    ∧ ((parseAnnotations testLib "main".toList
        [(AnnotationKeyPodOomScoreAdj, "foo".toList)] {}).1.OomScoreAdj = none
      ∧ msgInt32 ++ AnnotationKeyPodOomScoreAdj
          ∈ errorEntries (parseAnnotations testLib "main".toList
              [(AnnotationKeyPodOomScoreAdj, "foo".toList)] {}).2) :=
  ⟨(C11_oomScoreAdj testLib "main".toList [(AnnotationKeyPodOomScoreAdj, "-800".toList)] {}
      "-800".toList (by decide)).1 (-800) (by decide) (by decide) (by decide),
    by decide,
    (C11_oomScoreAdj testLib "main".toList [(AnnotationKeyPodOomScoreAdj, "foo".toList)] {}
      "foo".toList (by decide)).2.1 (fun n h => absurd h.1 (by simp [denotesInt, isDecimal]))⟩

/-! ## C12 -/

/-- C12: the unsigned fields enforce their width. For
`pod.netflix.com/pod-schema-version` (32 bits) and
`v3.job.titus.netflix.com/accepted-timestamp-ms` (64 bits): when the value is
a non-empty string of decimal digits denoting `n < 2^w`, the field is set to
`n` itself (the conversion does not truncate) and the failure for the key is
not recorded; for every other value the field is left as it was and the
combined error holds `annotation is not a valid uint32 value: <key>`,
respectively `uint64`. -/
theorem C12_unsigned_width (lib : Lib) (userCtrName : Str) (m : List (Str × Str))
    (c : Config) :
    (∀ v, mapLookup m AnnotationKeyPodSchemaVersion = some v →
      (isDecimal v = true ∧ decimalValue v < 2 ^ 32 →
        (parseAnnotations lib userCtrName m c).1.PodSchemaVersion = some (decimalValue v)
          ∧ msgUint32 ++ AnnotationKeyPodSchemaVersion
              ∉ errorEntries (parseAnnotations lib userCtrName m c).2)
      ∧ (¬ (isDecimal v = true ∧ decimalValue v < 2 ^ 32) →
        (parseAnnotations lib userCtrName m c).1.PodSchemaVersion = c.PodSchemaVersion
          ∧ msgUint32 ++ AnnotationKeyPodSchemaVersion
              ∈ errorEntries (parseAnnotations lib userCtrName m c).2))
    ∧ (∀ v, mapLookup m AnnotationKeyJobAcceptedTimestampMs = some v →
      (isDecimal v = true ∧ decimalValue v < 2 ^ 64 →
        (parseAnnotations lib userCtrName m c).1.JobAcceptedTimestampMs
            = some (decimalValue v)
          ∧ msgUint64 ++ AnnotationKeyJobAcceptedTimestampMs
              ∉ errorEntries (parseAnnotations lib userCtrName m c).2)
      ∧ (¬ (isDecimal v = true ∧ decimalValue v < 2 ^ 64) →
        (parseAnnotations lib userCtrName m c).1.JobAcceptedTimestampMs
            = c.JobAcceptedTimestampMs
          ∧ msgUint64 ++ AnnotationKeyJobAcceptedTimestampMs
              ∈ errorEntries (parseAnnotations lib userCtrName m c).2)) := by
  constructor
  · intro v hv
    have hg : (msgUint32, keyFailure (fun v => ParseUint v 32) msgUint32 m
        AnnotationKeyPodSchemaVersion) ∈ failureGroups lib userCtrName m c := by
      simp [failureGroups]
    have hfail : msgUint32 ++ AnnotationKeyPodSchemaVersion
        ∈ errorEntries (parseAnnotations lib userCtrName m c).2 ↔ ParseUint v 32 = none := by
      rw [mem_entries_of_group lib userCtrName m c _ _ AnnotationKeyPodSchemaVersion hg,
        mem_keyFailure, hv]
      simp
    have hfield : (parseAnnotations lib userCtrName m c).1.PodSchemaVersion
        = match ParseUint v 32 with
          | some n => some (toUint32 n)
          | none => c.PodSchemaVersion := by
      rw [parseAnnotations_PodSchemaVersion, hv]
      rfl
    constructor
    · rintro ⟨h1, h2⟩
      have hp : ParseUint v 32 = some (decimalValue v) :=
        (ParseUint_eq_some v 32 _).2 ⟨h1, rfl, h2⟩
      refine ⟨?_, ?_⟩
      · rw [hfield, hp]
        simp only [toUint32_of_lt _ h2]
      · rw [hfail, hp]
        simp
    · intro hno
      have hp : ParseUint v 32 = none := (ParseUint_eq_none v 32).2 hno
      exact ⟨by rw [hfield, hp], hfail.2 hp⟩
  · intro v hv
    have hg : (msgUint64, keyFailure (fun v => ParseUint v 64) msgUint64 m
        AnnotationKeyJobAcceptedTimestampMs) ∈ failureGroups lib userCtrName m c := by
      simp [failureGroups]
    have hfail : msgUint64 ++ AnnotationKeyJobAcceptedTimestampMs
        ∈ errorEntries (parseAnnotations lib userCtrName m c).2 ↔ ParseUint v 64 = none := by
      rw [mem_entries_of_group lib userCtrName m c _ _ AnnotationKeyJobAcceptedTimestampMs hg,
        mem_keyFailure, hv]
      simp
    have hfield : (parseAnnotations lib userCtrName m c).1.JobAcceptedTimestampMs
        = match ParseUint v 64 with
          | some n => some (toUint64 n)
          | none => c.JobAcceptedTimestampMs := by
      rw [parseAnnotations_JobAcceptedTimestampMs, hv]
      rfl
    constructor
    · rintro ⟨h1, h2⟩
      have hp : ParseUint v 64 = some (decimalValue v) :=
        (ParseUint_eq_some v 64 _).2 ⟨h1, rfl, h2⟩
      refine ⟨?_, ?_⟩
      · rw [hfield, hp]
        simp only [toUint64_of_lt _ h2]
      · rw [hfail, hp]
        simp
    · intro hno
      have hp : ParseUint v 64 = none := (ParseUint_eq_none v 64).2 hno
      exact ⟨by rw [hfield, hp], hfail.2 hp⟩

/-- C12 on the values of the claim: the largest 32-bit number is stored
unchanged; `4294967296`, `-2` and the empty string fail for the 32-bit key, and
`-5` fails for the 64-bit key. -/
theorem C12_unsigned_width_witness :
    (parseAnnotations testLib "main".toList
        [(AnnotationKeyPodSchemaVersion, "4294967295".toList)] {}).1.PodSchemaVersion
      = some 4294967295
    ∧ ((parseAnnotations testLib "main".toList
          [(AnnotationKeyPodSchemaVersion, "4294967296".toList)] {}).1.PodSchemaVersion = none
      ∧ msgUint32 ++ AnnotationKeyPodSchemaVersion
          ∈ errorEntries (parseAnnotations testLib "main".toList
              [(AnnotationKeyPodSchemaVersion, "4294967296".toList)] {}).2)
    ∧ ((parseAnnotations testLib "main".toList
          [(AnnotationKeyPodSchemaVersion, "-2".toList)] {}).1.PodSchemaVersion = none
      ∧ msgUint32 ++ AnnotationKeyPodSchemaVersion
          ∈ errorEntries (parseAnnotations testLib "main".toList
              [(AnnotationKeyPodSchemaVersion, "-2".toList)] {}).2)
    ∧ ((parseAnnotations testLib "main".toList
          [(AnnotationKeyPodSchemaVersion, [])] {}).1.PodSchemaVersion = none
      ∧ msgUint32 ++ AnnotationKeyPodSchemaVersion
          ∈ errorEntries (parseAnnotations testLib "main".toList
              [(AnnotationKeyPodSchemaVersion, [])] {}).2)
    ∧ ((parseAnnotations testLib "main".toList
          [(AnnotationKeyJobAcceptedTimestampMs, "-5".toList)] {}).1.JobAcceptedTimestampMs = none
      ∧ msgUint64 ++ AnnotationKeyJobAcceptedTimestampMs
          ∈ errorEntries (parseAnnotations testLib "main".toList
              [(AnnotationKeyJobAcceptedTimestampMs, "-5".toList)] {}).2) :=
  ⟨((C12_unsigned_width testLib "main".toList
      [(AnnotationKeyPodSchemaVersion, "4294967295".toList)] {}).1 "4294967295".toList
      (by decide)).1 (by decide) |>.1,
    ((C12_unsigned_width testLib "main".toList
      [(AnnotationKeyPodSchemaVersion, "4294967296".toList)] {}).1 "4294967296".toList
      (by decide)).2 (by decide),
    ((C12_unsigned_width testLib "main".toList
      [(AnnotationKeyPodSchemaVersion, "-2".toList)] {}).1 "-2".toList
      (by decide)).2 (by decide),
    ((C12_unsigned_width testLib "main".toList
      [(AnnotationKeyPodSchemaVersion, [])] {}).1 [] (by decide)).2 (by decide),
    ((C12_unsigned_width testLib "main".toList
      [(AnnotationKeyJobAcceptedTimestampMs, "-5".toList)] {}).2 "-5".toList
      (by decide)).2 (by decide)⟩

/-! ## C13 -/

theorem ParseBool_cases (v : Str) :
    (v ∈ ["1".toList, "t".toList, "T".toList, "TRUE".toList, "true".toList, "True".toList]
        → ParseBool v = some true)
      ∧ (v ∈ ["0".toList, "f".toList, "F".toList, "FALSE".toList, "false".toList,
            "False".toList] → ParseBool v = some false)
      ∧ (v ∉ ["1".toList, "t".toList, "T".toList, "TRUE".toList, "true".toList, "True".toList,
            "0".toList, "f".toList, "F".toList, "FALSE".toList, "false".toList,
            "False".toList] → ParseBool v = none) := by
  refine ⟨?_, ?_, ?_⟩
  · intro h
    simp only [List.mem_cons, List.mem_singleton, List.not_mem_nil, or_false] at h
    rcases h with rfl | rfl | rfl | rfl | rfl | rfl <;> decide
  · intro h
    simp only [List.mem_cons, List.mem_singleton, List.not_mem_nil, or_false] at h
    rcases h with rfl | rfl | rfl | rfl | rfl | rfl <;> decide
  · intro h
    simp only [List.mem_cons, List.mem_singleton, List.not_mem_nil, or_false, not_or] at h
    obtain ⟨h1, h2, h3, h4, h5, h6, h7, h8, h9, h10, h11, h12⟩ := h
    unfold ParseBool
    rw [if_neg (by tauto), if_neg (by tauto)]

/-- C13: the table has nine boolean keys, and for each of them and every
value `v`: the field is set to true when `v` is one of `1`, `t`, `T`, `TRUE`,
`true`, `True`, to false when `v` is one of `0`, `f`, `F`, `FALSE`, `false`,
`False` (no failure for the key being recorded in either case), and for any
other text the field is left as it was and the combined error holds
`annotation is not a valid boolean value: <key>`. -/
theorem C13_boolean_keys (lib : Lib) (userCtrName : Str) (m : List (Str × Str)) (c : Config) :
    boolAnnotations.length = 9
      ∧ ∀ an ∈ boolAnnotations, ∀ v, mapLookup m an.1 = some v →
        (v ∈ ["1".toList, "t".toList, "T".toList, "TRUE".toList, "true".toList,
              "True".toList] →
            (parseAnnotations lib userCtrName m c).1.bools an.2 = some true
              ∧ msgBool ++ an.1 ∉ errorEntries (parseAnnotations lib userCtrName m c).2)
        ∧ (v ∈ ["0".toList, "f".toList, "F".toList, "FALSE".toList, "false".toList,
              "False".toList] →
            (parseAnnotations lib userCtrName m c).1.bools an.2 = some false
              ∧ msgBool ++ an.1 ∉ errorEntries (parseAnnotations lib userCtrName m c).2)
        ∧ (v ∉ ["1".toList, "t".toList, "T".toList, "TRUE".toList, "true".toList,
              "True".toList, "0".toList, "f".toList, "F".toList, "FALSE".toList,
              "false".toList, "False".toList] →
            (parseAnnotations lib userCtrName m c).1.bools an.2 = c.bools an.2
              ∧ msgBool ++ an.1 ∈ errorEntries (parseAnnotations lib userCtrName m c).2) := by
  refine ⟨rfl, ?_⟩
  intro an han v hv
  have hg : (msgBool, tableFailures ParseBool msgBool m boolAnnotations)
      ∈ failureGroups lib userCtrName m c := by
    simp [failureGroups]
  have hfail : msgBool ++ an.1 ∈ errorEntries (parseAnnotations lib userCtrName m c).2
      ↔ ParseBool v = none := by
    rw [mem_entries_of_group lib userCtrName m c _ _ an.1 hg, mem_tableFailures]
    constructor
    · rintro ⟨an1, -, val, hl, hp, he⟩
      have hk : an.1 = an1.1 := List.append_cancel_left he
      rw [← hk, hv] at hl
      rw [Option.some.inj hl]
      exact hp
    · intro hp
      exact ⟨an, han, v, hv, hp, rfl⟩
  obtain ⟨ht, hf, hn⟩ := ParseBool_cases v
  rw [parseAnnotations_bools]
  refine ⟨?_, ?_, ?_⟩
  · intro h
    refine ⟨fieldsAfter_set ParseBool m _ _ an boolFields_nodup han v true hv (ht h), ?_⟩
    rw [hfail, ht h]
    simp
  · intro h
    refine ⟨fieldsAfter_set ParseBool m _ _ an boolFields_nodup han v false hv (hf h), ?_⟩
    rw [hfail, hf h]
    simp
  · intro h
    exact ⟨fieldsAfter_bad ParseBool m _ _ an boolFields_nodup han v hv (hn h),
      hfail.2 (hn h)⟩

/-- C13 on the values of the tests: `yes` for the first key and `bad` for the
last key fail, `True` sets the field. -/
theorem C13_boolean_keys_witness :
    ((parseAnnotations testLib "main".toList
          [(AnnotationKeyLogKeepLocalFile, "yes".toList)] {}).1.bools
          BoolField.LogKeepLocalFile = none
      ∧ msgBool ++ AnnotationKeyLogKeepLocalFile
          ∈ errorEntries (parseAnnotations testLib "main".toList
              [(AnnotationKeyLogKeepLocalFile, "yes".toList)] {}).2)
    ∧ ((parseAnnotations testLib "main".toList
          [(AnnotationKeyPodSeccompAgentPerfEnabled, "bad".toList)] {}).1.bools
          BoolField.SeccompAgentPerfEnabled = none
      ∧ msgBool ++ AnnotationKeyPodSeccompAgentPerfEnabled
          ∈ errorEntries (parseAnnotations testLib "main".toList
              [(AnnotationKeyPodSeccompAgentPerfEnabled, "bad".toList)] {}).2)
    ∧ ((parseAnnotations testLib "main".toList
          [(AnnotationKeyPodFuseEnabled, "True".toList)] {}).1.bools
          BoolField.FuseEnabled = some true
      ∧ msgBool ++ AnnotationKeyPodFuseEnabled
          ∉ errorEntries (parseAnnotations testLib "main".toList
              [(AnnotationKeyPodFuseEnabled, "True".toList)] {}).2) :=
  ⟨((C13_boolean_keys testLib "main".toList
      [(AnnotationKeyLogKeepLocalFile, "yes".toList)] {}).2
      (AnnotationKeyLogKeepLocalFile, BoolField.LogKeepLocalFile) (by decide)
      "yes".toList (by decide)).2.2 (by decide),
    ((C13_boolean_keys testLib "main".toList
      [(AnnotationKeyPodSeccompAgentPerfEnabled, "bad".toList)] {}).2
      (AnnotationKeyPodSeccompAgentPerfEnabled, BoolField.SeccompAgentPerfEnabled) (by decide)
      "bad".toList (by decide)).2.2 (by decide),
    ((C13_boolean_keys testLib "main".toList
      [(AnnotationKeyPodFuseEnabled, "True".toList)] {}).2
      (AnnotationKeyPodFuseEnabled, BoolField.FuseEnabled) (by decide)
      "True".toList (by decide)).1 (by decide)⟩

/-! ## C14 -/

/-- C14: for every annotation map, the combined error holds
`annotation is not a valid hostname style: pod.netflix.com/hostname-style` if
and only if the key `pod.netflix.com/hostname-style` is present with a value
other than `ec2` and other than the empty string. -/
theorem C14_hostname_style (lib : Lib) (userCtrName : Str) (m : List (Str × Str))
    (c : Config) :
    msgHostnameStyle ++ AnnotationKeyPodHostnameStyle
        ∈ errorEntries (parseAnnotations lib userCtrName m c).2
      ↔ ∃ v, mapLookup m AnnotationKeyPodHostnameStyle = some v
          ∧ v ≠ "ec2".toList ∧ v ≠ [] := by
  have hg : (msgHostnameStyle, hostnameStyleFailure m)
      ∈ failureGroups lib userCtrName m c := by
    simp [failureGroups]
  rw [mem_entries_of_group lib userCtrName m c _ _ AnnotationKeyPodHostnameStyle hg,
    mem_hostnameStyleFailure]
  constructor
  · rintro ⟨v, h1, h2, h3, -⟩
    exact ⟨v, h1, h2, h3⟩
  · rintro ⟨v, h1, h2, h3⟩
    exact ⟨v, h1, h2, h3, rfl⟩

/-- C14 on the values of the scenario: `not-ec2` fails; the empty string and
`ec2` do not. -/
theorem C14_hostname_style_witness :
    msgHostnameStyle ++ AnnotationKeyPodHostnameStyle
        ∈ errorEntries (parseAnnotations testLib "main".toList
            [(AnnotationKeyPodHostnameStyle, "not-ec2".toList)] {}).2
      ∧ msgHostnameStyle ++ AnnotationKeyPodHostnameStyle
        ∉ errorEntries (parseAnnotations testLib "main".toList
            [(AnnotationKeyPodHostnameStyle, [])] {}).2
      ∧ msgHostnameStyle ++ AnnotationKeyPodHostnameStyle
        ∉ errorEntries (parseAnnotations testLib "main".toList
            [(AnnotationKeyPodHostnameStyle, "ec2".toList)] {}).2 :=
  ⟨(C14_hostname_style testLib "main".toList
      [(AnnotationKeyPodHostnameStyle, "not-ec2".toList)] {}).2
      ⟨"not-ec2".toList, by decide, by decide, by decide⟩,
    fun h => by
      obtain ⟨v, h1, h2, h3⟩ := (C14_hostname_style testLib "main".toList
        [(AnnotationKeyPodHostnameStyle, [])] {}).1 h
      have : mapLookup [(AnnotationKeyPodHostnameStyle, ([] : Str))]
          AnnotationKeyPodHostnameStyle = some [] := by decide
      rw [this] at h1
      exact h3 (Option.some.inj h1).symm,
    fun h => by
      obtain ⟨v, h1, h2, h3⟩ := (C14_hostname_style testLib "main".toList
        [(AnnotationKeyPodHostnameStyle, "ec2".toList)] {}).1 h
      have : mapLookup [(AnnotationKeyPodHostnameStyle, "ec2".toList)]
          AnnotationKeyPodHostnameStyle = some "ec2".toList := by decide
      rw [this] at h1
      exact h2 (Option.some.inj h1).symm⟩

/-! ## C15 -/

/-- C15: for every annotation map, the combined error holds
`annotation is not a valid scheduler policy: pod.netflix.com/sched-policy` if
and only if the `SchedPolicy` field of the result is set and its value is
neither `batch` nor `idle`, whatever the other keys hold; and when the field
starts unset, it is set exactly when the key `pod.netflix.com/sched-policy` is
present, to the value of the key. -/
theorem C15_sched_policy (lib : Lib) (userCtrName : Str) (m : List (Str × Str))
    (c : Config) :
    (msgSchedPolicy ++ AnnotationKeyPodSchedPolicy
        ∈ errorEntries (parseAnnotations lib userCtrName m c).2
      ↔ ∃ v, (parseAnnotations lib userCtrName m c).1.strings StringField.SchedPolicy = some v
          ∧ v ≠ "batch".toList ∧ v ≠ "idle".toList)
    ∧ (c.strings StringField.SchedPolicy = none →
        (parseAnnotations lib userCtrName m c).1.strings StringField.SchedPolicy
          = mapLookup m AnnotationKeyPodSchedPolicy) := by
  have hg : (msgSchedPolicy, schedPolicyFailure (schedPolicyAfter userCtrName m c))
      ∈ failureGroups lib userCtrName m c := by
    simp [failureGroups]
  have hfield : (parseAnnotations lib userCtrName m c).1.strings StringField.SchedPolicy
      = schedPolicyAfter userCtrName m c := by
    rw [parseAnnotations_strings]; rfl
  constructor
  · rw [mem_entries_of_group lib userCtrName m c _ _ AnnotationKeyPodSchedPolicy hg,
      mem_schedPolicyFailure, hfield]
    constructor
    · rintro ⟨v, h1, h2, h3, -⟩
      exact ⟨v, h1, h2, h3⟩
    · rintro ⟨v, h1, h2, h3⟩
      exact ⟨v, h1, h2, h3, rfl⟩
  · intro hc
    rw [hfield]
    cases hl : mapLookup m AnnotationKeyPodSchedPolicy with
    | none => rw [schedPolicyAfter_absent userCtrName m c hl, hc]
    | some v => exact schedPolicyAfter_present userCtrName m c v hl

/-- C15 on the values of the scenario: `something` fails, `batch` does not. -/
theorem C15_sched_policy_witness :
    msgSchedPolicy ++ AnnotationKeyPodSchedPolicy
        ∈ errorEntries (parseAnnotations testLib "main".toList
            [(AnnotationKeyPodSchedPolicy, "something".toList)] {}).2
      ∧ msgSchedPolicy ++ AnnotationKeyPodSchedPolicy
        ∉ errorEntries (parseAnnotations testLib "main".toList
            [(AnnotationKeyPodSchedPolicy, "batch".toList)] {}).2 :=
  ⟨(C15_sched_policy testLib "main".toList
      [(AnnotationKeyPodSchedPolicy, "something".toList)] {}).1.2
      ⟨"something".toList, by decide, by decide, by decide⟩,
    fun h => by
      obtain ⟨v, h1, h2, -⟩ := (C15_sched_policy testLib "main".toList
        [(AnnotationKeyPodSchedPolicy, "batch".toList)] {}).1.1 h
      have : (parseAnnotations testLib "main".toList
          [(AnnotationKeyPodSchedPolicy, "batch".toList)] {}).1.strings
          StringField.SchedPolicy = some "batch".toList := by decide
      rw [this] at h1
      exact h2 (Option.some.inj h1).symm⟩

/-! ## C16 -/

/-- C16: for every value `v` of `network.netflix.com/security-groups`,
`SecurityGroupIDs` is set to the pieces of the trimmed `v` between its commas,
each trimmed, in their order: the pieces joined by `,` give the trimmed `v`
back and none holds a comma, the list has (number of commas in `v`) + 1
elements, no element starts or ends with white space, and no failure naming
the key is recorded. -/
theorem C16_security_groups (lib : Lib) (userCtrName : Str) (m : List (Str × Str))
    (c : Config) (v : Str) (hv : mapLookup m AnnotationKeyNetworkSecurityGroups = some v) :
    (∃ pieces : List Str,
        [','].intercalate pieces = TrimSpace v ∧ (∀ p ∈ pieces, ',' ∉ p)
          ∧ (parseAnnotations lib userCtrName m c).1.SecurityGroupIDs
              = some (pieces.map TrimSpace))
      ∧ (∃ ids, (parseAnnotations lib userCtrName m c).1.SecurityGroupIDs = some ids
          ∧ ids.length = v.count ',' + 1
          ∧ ∀ x ∈ ids, ∀ ch, (x.head? = some ch → isSpace ch = false)
              ∧ (x.getLast? = some ch → isSpace ch = false))
      ∧ ∀ e ∈ errorEntries (parseAnnotations lib userCtrName m c).2,
          namesKey e AnnotationKeyNetworkSecurityGroups = false := by
  have hfield : (parseAnnotations lib userCtrName m c).1.SecurityGroupIDs
      = some ((Split (TrimSpace v) ',').map TrimSpace) := by
    rw [parseAnnotations_SecurityGroupIDs, hv]
  refine ⟨?_, ?_, ?_⟩
  · obtain ⟨h1, h2⟩ := Split_spec (TrimSpace v) ','
    exact ⟨Split (TrimSpace v) ',', h1, h2, hfield⟩
  · refine ⟨_, hfield, ?_, ?_⟩
    · rw [List.length_map, Split_length, count_TrimSpace ',' (by decide)]
    · intro x hx ch
      obtain ⟨p, -, rfl⟩ := List.mem_map.1 hx
      exact TrimSpace_ends p ch
  · have hK : AnnotationKeyNetworkSecurityGroups ∈ recognizedKeys userCtrName :=
      mem_recognizedKeys_of_tail userCtrName _ (by decide)
    obtain ⟨h3, h12⟩ := recognized_incompatible userCtrName _ hK
    refine not_namesKey lib userCtrName m c _ ?_ ?_ h3
    · intro K1 hK1 _
      refine h12 K1 (List.mem_cons_of_mem _ hK1) ?_
      rintro rfl
      revert hK1
      decide
    · intro _
      exact h12 _ (List.mem_cons_self _ _) (by decide)

/-- C16 on the value of the test: `sg-1 , sg-2 ` gives `sg-1` and `sg-2`, and
a nil error. -/
theorem C16_security_groups_witness :
    (parseAnnotations testLib "main".toList
        [(AnnotationKeyNetworkSecurityGroups, "sg-1 , sg-2 ".toList)] {}).1.SecurityGroupIDs
      = some ["sg-1".toList, "sg-2".toList]
    ∧ (parseAnnotations testLib "main".toList
        [(AnnotationKeyNetworkSecurityGroups, "sg-1 , sg-2 ".toList)] {}).2 = none
    ∧ ∃ ids, (parseAnnotations testLib "main".toList
        [(AnnotationKeyNetworkSecurityGroups, "sg-1 , sg-2 ".toList)] {}).1.SecurityGroupIDs
          = some ids
        ∧ ids.length = ("sg-1 , sg-2 ".toList).count ',' + 1
        ∧ ∀ x ∈ ids, ∀ ch, (x.head? = some ch → isSpace ch = false)
            ∧ (x.getLast? = some ch → isSpace ch = false) :=
  ⟨by decide, by decide,
    (C16_security_groups testLib "main".toList
      [(AnnotationKeyNetworkSecurityGroups, "sg-1 , sg-2 ".toList)] {}
      "sg-1 , sg-2 ".toList (by decide)).2.1⟩

/-! ## C17 -/

/-- C17, what the code does: `network.netflix.com/subnet-ids` is an entry of
the table of string annotations, so for every value `v` the field `SubnetIDs`
holds `v` itself, unsplit and untrimmed; for `subnet-1 , subnet-2 ` it holds
that text, while splitting at the commas and trimming, as the test expects,
gives the two elements `subnet-1` and `subnet-2`. -/
theorem C17_subnet_ids_verbatim :
    (∀ (lib : Lib) (userCtrName : Str) (m : List (Str × Str)) (c : Config) (v : Str),
        mapLookup m AnnotationKeyNetworkSubnetIDs = some v →
          (parseAnnotations lib userCtrName m c).1.strings StringField.SubnetIDs = some v)
      ∧ (parseAnnotations testLib "main".toList
          [(AnnotationKeyNetworkSubnetIDs, "subnet-1 , subnet-2 ".toList)] {}).1.strings
            StringField.SubnetIDs = some "subnet-1 , subnet-2 ".toList
      ∧ (Split (TrimSpace "subnet-1 , subnet-2 ".toList) ',').map TrimSpace
          = ["subnet-1".toList, "subnet-2".toList] := by
  refine ⟨?_, by decide, by decide⟩
  intro lib userCtrName m c v hv
  rw [parseAnnotations_strings]
  exact fieldsAfter_set some m (stringAnnotations userCtrName) c.strings
    (AnnotationKeyNetworkSubnetIDs, StringField.SubnetIDs) (stringFields_nodup userCtrName)
    (mem_stringAnnotations_of_tail userCtrName _ (by decide)) v v hv rfl

/-! ## C18 -/

/-- C18 as stated fails: with an empty annotation map and a starting `Config`
whose `SchedPolicy` is already set to `other`, the key
`pod.netflix.com/sched-policy` is recognized and absent, yet the combined
error is not nil and holds the failure naming that key. -/
theorem C18_counterexample :
    AnnotationKeyPodSchedPolicy ∈ recognizedKeys "main".toList
      ∧ mapLookup ([] : List (Str × Str)) AnnotationKeyPodSchedPolicy = none
      ∧ (parseAnnotations testLib "main".toList []
          { strings := fun f => if f = StringField.SchedPolicy then some "other".toList
                                else none }).2
          = some [msgSchedPolicy ++ AnnotationKeyPodSchedPolicy]
      ∧ namesKey (msgSchedPolicy ++ AnnotationKeyPodSchedPolicy) AnnotationKeyPodSchedPolicy
          = true := by
  refine ⟨mem_recognizedKeys_of_tail _ _ (by decide), rfl, by decide, by decide⟩

/-- C18, amended: for every annotation map, every starting `Config` and every
recognized key that is absent from the map, `parseAnnotations` leaves the
field of the key as it was, and records no failure naming the key, with one
exception: for the absent key `pod.netflix.com/sched-policy` the failure
naming it is recorded exactly when the `SchedPolicy` field of the starting
`Config` is set to a value other than `batch` and `idle`. For a map with no
recognized key and no key starting with `service.netflix.com` it returns the
starting `Config` unchanged, with a nil error when the starting `SchedPolicy`
is unset, `batch` or `idle`, and with that one failure otherwise. -/
theorem C18_absent_keys_frame (lib : Lib) (userCtrName : Str) (m : List (Str × Str))
    (c : Config) :
    (∀ an ∈ stringAnnotations userCtrName, mapLookup m an.1 = none →
        (parseAnnotations lib userCtrName m c).1.strings an.2 = c.strings an.2
          ∧ (an.1 ≠ AnnotationKeyPodSchedPolicy →
              ∀ e ∈ errorEntries (parseAnnotations lib userCtrName m c).2,
                namesKey e an.1 = false))
      ∧ (mapLookup m AnnotationKeyPodSchedPolicy = none →
          (msgSchedPolicy ++ AnnotationKeyPodSchedPolicy
              ∈ errorEntries (parseAnnotations lib userCtrName m c).2
            ↔ ∃ v, c.strings StringField.SchedPolicy = some v
                ∧ v ≠ "batch".toList ∧ v ≠ "idle".toList)
          ∧ ((∀ v, c.strings StringField.SchedPolicy = some v
                → v = "batch".toList ∨ v = "idle".toList) →
              ∀ e ∈ errorEntries (parseAnnotations lib userCtrName m c).2,
                namesKey e AnnotationKeyPodSchedPolicy = false))
      ∧ (∀ an ∈ boolAnnotations, mapLookup m an.1 = none →
        (parseAnnotations lib userCtrName m c).1.bools an.2 = c.bools an.2
          ∧ ∀ e ∈ errorEntries (parseAnnotations lib userCtrName m c).2,
              namesKey e an.1 = false)
      ∧ (∀ an ∈ resourceAnnotations, mapLookup m an.1 = none →
        (parseAnnotations lib userCtrName m c).1.resources an.2 = c.resources an.2
          ∧ ∀ e ∈ errorEntries (parseAnnotations lib userCtrName m c).2,
              namesKey e an.1 = false)
      ∧ (∀ an ∈ durationAnnotations, mapLookup m an.1 = none →
        (parseAnnotations lib userCtrName m c).1.durations an.2 = c.durations an.2
          ∧ ∀ e ∈ errorEntries (parseAnnotations lib userCtrName m c).2,
              namesKey e an.1 = false)
      ∧ (mapLookup m AnnotationKeyPodSchemaVersion = none →
        (parseAnnotations lib userCtrName m c).1.PodSchemaVersion = c.PodSchemaVersion
          ∧ ∀ e ∈ errorEntries (parseAnnotations lib userCtrName m c).2,
              namesKey e AnnotationKeyPodSchemaVersion = false)
      ∧ (mapLookup m AnnotationKeyJobAcceptedTimestampMs = none →
        (parseAnnotations lib userCtrName m c).1.JobAcceptedTimestampMs
            = c.JobAcceptedTimestampMs
          ∧ ∀ e ∈ errorEntries (parseAnnotations lib userCtrName m c).2,
              namesKey e AnnotationKeyJobAcceptedTimestampMs = false)
      ∧ (mapLookup m AnnotationKeyPodOomScoreAdj = none →
        (parseAnnotations lib userCtrName m c).1.OomScoreAdj = c.OomScoreAdj
          ∧ ∀ e ∈ errorEntries (parseAnnotations lib userCtrName m c).2,
              namesKey e AnnotationKeyPodOomScoreAdj = false)
      ∧ (mapLookup m AnnotationKeyLogUploadRegexp = none →
        (parseAnnotations lib userCtrName m c).1.LogUploadRegExp = c.LogUploadRegExp
          ∧ ∀ e ∈ errorEntries (parseAnnotations lib userCtrName m c).2,
              namesKey e AnnotationKeyLogUploadRegexp = false)
      ∧ (mapLookup m AnnotationKeyNetworkSecurityGroups = none →
        (parseAnnotations lib userCtrName m c).1.SecurityGroupIDs = c.SecurityGroupIDs
          ∧ ∀ e ∈ errorEntries (parseAnnotations lib userCtrName m c).2,
              namesKey e AnnotationKeyNetworkSecurityGroups = false)
      ∧ ((∀ K ∈ recognizedKeys userCtrName, mapLookup m K = none) →
          (∀ kv ∈ m, HasPrefix kv.1 AnnotationKeyServicePrefix = false) →
          (parseAnnotations lib userCtrName m c).1 = c
            ∧ ((∀ v, c.strings StringField.SchedPolicy = some v
                  → v = "batch".toList ∨ v = "idle".toList) →
                (parseAnnotations lib userCtrName m c).2 = none)
            ∧ ((∃ v, c.strings StringField.SchedPolicy = some v
                  ∧ v ≠ "batch".toList ∧ v ≠ "idle".toList) →
                (parseAnnotations lib userCtrName m c).2
                  = some [msgSchedPolicy ++ AnnotationKeyPodSchedPolicy])) := by
  obtain ⟨r1, r2, r3, r4, r5, r6, r7, r8, r9⟩ := mem_recognizedKeys userCtrName
  obtain ⟨n2, n3, n4, n5, n6, n7, n8, n9⟩ := typedKeys_ne_schedPolicy
  have hnot : ∀ K ∈ recognizedKeys userCtrName, mapLookup m K = none →
      K ≠ AnnotationKeyPodSchedPolicy →
      ∀ e ∈ errorEntries (parseAnnotations lib userCtrName m c).2, namesKey e K = false :=
    fun K hK habs hne =>
      absent_not_named lib userCtrName m c K hK habs (fun h => absurd h hne)
  refine ⟨?_, ?_, ?_, ?_, ?_, ?_, ?_, ?_, ?_, ?_, ?_⟩
  · intro an han habs
    refine ⟨?_, hnot _ (r1 an han) habs⟩
    rw [parseAnnotations_strings]
    exact fieldsAfter_absent some m _ _ an (stringFields_nodup userCtrName) han habs
  · intro habs
    have hg : (msgSchedPolicy, schedPolicyFailure (schedPolicyAfter userCtrName m c))
        ∈ failureGroups lib userCtrName m c := by
      simp [failureGroups]
    refine ⟨?_, ?_⟩
    · rw [mem_entries_of_group lib userCtrName m c _ _ AnnotationKeyPodSchedPolicy hg,
        mem_schedPolicyFailure, schedPolicyAfter_absent userCtrName m c habs]
      constructor
      · rintro ⟨v, h1, h2, h3, -⟩
        exact ⟨v, h1, h2, h3⟩
      · rintro ⟨v, h1, h2, h3⟩
        exact ⟨v, h1, h2, h3, rfl⟩
    · intro hs
      exact absent_not_named lib userCtrName m c _
        (r1 _ (schedPolicy_mem userCtrName)) habs
        (fun _ => schedPolicyFailure_eq_nil _ hs)
  · intro an han habs
    refine ⟨?_, hnot _ (r2 an han) habs (n2 an han)⟩
    rw [parseAnnotations_bools]
    exact fieldsAfter_absent ParseBool m _ _ an boolFields_nodup han habs
  · intro an han habs
    refine ⟨?_, hnot _ (r3 an han) habs (n3 an han)⟩
    rw [parseAnnotations_resources]
    exact fieldsAfter_absent lib.parseQuantity m _ _ an resourceFields_nodup han habs
  · intro an han habs
    refine ⟨?_, hnot _ (r4 an han) habs (n4 an han)⟩
    rw [parseAnnotations_durations]
    exact fieldsAfter_absent lib.parseDuration m _ _ an durationFields_nodup han habs
  · intro habs
    refine ⟨?_, hnot _ r5 habs n5⟩
    rw [parseAnnotations_PodSchemaVersion, habs]
    rfl
  · intro habs
    refine ⟨?_, hnot _ r6 habs n6⟩
    rw [parseAnnotations_JobAcceptedTimestampMs, habs]
    rfl
  · intro habs
    refine ⟨?_, hnot _ r7 habs n7⟩
    rw [parseAnnotations_OomScoreAdj, habs]
    rfl
  · intro habs
    refine ⟨?_, hnot _ r8 habs n8⟩
    rw [parseAnnotations_LogUploadRegExp, habs]
  · intro habs
    refine ⟨?_, hnot _ r9 habs n9⟩
    rw [parseAnnotations_SecurityGroupIDs, habs]
  · intro hall hsvc
    have hent := entries_of_no_key lib userCtrName m c hall hsvc
    have hconf : (parseAnnotations lib userCtrName m c).1 = c := by
      apply Config.eq_of_fields
      · rw [parseAnnotations_Sidecars, foldl_specStep_skip _ m [] hsvc]
        simp
      · rw [parseAnnotations_bools]
        exact fieldsAfter_all_absent _ m _ _ (fun an han => hall _ (r2 an han))
      · rw [parseAnnotations_durations]
        exact fieldsAfter_all_absent _ m _ _ (fun an han => hall _ (r4 an han))
      · rw [parseAnnotations_resources]
        exact fieldsAfter_all_absent _ m _ _ (fun an han => hall _ (r3 an han))
      · rw [parseAnnotations_strings]
        exact fieldsAfter_all_absent _ m _ _ (fun an han => hall _ (r1 an han))
      · rw [parseAnnotations_PodSchemaVersion, hall _ r5]
        rfl
      · rw [parseAnnotations_JobAcceptedTimestampMs, hall _ r6]
        rfl
      · rw [parseAnnotations_OomScoreAdj, hall _ r7]
        rfl
      · rw [parseAnnotations_LogUploadRegExp, hall _ r8]
      · rw [parseAnnotations_SecurityGroupIDs, hall _ r9]
    refine ⟨hconf, ?_, ?_⟩
    · intro hs
      rw [parseAnnotations_nil_iff, hent]
      exact schedPolicyFailure_eq_nil _ hs
    · rintro ⟨v, h1, h2, h3⟩
      have hval : schedPolicyFailure (c.strings StringField.SchedPolicy)
          = [msgSchedPolicy ++ AnnotationKeyPodSchedPolicy] := by
        rw [h1]
        unfold schedPolicyFailure
        simp only [if_pos (And.intro h2 h3)]
      have hne : errorEntries (parseAnnotations lib userCtrName m c).2 ≠ [] := by
        rw [hent, hval]
        exact List.cons_ne_nil _ _
      rw [parseAnnotations_error_eq lib userCtrName m c hne, hent, hval]

/-- C18 at the starting `Config` of the counterexample, whose `SchedPolicy` is
`other`, with a map that holds one unrelated key and a bad hostname style: the
absent key `pod.netflix.com/kvm-enabled` leaves its field unset and no failure
names it, and the absent key `pod.netflix.com/fuse-enabled` likewise. -/
theorem C18_absent_keys_frame_witness :
    ((parseAnnotations testLib "main".toList
        [("example.com/other".toList, "x".toList),
          (AnnotationKeyPodHostnameStyle, "not-ec2".toList)]
        { strings := fun f => if f = StringField.SchedPolicy then some "other".toList
                              else none }).1.bools BoolField.KvmEnabled = none
      ∧ ∀ e ∈ errorEntries (parseAnnotations testLib "main".toList
          [("example.com/other".toList, "x".toList),
            (AnnotationKeyPodHostnameStyle, "not-ec2".toList)]
          { strings := fun f => if f = StringField.SchedPolicy then some "other".toList
                                else none }).2,
          namesKey e AnnotationKeyPodKvmEnabled = false)
    ∧ (parseAnnotations testLib "main".toList
        [("example.com/other".toList, "x".toList)] {}).2 = none :=
  ⟨(C18_absent_keys_frame testLib "main".toList
      [("example.com/other".toList, "x".toList),
        (AnnotationKeyPodHostnameStyle, "not-ec2".toList)]
      { strings := fun f => if f = StringField.SchedPolicy then some "other".toList
                            else none }).2.2.1
      (AnnotationKeyPodKvmEnabled, BoolField.KvmEnabled) (by decide) (by decide),
    ((C18_absent_keys_frame testLib "main".toList
      [("example.com/other".toList, "x".toList)] {}).2.2.2.2.2.2.2.2.2.2
      (fun K hK => by
        have hr : recognizedKeys "main".toList
            = (AnnotationKeyPrefixAppArmor ++ ['/'] ++ "main".toList)
                :: (recognizedKeys []).tail := rfl
        rw [hr] at hK
        revert K
        decide)
      (by decide)).2.1 (fun v h => by cases h)⟩

/-! ## C19 -/

/-- C19: `parseAnnotations` never fails fast. For every annotation map the
returned error is nil if and only if no individual failure occurred; a
returned error that is not nil holds exactly one entry for each failure; the
entries are the failures of the scalar blocks, then the failure of the
scheduler-policy check, then the failures of `parseServiceAnnotations`
themselves, in one flat list; and every entry names a key of the map or the
scheduler-policy key. -/
theorem C19_no_fail_fast (lib : Lib) (userCtrName : Str) (m : List (Str × Str))
    (c : Config) :
    ((parseAnnotations lib userCtrName m c).2 = none
        ↔ failureCount lib m
            ((parseAnnotations lib userCtrName m c).1.strings StringField.SchedPolicy) = 0)
      ∧ (∀ l, (parseAnnotations lib userCtrName m c).2 = some l →
          l.length = failureCount lib m
            ((parseAnnotations lib userCtrName m c).1.strings StringField.SchedPolicy))
      ∧ errorEntries (parseAnnotations lib userCtrName m c).2
          = scalarFailures lib m
            ++ schedPolicyFailure
                ((parseAnnotations lib userCtrName m c).1.strings StringField.SchedPolicy)
            ++ failures lib.parseReference m
      ∧ ∀ e ∈ errorEntries (parseAnnotations lib userCtrName m c).2,
          ∃ K, namesKey e K = true
            ∧ (mapLookup m K ≠ none ∨ K = AnnotationKeyPodSchedPolicy) := by
  have hfield : (parseAnnotations lib userCtrName m c).1.strings StringField.SchedPolicy
      = schedPolicyAfter userCtrName m c := by
    rw [parseAnnotations_strings]; rfl
  rw [hfield]
  refine ⟨?_, ?_, parseAnnotations_entries lib userCtrName m c, ?_⟩
  · rw [parseAnnotations_nil_iff, ← entries_length, List.length_eq_zero]
  · intro l hl
    rw [← entries_length, hl]
    rfl
  · intro e he
    obtain ⟨T, hT, K, d, hd, hK⟩ := entry_shape lib userCtrName m c e he
    refine ⟨K, (namesKey_iff e K).2 ⟨T, hT, d, hd⟩, ?_⟩
    rcases hK with ⟨-, hpres⟩ | ⟨rfl, -⟩ | ⟨-, v, hkv⟩
    · exact Or.inl hpres
    · exact Or.inr rfl
    · left
      intro hn
      have := mapLookup_isSome_of_mem m K v hkv
      rw [hn] at this
      cases this

/-- C19 on a map with three malformed scalar keys and one malformed service
key: the combined error holds the four failures, and its length is the number
of failures. -/
theorem C19_no_fail_fast_witness :
    (parseAnnotations testLib "main".toList
        [(AnnotationKeyPodKvmEnabled, "bad".toList),
          (AnnotationKeyPodSchemaVersion, "-2".toList),
          (AnnotationKeyPodOomScoreAdj, "foo".toList),
          ("service.netflix.com/only-one-field".toList, "true".toList)] {}).2
      = some [msgBool ++ AnnotationKeyPodKvmEnabled,
          msgUint32 ++ AnnotationKeyPodSchemaVersion,
          msgInt32 ++ AnnotationKeyPodOomScoreAdj,
          msgServiceParams ++ "service.netflix.com/only-one-field".toList]
    ∧ failureCount testLib
        [(AnnotationKeyPodKvmEnabled, "bad".toList),
          (AnnotationKeyPodSchemaVersion, "-2".toList),
          (AnnotationKeyPodOomScoreAdj, "foo".toList),
          ("service.netflix.com/only-one-field".toList, "true".toList)]
        ((parseAnnotations testLib "main".toList
          [(AnnotationKeyPodKvmEnabled, "bad".toList),
            (AnnotationKeyPodSchemaVersion, "-2".toList),
            (AnnotationKeyPodOomScoreAdj, "foo".toList),
            ("service.netflix.com/only-one-field".toList, "true".toList)] {}).1.strings
          StringField.SchedPolicy) = 4 :=
  have h : (parseAnnotations testLib "main".toList
        [(AnnotationKeyPodKvmEnabled, "bad".toList),
          (AnnotationKeyPodSchemaVersion, "-2".toList),
          (AnnotationKeyPodOomScoreAdj, "foo".toList),
          ("service.netflix.com/only-one-field".toList, "true".toList)] {}).2
      = some [msgBool ++ AnnotationKeyPodKvmEnabled,
          msgUint32 ++ AnnotationKeyPodSchemaVersion,
          msgInt32 ++ AnnotationKeyPodOomScoreAdj,
          msgServiceParams ++ "service.netflix.com/only-one-field".toList] := by decide
  ⟨h, ((C19_no_fail_fast testLib "main".toList
        [(AnnotationKeyPodKvmEnabled, "bad".toList),
          (AnnotationKeyPodSchemaVersion, "-2".toList),
          (AnnotationKeyPodOomScoreAdj, "foo".toList),
          ("service.netflix.com/only-one-field".toList, "true".toList)] {}).2.1 _ h).symm⟩

/-! ## C20 -/

/-- C20: a parse error for one key never affects another key. For every
scalar or list field with its recognized key and every two annotation maps
that give the key the same value, or both lack it, `parseAnnotations` started
from the same `Config` leaves the field in the same state in the two runs,
whatever the other keys hold. -/
theorem C20_non_interference (lib : Lib) (userCtrName : Str) (m1 m2 : List (Str × Str))
    (c : Config) :
    (∀ an ∈ stringAnnotations userCtrName, mapLookup m1 an.1 = mapLookup m2 an.1 →
        (parseAnnotations lib userCtrName m1 c).1.strings an.2
          = (parseAnnotations lib userCtrName m2 c).1.strings an.2)
      ∧ (∀ an ∈ boolAnnotations, mapLookup m1 an.1 = mapLookup m2 an.1 →
        (parseAnnotations lib userCtrName m1 c).1.bools an.2
          = (parseAnnotations lib userCtrName m2 c).1.bools an.2)
      ∧ (∀ an ∈ resourceAnnotations, mapLookup m1 an.1 = mapLookup m2 an.1 →
        (parseAnnotations lib userCtrName m1 c).1.resources an.2
          = (parseAnnotations lib userCtrName m2 c).1.resources an.2)
      ∧ (∀ an ∈ durationAnnotations, mapLookup m1 an.1 = mapLookup m2 an.1 →
        (parseAnnotations lib userCtrName m1 c).1.durations an.2
          = (parseAnnotations lib userCtrName m2 c).1.durations an.2)
      ∧ (mapLookup m1 AnnotationKeyPodSchemaVersion
            = mapLookup m2 AnnotationKeyPodSchemaVersion →
        (parseAnnotations lib userCtrName m1 c).1.PodSchemaVersion
          = (parseAnnotations lib userCtrName m2 c).1.PodSchemaVersion)
      ∧ (mapLookup m1 AnnotationKeyJobAcceptedTimestampMs
            = mapLookup m2 AnnotationKeyJobAcceptedTimestampMs →
        (parseAnnotations lib userCtrName m1 c).1.JobAcceptedTimestampMs
          = (parseAnnotations lib userCtrName m2 c).1.JobAcceptedTimestampMs)
      ∧ (mapLookup m1 AnnotationKeyPodOomScoreAdj = mapLookup m2 AnnotationKeyPodOomScoreAdj →
        (parseAnnotations lib userCtrName m1 c).1.OomScoreAdj
          = (parseAnnotations lib userCtrName m2 c).1.OomScoreAdj)
      ∧ (mapLookup m1 AnnotationKeyLogUploadRegexp
            = mapLookup m2 AnnotationKeyLogUploadRegexp →
        (parseAnnotations lib userCtrName m1 c).1.LogUploadRegExp
          = (parseAnnotations lib userCtrName m2 c).1.LogUploadRegExp)
      ∧ (mapLookup m1 AnnotationKeyNetworkSecurityGroups
            = mapLookup m2 AnnotationKeyNetworkSecurityGroups →
        (parseAnnotations lib userCtrName m1 c).1.SecurityGroupIDs
          = (parseAnnotations lib userCtrName m2 c).1.SecurityGroupIDs) := by
  refine ⟨?_, ?_, ?_, ?_, ?_, ?_, ?_, ?_, ?_⟩
  · intro an han h
    rw [parseAnnotations_strings, parseAnnotations_strings,
      fieldsAfter_of_mem some m1 _ _ an (stringFields_nodup userCtrName) han,
      fieldsAfter_of_mem some m2 _ _ an (stringFields_nodup userCtrName) han, h]
  · intro an han h
    rw [parseAnnotations_bools, parseAnnotations_bools,
      fieldsAfter_of_mem ParseBool m1 _ _ an boolFields_nodup han,
      fieldsAfter_of_mem ParseBool m2 _ _ an boolFields_nodup han, h]
  · intro an han h
    rw [parseAnnotations_resources, parseAnnotations_resources,
      fieldsAfter_of_mem lib.parseQuantity m1 _ _ an resourceFields_nodup han,
      fieldsAfter_of_mem lib.parseQuantity m2 _ _ an resourceFields_nodup han, h]
  · intro an han h
    rw [parseAnnotations_durations, parseAnnotations_durations,
      fieldsAfter_of_mem lib.parseDuration m1 _ _ an durationFields_nodup han,
      fieldsAfter_of_mem lib.parseDuration m2 _ _ an durationFields_nodup han, h]
  · intro h
    rw [parseAnnotations_PodSchemaVersion, parseAnnotations_PodSchemaVersion, h]
  · intro h
    rw [parseAnnotations_JobAcceptedTimestampMs, parseAnnotations_JobAcceptedTimestampMs, h]
  · intro h
    rw [parseAnnotations_OomScoreAdj, parseAnnotations_OomScoreAdj, h]
  · intro h
    rw [parseAnnotations_LogUploadRegExp, parseAnnotations_LogUploadRegExp, h]
  · intro h
    rw [parseAnnotations_SecurityGroupIDs, parseAnnotations_SecurityGroupIDs, h]

/-- C20 on two maps that agree on `pod.netflix.com/kvm-enabled` and differ,
with failures, elsewhere: the field `KvmEnabled` is the same, and it is set. -/
theorem C20_non_interference_witness :
    (parseAnnotations testLib "main".toList
        [(AnnotationKeyPodKvmEnabled, "true".toList),
          (AnnotationKeyPodOomScoreAdj, "foo".toList)] {}).1.bools BoolField.KvmEnabled
      = (parseAnnotations testLib "main".toList
        [(AnnotationKeyPodSchemaVersion, "-2".toList),
          (AnnotationKeyPodKvmEnabled, "true".toList),
          (AnnotationKeyPodFuseEnabled, "bad".toList)] {}).1.bools BoolField.KvmEnabled
    ∧ (parseAnnotations testLib "main".toList
        [(AnnotationKeyPodKvmEnabled, "true".toList),
          (AnnotationKeyPodOomScoreAdj, "foo".toList)] {}).1.bools BoolField.KvmEnabled
      = some true :=
  ⟨(C20_non_interference testLib "main".toList
      [(AnnotationKeyPodKvmEnabled, "true".toList),
        (AnnotationKeyPodOomScoreAdj, "foo".toList)]
      [(AnnotationKeyPodSchemaVersion, "-2".toList),
        (AnnotationKeyPodKvmEnabled, "true".toList),
        (AnnotationKeyPodFuseEnabled, "bad".toList)] {}).2.1
      (AnnotationKeyPodKvmEnabled, BoolField.KvmEnabled) (by decide) (by decide),
    by decide⟩

/-! ## Claims about the accessor and the remaining scalar blocks -/

/-! ## C21 -/

/-- C21: `PodSchemaVersion` returns 0 and a nil error when the pod has no
`pod.netflix.com/pod-schema-version` annotation; `n` and a nil error when the
value is a non-empty string of decimal digits denoting `n < 2^32`; and 0 with
the error `annotation is not a valid uint32 value:
pod.netflix.com/pod-schema-version` for every other value. -/
theorem C21_PodSchemaVersion (m : List (Str × Str)) :
    (mapLookup m AnnotationKeyPodSchemaVersion = none → PodSchemaVersion m = (0, none))
      ∧ ∀ v, mapLookup m AnnotationKeyPodSchemaVersion = some v →
          (isDecimal v = true ∧ decimalValue v < 2 ^ 32 →
            PodSchemaVersion m = (decimalValue v, none))
          ∧ (¬ (isDecimal v = true ∧ decimalValue v < 2 ^ 32) →
            PodSchemaVersion m
              = (0, some ("annotation is not a valid uint32 value: ".toList
                    ++ "pod.netflix.com/pod-schema-version".toList))) := by
  refine ⟨?_, ?_⟩
  · intro h
    unfold PodSchemaVersion
    rw [h]
  · intro v hv
    constructor
    · rintro ⟨h1, h2⟩
      have hp : ParseUint v 32 = some (decimalValue v) :=
        (ParseUint_eq_some v 32 _).2 ⟨h1, rfl, h2⟩
      unfold PodSchemaVersion
      rw [hv]
      simp only [hp, toUint32_of_lt _ h2]
    · intro hno
      have hp : ParseUint v 32 = none := (ParseUint_eq_none v 32).2 hno
      unfold PodSchemaVersion
      rw [hv]
      simp only [hp]
      rfl

/-- C21 on values: `2` gives 2, the largest 32-bit number is returned
unchanged, `4294967296` and `-2` give 0 and the error. -/
theorem C21_PodSchemaVersion_witness :
    PodSchemaVersion [(AnnotationKeyPodSchemaVersion, "2".toList)] = (2, none)
      ∧ PodSchemaVersion [(AnnotationKeyPodSchemaVersion, "4294967295".toList)]
          = (4294967295, none)
      ∧ PodSchemaVersion [(AnnotationKeyPodSchemaVersion, "4294967296".toList)]
          = (0, some ("annotation is not a valid uint32 value: ".toList
                ++ "pod.netflix.com/pod-schema-version".toList))
      ∧ PodSchemaVersion [(AnnotationKeyPodSchemaVersion, "-2".toList)]
          = (0, some ("annotation is not a valid uint32 value: ".toList
                ++ "pod.netflix.com/pod-schema-version".toList)) :=
  ⟨((C21_PodSchemaVersion [(AnnotationKeyPodSchemaVersion, "2".toList)]).2
      "2".toList (by decide)).1 (by decide),
    ((C21_PodSchemaVersion [(AnnotationKeyPodSchemaVersion, "4294967295".toList)]).2
      "4294967295".toList (by decide)).1 (by decide),
    ((C21_PodSchemaVersion [(AnnotationKeyPodSchemaVersion, "4294967296".toList)]).2
      "4294967296".toList (by decide)).2 (by decide),
    ((C21_PodSchemaVersion [(AnnotationKeyPodSchemaVersion, "-2".toList)]).2
      "-2".toList (by decide)).2 (by decide)⟩

/-! ## C22 -/

/-- C22: plain-string annotations are stored verbatim and cannot fail. The
container-scoped key `container.apparmor.security.beta.kubernetes.io/` + the
name of the user container is a key of the string table, for the field
`AppArmorProfile`; and for each key of the table and every value `v`, the
empty string included, the field is set to exactly `v`, no parse failure names
the key, and, for the keys other than the two with an enumerated value
(`pod.netflix.com/hostname-style`, `pod.netflix.com/sched-policy`), no failure
at all names the key. -/
theorem C22_plain_strings (lib : Lib) (userCtrName : Str) (m : List (Str × Str))
    (c : Config) :
    (AnnotationKeyPrefixAppArmor ++ ['/'] ++ userCtrName, StringField.AppArmorProfile)
        ∈ stringAnnotations userCtrName
      ∧ ∀ an ∈ stringAnnotations userCtrName, ∀ v, mapLookup m an.1 = some v →
          (parseAnnotations lib userCtrName m c).1.strings an.2 = some v
            ∧ (∀ e ∈ errorEntries (parseAnnotations lib userCtrName m c).2,
                parseFailureNames e an.1 = false)
            ∧ (an.1 ≠ AnnotationKeyPodHostnameStyle → an.1 ≠ AnnotationKeyPodSchedPolicy →
                ∀ e ∈ errorEntries (parseAnnotations lib userCtrName m c).2,
                  namesKey e an.1 = false) := by
  refine ⟨List.mem_cons_self _ _, ?_⟩
  intro an han v hv
  refine ⟨?_, stringKey_no_parse_failure lib userCtrName m c an han,
    stringKey_not_named lib userCtrName m c an han⟩
  rw [parseAnnotations_strings]
  exact fieldsAfter_set some m _ _ an (stringFields_nodup userCtrName) han v v hv rfl

/-- C22 on the value of the test: with the user container
`task-id-in-container`, the value `localhost/docker_titus` of the AppArmor key
is the field `AppArmorProfile` and the error is nil; an empty value of
`app.netflix.com/name` and a value of `network.netflix.com/account-id` with
blanks around it are stored as they are. -/
theorem C22_plain_strings_witness :
    (parseAnnotations testLib "task-id-in-container".toList
        [("container.apparmor.security.beta.kubernetes.io/task-id-in-container".toList,
          "localhost/docker_titus".toList)] {}).1.strings StringField.AppArmorProfile
      = some "localhost/docker_titus".toList
    ∧ (parseAnnotations testLib "task-id-in-container".toList
        [("container.apparmor.security.beta.kubernetes.io/task-id-in-container".toList,
          "localhost/docker_titus".toList)] {}).2 = none
    ∧ (parseAnnotations testLib "main".toList
        [(AnnotationKeyAppName, [])] {}).1.strings StringField.AppName = some []
    ∧ (parseAnnotations testLib "main".toList
        [(AnnotationKeyNetworkAccountID, " 12 ".toList)] {}).1.strings StringField.AccountID
      = some " 12 ".toList :=
  ⟨((C22_plain_strings testLib "task-id-in-container".toList
      [("container.apparmor.security.beta.kubernetes.io/task-id-in-container".toList,
        "localhost/docker_titus".toList)] {}).2
      ("container.apparmor.security.beta.kubernetes.io/task-id-in-container".toList,
        StringField.AppArmorProfile) (by decide) "localhost/docker_titus".toList
      (by decide)).1,
    by decide,
    ((C22_plain_strings testLib "main".toList [(AnnotationKeyAppName, [])] {}).2
      (AnnotationKeyAppName, StringField.AppName) (by decide) [] (by decide)).1,
    ((C22_plain_strings testLib "main".toList
      [(AnnotationKeyNetworkAccountID, " 12 ".toList)] {}).2
      (AnnotationKeyNetworkAccountID, StringField.AccountID) (by decide) " 12 ".toList
      (by decide)).1⟩

/-! ## C23 -/

/-- C23: the table has the three duration keys
`log.netflix.com/stdio-check-interval`, `log.netflix.com/upload-check-interval`
and `log.netflix.com/upload-threshold-time`; for each of them and every value
`v`: when `time.ParseDuration` reads `v` as the duration `d` the field is set
to `d` and the failure for the key is not recorded, and when it rejects `v` the
field is left as it was and the combined error holds
`annotation is not a valid duration value: <key>`; so, starting from an unset
field, the field is set to `d` exactly when `v` denotes `d`. -/
theorem C23_duration_keys (lib : Lib) (userCtrName : Str) (m : List (Str × Str))
    (c : Config) :
    durationAnnotations.map Prod.fst
        = ["log.netflix.com/stdio-check-interval".toList,
            "log.netflix.com/upload-check-interval".toList,
            "log.netflix.com/upload-threshold-time".toList]
      ∧ ∀ an ∈ durationAnnotations, ∀ v, mapLookup m an.1 = some v →
          (∀ d, lib.parseDuration v = some d →
            (parseAnnotations lib userCtrName m c).1.durations an.2 = some d
              ∧ msgDuration ++ an.1
                  ∉ errorEntries (parseAnnotations lib userCtrName m c).2)
          ∧ (lib.parseDuration v = none →
            (parseAnnotations lib userCtrName m c).1.durations an.2 = c.durations an.2
              ∧ msgDuration ++ an.1
                  ∈ errorEntries (parseAnnotations lib userCtrName m c).2)
          ∧ (c.durations an.2 = none → ∀ d,
              ((parseAnnotations lib userCtrName m c).1.durations an.2 = some d
                ↔ lib.parseDuration v = some d)) := by
  refine ⟨by decide, ?_⟩
  intro an han v hv
  have hg : (msgDuration, tableFailures lib.parseDuration msgDuration m durationAnnotations)
      ∈ failureGroups lib userCtrName m c := by
    simp [failureGroups]
  have hfail : msgDuration ++ an.1 ∈ errorEntries (parseAnnotations lib userCtrName m c).2
      ↔ lib.parseDuration v = none := by
    rw [mem_entries_of_group lib userCtrName m c _ _ an.1 hg, mem_tableFailures]
    constructor
    · rintro ⟨an1, -, val, hl, hp, he⟩
      have hk : an.1 = an1.1 := List.append_cancel_left he
      rw [← hk, hv] at hl
      rw [Option.some.inj hl]
      exact hp
    · intro hp
      exact ⟨an, han, v, hv, hp, rfl⟩
  rw [parseAnnotations_durations]
  refine ⟨?_, ?_, ?_⟩
  · intro d hd
    refine ⟨fieldsAfter_set lib.parseDuration m _ _ an durationFields_nodup han v d hv hd, ?_⟩
    rw [hfail, hd]
    exact fun h => Option.noConfusion h
  · intro hn
    exact ⟨fieldsAfter_bad lib.parseDuration m _ _ an durationFields_nodup han v hv hn,
      hfail.2 hn⟩
  · intro hc d
    cases hp : lib.parseDuration v with
    | none =>
      rw [fieldsAfter_bad lib.parseDuration m _ _ an durationFields_nodup han v hv hp, hc]
    | some d1 =>
      rw [fieldsAfter_set lib.parseDuration m _ _ an durationFields_nodup han v d1 hv hp]

/-- C23 on the values of the tests, with the model of the duration grammar:
`2m` gives 120 seconds, in nanoseconds, and `2yearz` gives the failure. -/
theorem C23_duration_keys_witness :
    ((parseAnnotations testLib "main".toList
          [(AnnotationKeyLogStdioCheckInterval, "2m".toList)] {}).1.durations
          DurationField.LogStdioCheckInterval = some (120 * 1000000000)
      ∧ msgDuration ++ AnnotationKeyLogStdioCheckInterval
          ∉ errorEntries (parseAnnotations testLib "main".toList
              [(AnnotationKeyLogStdioCheckInterval, "2m".toList)] {}).2)
    ∧ ((parseAnnotations testLib "main".toList
          [(AnnotationKeyLogStdioCheckInterval, "2yearz".toList)] {}).1.durations
          DurationField.LogStdioCheckInterval = none
      ∧ msgDuration ++ AnnotationKeyLogStdioCheckInterval
          ∈ errorEntries (parseAnnotations testLib "main".toList
              [(AnnotationKeyLogStdioCheckInterval, "2yearz".toList)] {}).2) :=
  ⟨((C23_duration_keys testLib "main".toList
      [(AnnotationKeyLogStdioCheckInterval, "2m".toList)] {}).2
      (AnnotationKeyLogStdioCheckInterval, DurationField.LogStdioCheckInterval) (by decide)
      "2m".toList (by decide)).1 (120 * 1000000000) (by decide),
    ((C23_duration_keys testLib "main".toList
      [(AnnotationKeyLogStdioCheckInterval, "2yearz".toList)] {}).2
      (AnnotationKeyLogStdioCheckInterval, DurationField.LogStdioCheckInterval) (by decide)
      "2yearz".toList (by decide)).2.1 (by decide)⟩

/-! ## C24 -/

/-- C24: the table has the two bandwidth keys `kubernetes.io/egress-bandwidth`
and `kubernetes.io/ingress-bandwidth`; for each of them and every value `v`:
when `resource.ParseQuantity` reads `v` as the quantity `q` the field is set
to `q` and the failure for the key is not recorded, and when it rejects `v`
the field is left as it was and the combined error holds
`annotation is not a valid resource value: <key>`; so, starting from an unset
field, the field is set to `q` exactly when `v` denotes `q`. -/
theorem C24_bandwidth_keys (lib : Lib) (userCtrName : Str) (m : List (Str × Str))
    (c : Config) :
    resourceAnnotations.map Prod.fst
        = ["kubernetes.io/egress-bandwidth".toList, "kubernetes.io/ingress-bandwidth".toList]
      ∧ ∀ an ∈ resourceAnnotations, ∀ v, mapLookup m an.1 = some v →
          (∀ q, lib.parseQuantity v = some q →
            (parseAnnotations lib userCtrName m c).1.resources an.2 = some q
              ∧ msgResource ++ an.1
                  ∉ errorEntries (parseAnnotations lib userCtrName m c).2)
          ∧ (lib.parseQuantity v = none →
            (parseAnnotations lib userCtrName m c).1.resources an.2 = c.resources an.2
              ∧ msgResource ++ an.1
                  ∈ errorEntries (parseAnnotations lib userCtrName m c).2)
          ∧ (c.resources an.2 = none → ∀ q,
              ((parseAnnotations lib userCtrName m c).1.resources an.2 = some q
                ↔ lib.parseQuantity v = some q)) := by
  refine ⟨by decide, ?_⟩
  intro an han v hv
  have hg : (msgResource, tableFailures lib.parseQuantity msgResource m resourceAnnotations)
      ∈ failureGroups lib userCtrName m c := by
    simp [failureGroups]
  have hfail : msgResource ++ an.1 ∈ errorEntries (parseAnnotations lib userCtrName m c).2
      ↔ lib.parseQuantity v = none := by
    rw [mem_entries_of_group lib userCtrName m c _ _ an.1 hg, mem_tableFailures]
    constructor
    · rintro ⟨an1, -, val, hl, hp, he⟩
      have hk : an.1 = an1.1 := List.append_cancel_left he
      rw [← hk, hv] at hl
      rw [Option.some.inj hl]
      exact hp
    · intro hp
      exact ⟨an, han, v, hv, hp, rfl⟩
  rw [parseAnnotations_resources]
  refine ⟨?_, ?_, ?_⟩
  · intro q hq
    refine ⟨fieldsAfter_set lib.parseQuantity m _ _ an resourceFields_nodup han v q hv hq, ?_⟩
    rw [hfail, hq]
    exact fun h => Option.noConfusion h
  · intro hn
    exact ⟨fieldsAfter_bad lib.parseQuantity m _ _ an resourceFields_nodup han v hv hn,
      hfail.2 hn⟩
  · intro hc q
    cases hp : lib.parseQuantity v with
    | none =>
      rw [fieldsAfter_bad lib.parseQuantity m _ _ an resourceFields_nodup han v hv hp, hc]
    | some q1 =>
      rw [fieldsAfter_set lib.parseQuantity m _ _ an resourceFields_nodup han v q1 hv hp]

/-- C24 on the values of the tests, with the model of the quantity grammar:
`10M` gives the magnitude 10000000 and `10ZiB` gives the failure. -/
theorem C24_bandwidth_keys_witness :
    ((parseAnnotations testLib "main".toList
          [(AnnotationKeyEgressBandwidth, "10M".toList)] {}).1.resources
          ResourceField.EgressBandwidth = some { value := ((10000000 : Nat) : ℚ) }
      ∧ msgResource ++ AnnotationKeyEgressBandwidth
          ∉ errorEntries (parseAnnotations testLib "main".toList
              [(AnnotationKeyEgressBandwidth, "10M".toList)] {}).2)
    ∧ ((parseAnnotations testLib "main".toList
          [(AnnotationKeyEgressBandwidth, "10ZiB".toList)] {}).1.resources
          ResourceField.EgressBandwidth = none
      ∧ msgResource ++ AnnotationKeyEgressBandwidth
          ∈ errorEntries (parseAnnotations testLib "main".toList
              [(AnnotationKeyEgressBandwidth, "10ZiB".toList)] {}).2) :=
  ⟨((C24_bandwidth_keys testLib "main".toList
      [(AnnotationKeyEgressBandwidth, "10M".toList)] {}).2
      (AnnotationKeyEgressBandwidth, ResourceField.EgressBandwidth) (by decide)
      "10M".toList (by decide)).1 { value := ((10000000 : Nat) : ℚ) } (by decide),
    ((C24_bandwidth_keys testLib "main".toList
      [(AnnotationKeyEgressBandwidth, "10ZiB".toList)] {}).2
      (AnnotationKeyEgressBandwidth, ResourceField.EgressBandwidth) (by decide)
      "10ZiB".toList (by decide)).2.1 (by decide)⟩

/-! ## C25 -/

/-- C25: for every value `v` of `log.netflix.com/upload-regexp`: when `v`
compiles, `LogUploadRegExp` is set to the compiled pattern whose source text
is exactly `v` and the failure for the key is not recorded; when compilation
fails with the diagnostic `d`, the field is left as it was and the combined
error holds `annotation is not a valid regexp value:
log.netflix.com/upload-regexp: ` followed by `d`, and no other failure for
the key. -/
theorem C25_upload_regexp (lib : Lib) (userCtrName : Str) (m : List (Str × Str))
    (c : Config) (v : Str) (hv : mapLookup m AnnotationKeyLogUploadRegexp = some v) :
    (lib.compileRegexp v = none →
        (parseAnnotations lib userCtrName m c).1.LogUploadRegExp = some { expr := v }
          ∧ ∀ d, msgRegexp ++ AnnotationKeyLogUploadRegexp ++ [':', ' '] ++ d
              ∉ errorEntries (parseAnnotations lib userCtrName m c).2)
      ∧ ∀ d, lib.compileRegexp v = some d →
          (parseAnnotations lib userCtrName m c).1.LogUploadRegExp = c.LogUploadRegExp
            ∧ ("annotation is not a valid regexp value: ".toList
                  ++ "log.netflix.com/upload-regexp".toList ++ ": ".toList ++ d)
                ∈ errorEntries (parseAnnotations lib userCtrName m c).2
            ∧ ∀ d1, msgRegexp ++ AnnotationKeyLogUploadRegexp ++ [':', ' '] ++ d1
                ∈ errorEntries (parseAnnotations lib userCtrName m c).2 → d1 = d := by
  have hg : (msgRegexp, regexpFailure lib m) ∈ failureGroups lib userCtrName m c := by
    simp [failureGroups]
  have hfail : ∀ d, msgRegexp ++ AnnotationKeyLogUploadRegexp ++ [':', ' '] ++ d
      ∈ errorEntries (parseAnnotations lib userCtrName m c).2
        ↔ lib.compileRegexp v = some d := by
    intro d
    have e1 : msgRegexp ++ AnnotationKeyLogUploadRegexp ++ [':', ' '] ++ d
        = msgRegexp ++ (AnnotationKeyLogUploadRegexp ++ [':', ' '] ++ d) := by
      simp only [List.append_assoc]
    rw [e1, mem_entries_of_group lib userCtrName m c _ _ _ hg, mem_regexpFailure, hv]
    constructor
    · rintro ⟨v1, pErr, h1, h2, h3⟩
      have h4 : d = pErr := by
        have := List.append_cancel_left h3
        simp only [List.append_assoc] at this
        exact List.append_cancel_left (List.append_cancel_left this)
      rw [Option.some.inj h1, h4]
      exact h2
    · intro h
      exact ⟨v, d, rfl, h, by simp only [List.append_assoc]⟩
  have hfield : (parseAnnotations lib userCtrName m c).1.LogUploadRegExp
      = if lib.compileRegexp v = none then some { expr := v } else c.LogUploadRegExp := by
    rw [parseAnnotations_LogUploadRegExp, hv]
  refine ⟨?_, ?_⟩
  · intro hc
    refine ⟨by rw [hfield, if_pos hc], ?_⟩
    intro d hd
    rw [hfail d, hc] at hd
    cases hd
  · intro d hd
    refine ⟨?_, (hfail d).2 hd, ?_⟩
    · rw [hfield, if_neg (by rw [hd]; exact Option.some_ne_none d)]
    · intro d1 h1
      have := (hfail d1).1 h1
      rw [hd] at this
      exact (Option.some.inj this).symm

/-- C25 on the value of the test, with the model of the pattern syntax:
`.*.foo` compiles, so `LogUploadRegExp` is the pattern with that source text
and the error is nil; `a**` does not compile, and the failure ends with the
diagnostic. -/
theorem C25_upload_regexp_witness :
    (parseAnnotations testLib "main".toList
        [(AnnotationKeyLogUploadRegexp, ".*.foo".toList)] {}).1.LogUploadRegExp
      = some { expr := ".*.foo".toList }
    ∧ (parseAnnotations testLib "main".toList
        [(AnnotationKeyLogUploadRegexp, ".*.foo".toList)] {}).2 = none
    ∧ ((parseAnnotations testLib "main".toList
          [(AnnotationKeyLogUploadRegexp, "a**".toList)] {}).1.LogUploadRegExp = none
      ∧ ("annotation is not a valid regexp value: ".toList
            ++ "log.netflix.com/upload-regexp".toList ++ ": ".toList
            ++ "error parsing regexp: invalid nested repetition operator: `**`".toList)
          ∈ errorEntries (parseAnnotations testLib "main".toList
              [(AnnotationKeyLogUploadRegexp, "a**".toList)] {}).2) :=
  ⟨((C25_upload_regexp testLib "main".toList
      [(AnnotationKeyLogUploadRegexp, ".*.foo".toList)] {} ".*.foo".toList
      (by decide)).1 (by decide)).1,
    by decide,
    ((C25_upload_regexp testLib "main".toList
        [(AnnotationKeyLogUploadRegexp, "a**".toList)] {} "a**".toList
        (by decide)).2
        "error parsing regexp: invalid nested repetition operator: `**`".toList (by decide)).1,
    ((C25_upload_regexp testLib "main".toList
        [(AnnotationKeyLogUploadRegexp, "a**".toList)] {} "a**".toList
        (by decide)).2
        "error parsing regexp: invalid nested repetition operator: `**`".toList (by decide)).2.1⟩

/-! ## C26 -/

/-- C26: the accessor and the translation pass agree on the pod schema
version. For every annotation map, `PodSchemaVersion` returns `n` and a nil
error for a present key if and only if `parseAnnotations` on an empty `Config`
sets the field `PodSchemaVersion` to `n`; and `PodSchemaVersion` returns an
error if and only if the combined error of `parseAnnotations` holds
`annotation is not a valid uint32 value: pod.netflix.com/pod-schema-version`,
which is the text of the error the accessor returns. -/
theorem C26_accessor_agrees (lib : Lib) (userCtrName : Str) (m : List (Str × Str)) :
    (∀ n, (mapLookup m AnnotationKeyPodSchemaVersion ≠ none ∧ PodSchemaVersion m = (n, none))
        ↔ (parseAnnotations lib userCtrName m {}).1.PodSchemaVersion = some n)
      ∧ ((PodSchemaVersion m).2 ≠ none
        ↔ msgUint32 ++ AnnotationKeyPodSchemaVersion
            ∈ errorEntries (parseAnnotations lib userCtrName m {}).2)
      ∧ ∀ e, (PodSchemaVersion m).2 = some e
          → e = msgUint32 ++ AnnotationKeyPodSchemaVersion := by
  have hg : (msgUint32, keyFailure (fun v => ParseUint v 32) msgUint32 m
      AnnotationKeyPodSchemaVersion) ∈ failureGroups lib userCtrName m {} := by
    simp [failureGroups]
  have hmem := mem_entries_of_group lib userCtrName m {} _ _ AnnotationKeyPodSchemaVersion hg
  rw [hmem, mem_keyFailure, parseAnnotations_PodSchemaVersion]
  cases hl : mapLookup m AnnotationKeyPodSchemaVersion with
  | none =>
    have hacc : PodSchemaVersion m = (0, none) := by
      unfold PodSchemaVersion
      rw [hl]
    rw [hacc]
    refine ⟨?_, ?_, ?_⟩
    · intro n
      constructor
      · rintro ⟨h, -⟩
        exact absurd rfl h
      · intro h
        cases h
    · constructor
      · intro h
        exact absurd rfl h
      · rintro ⟨v, h, -⟩
        cases h
    · intro e h
      cases h
  | some v =>
    cases hp : ParseUint v 32 with
    | none =>
      have hacc : PodSchemaVersion m = (0, some (msgUint32 ++ AnnotationKeyPodSchemaVersion)) := by
        unfold PodSchemaVersion
        rw [hl]
        simp only [hp]
      have hbind : (some v).bind (fun v => ParseUint v 32) = none := hp
      rw [hacc, hbind]
      refine ⟨?_, ?_, ?_⟩
      · intro n
        constructor
        · rintro ⟨-, h⟩
          have := (Prod.mk.inj h).2
          cases this
        · intro h
          cases h
      · constructor
        · intro _
          exact ⟨v, rfl, hp, rfl⟩
        · intro _ h
          cases h
      · intro e h
        exact (Option.some.inj h).symm
    | some k =>
      have hacc : PodSchemaVersion m = (toUint32 k, none) := by
        unfold PodSchemaVersion
        rw [hl]
        simp only [hp]
      have hbind : (some v).bind (fun v => ParseUint v 32) = some k := hp
      rw [hacc, hbind]
      refine ⟨?_, ?_, ?_⟩
      · intro n
        constructor
        · rintro ⟨-, h⟩
          show some (toUint32 k) = some n
          rw [(Prod.mk.inj h).1]
        · intro h
          have h1 : some (toUint32 k) = some n := h
          refine ⟨Option.some_ne_none v, ?_⟩
          rw [Option.some.inj h1]
      · constructor
        · intro h
          exact absurd rfl h
        · rintro ⟨v1, h1, h2, -⟩
          rw [← Option.some.inj h1, hp] at h2
          cases h2
      · intro e h
        cases h

/-- C26 on values: for `2` both give 2 and no failure; for `-2` the accessor
returns an error and the combined error holds the failure. -/
theorem C26_accessor_agrees_witness :
    (parseAnnotations testLib "main".toList
        [(AnnotationKeyPodSchemaVersion, "2".toList)] {}).1.PodSchemaVersion = some 2
      ∧ msgUint32 ++ AnnotationKeyPodSchemaVersion
          ∈ errorEntries (parseAnnotations testLib "main".toList
              [(AnnotationKeyPodSchemaVersion, "-2".toList)] {}).2 :=
  ⟨((C26_accessor_agrees testLib "main".toList
      [(AnnotationKeyPodSchemaVersion, "2".toList)]).1 2).1 ⟨by decide, by decide⟩,
    (C26_accessor_agrees testLib "main".toList
      [(AnnotationKeyPodSchemaVersion, "-2".toList)]).2.1.1 (by decide)⟩

/-! ## C27 -/

/-- C27: the composite parser filters on the prefix `service.netflix.com`
without the slash but strips `service.netflix.com/`. For every key of a
well-formed annotation map that starts with `service.netflix.com` and does not
start with `service.netflix.com/`, `parseServiceAnnotations` records the
segment-count failure for the key when a dot follows the prefix and the
version-number failure otherwise; the returned failures hold exactly one
failure for that key; and the appended Sidecar records are those of the map
without the key. -/
theorem C27_prefix_without_slash (parse : Str → Except Err Reference) (m : List (Str × Str))
    (c : Config) (k v : Str) (hd : keysDistinct m) (hmem : (k, v) ∈ m)
    (hp : HasPrefix k AnnotationKeyServicePrefix = true)
    (hn : HasPrefix k (AnnotationKeyServicePrefix ++ ['/']) = false) :
    (if '.' ∈ k.drop AnnotationKeyServicePrefix.length then msgServiceParams ++ k
        else msgServiceVersion ++ k) ∈ (parseServiceAnnotations parse m c).2
      ∧ (parseServiceAnnotations parse m c).2.countP (fun e => serviceFailureFor e k) = 1
      ∧ (parseServiceAnnotations parse m c).1.Sidecars.Perm
          (parseServiceAnnotations parse (withoutKey m k) c).1.Sidecars := by
  have hc := classify_no_slash parse k v hp hn
  obtain ⟨h1, h2⟩ := fail_entry parse m k v _ c hc hd hmem
  refine ⟨h1.symm.subset (List.mem_cons_self _ _), ?_, h2⟩
  rw [h1.countP_eq, List.countP_cons]
  have hself : serviceFailureFor
      (if '.' ∈ k.drop AnnotationKeyServicePrefix.length then msgServiceParams ++ k
        else msgServiceVersion ++ k) k = true := by
    unfold serviceFailureFor
    by_cases hdot : '.' ∈ k.drop AnnotationKeyServicePrefix.length
    · simp [if_pos hdot]
    · simp [if_neg hdot]
  have hrest : (parseServiceAnnotations parse (withoutKey m k) c).2.countP
      (fun e => serviceFailureFor e k) = 0 := by
    rw [List.countP_eq_zero]
    intro e he
    rw [parseServiceAnnotations_snd] at he
    obtain ⟨kv, hkv, hce⟩ := (mem_failures parse _ e).1 he
    have hne : kv.1 ≠ k := by
      have := ((mem_without m k kv).1 hkv).2
      exact this
    rw [other_key_failure parse k kv.1 kv.2 e hp hn hne hce]
    exact Bool.false_ne_true
  rw [hrest, hself]
  rfl

/-- C27 on the keys of the claim: in a map with `service.netflix.com`,
`service.netflix.com.au/x` and a valid `enabled` entry, the first key records
the version failure, the second the segment-count failure, each once, and the
one record is that of the valid entry. -/
theorem C27_prefix_without_slash_witness :
    (msgServiceVersion ++ "service.netflix.com".toList
        ∈ (parseServiceAnnotations referenceParse
            [("service.netflix.com".toList, "x".toList),
              ("service.netflix.com.au/x".toList, "y".toList),
              ("service.netflix.com/svc.v1.enabled".toList, "true".toList)] {}).2
      ∧ (parseServiceAnnotations referenceParse
            [("service.netflix.com".toList, "x".toList),
              ("service.netflix.com.au/x".toList, "y".toList),
              ("service.netflix.com/svc.v1.enabled".toList, "true".toList)] {}).2.countP
            (fun e => serviceFailureFor e "service.netflix.com".toList) = 1)
    ∧ (msgServiceParams ++ "service.netflix.com.au/x".toList
        ∈ (parseServiceAnnotations referenceParse
            [("service.netflix.com".toList, "x".toList),
              ("service.netflix.com.au/x".toList, "y".toList),
              ("service.netflix.com/svc.v1.enabled".toList, "true".toList)] {}).2
      ∧ (parseServiceAnnotations referenceParse
            [("service.netflix.com".toList, "x".toList),
              ("service.netflix.com.au/x".toList, "y".toList),
              ("service.netflix.com/svc.v1.enabled".toList, "true".toList)] {}).2.countP
            (fun e => serviceFailureFor e "service.netflix.com.au/x".toList) = 1)
    ∧ serviceResult referenceParse
        [("service.netflix.com".toList, "x".toList),
          ("service.netflix.com.au/x".toList, "y".toList),
          ("service.netflix.com/svc.v1.enabled".toList, "true".toList)]
      = ([{ Name := "svc".toList, Version := 1, Enabled := true, Image := [] }],
          [msgServiceVersion ++ "service.netflix.com".toList,
            msgServiceParams ++ "service.netflix.com.au/x".toList]) :=
  ⟨⟨(C27_prefix_without_slash referenceParse
        [("service.netflix.com".toList, "x".toList),
          ("service.netflix.com.au/x".toList, "y".toList),
          ("service.netflix.com/svc.v1.enabled".toList, "true".toList)] {}
        "service.netflix.com".toList "x".toList (by decide) (by decide) (by decide)
        (by decide)).1,
      (C27_prefix_without_slash referenceParse
        [("service.netflix.com".toList, "x".toList),
          ("service.netflix.com.au/x".toList, "y".toList),
          ("service.netflix.com/svc.v1.enabled".toList, "true".toList)] {}
        "service.netflix.com".toList "x".toList (by decide) (by decide) (by decide)
        (by decide)).2.1⟩,
    ⟨(C27_prefix_without_slash referenceParse
        [("service.netflix.com".toList, "x".toList),
          ("service.netflix.com.au/x".toList, "y".toList),
          ("service.netflix.com/svc.v1.enabled".toList, "true".toList)] {}
        "service.netflix.com.au/x".toList "y".toList (by decide) (by decide) (by decide)
        (by decide)).1,
      (C27_prefix_without_slash referenceParse
        [("service.netflix.com".toList, "x".toList),
          ("service.netflix.com.au/x".toList, "y".toList),
          ("service.netflix.com/svc.v1.enabled".toList, "true".toList)] {}
        "service.netflix.com.au/x".toList "y".toList (by decide) (by decide) (by decide)
        (by decide)).2.1⟩,
    by decide⟩
end Pod
